import Mathlib

/-!
pole-rpc containers and scheduler: a shallow embedding

Embedding of `container_utils.go` (Segment, SegmentList, the binary search tree) and of
`scheduler.go` (the time wheel, the routine pool, the futures).

Conventions
* `int32` / `int64` values are `Int`; every arithmetic result is wrapped by `i32` / `i64`;
  `len` is Go's builtin on slices.
* `interface{}` values are `Option α`, `none` being Go's `nil`.
* A `*Segment` is an address into the heap of the list that owns it, so that a segment
  that sits both in `segments` and in the `sync.Pool` is one object.
* A run-time panic (index or slice bound out of range) is `none`; loops carry a fuel that
  bounds their iterations, and a loop that would need more returns `none` as well.
* `sync.Pool.Get` may hand out any pooled object or ignore the pool; the caller passes
  the choice as `pick`.
* A value passed or stored by value (a `timeTask`, the receiver of `worker.run`) is a copy:
  the model keeps one value per copy.
* Goroutines, timers and channels are not run: a `select` takes its outcome from an argument,
  a channel is the list of what was sent, a worker loop is a function of the tasks the
  channel delivers to it.
-/

namespace PoleRpc

/-! ## Machine integers and slices -/

/-- Two's complement wrap-around of Go's `int32`. -/
def i32 (x : Int) : Int := (x + 2147483648) % 4294967296 - 2147483648

/-- Two's complement wrap-around of Go's `int64`. -/
def i64 (x : Int) : Int := (x + 9223372036854775808) % 18446744073709551616 - 9223372036854775808

/-- Largest `int32`. -/
def MaxInt32 : Int := 2147483647

/-- Go's builtin `len` of a slice, as an integer. -/
def len {β : Type} : List β → Int
  | [] => 0
  | _ :: t => len t + 1

/-- Go `xs[i]` as a read: `none` when `i` is out of range (the program panics). -/
def sliceGet {β : Type} (xs : List β) (i : Int) : Option β :=
  if 0 ≤ i then xs[i.toNat]? else none

/-- Go `xs[i] = v`: `none` when `i` is out of range (the program panics). -/
def sliceSet {β : Type} (xs : List β) (i : Int) (v : β) : Option (List β) :=
  if 0 ≤ i ∧ i.toNat < xs.length then some (xs.set i.toNat v) else none

/-- Go `xs[i:]`: `none` when `i` is out of range (the program panics). -/
def sliceFrom {β : Type} (xs : List β) (i : Int) : Option (List β) :=
  if 0 ≤ i ∧ i.toNat ≤ xs.length then some (xs.drop i.toNat) else none

/-- Go `xs[:j]`: `none` when `j` is out of range (the program panics). -/
def sliceTo {β : Type} (xs : List β) (j : Int) : Option (List β) :=
  if 0 ≤ j ∧ j.toNat ≤ xs.length then some (xs.take j.toNat) else none

/-! ## Segment -/

/-- The constant `SegmentShift`. -/
def SegmentShift : Nat := 7

/-- The constant `SegmentSize = 2 << (SegmentShift - 1)`. -/
def SegmentSize : Int := 2 * 2 ^ (SegmentShift - 1)

/-- The struct `Segment` (its `owner` is the list whose heap holds it). -/
structure Segment (α : Type) where
  elements : List (Option α)
  pos : Int
  offset : Int
  deriving DecidableEq, Repr

/-- What `Get` returns: `(v, nil)`, `(nil, fmt.Errorf(IndexOutOfBoundErrMsg, index, offset, pos))`,
or a run-time panic. -/
inductive GetResult (α : Type) where
  | value (v : Option α)
  | indexOutOfBound (index offset pos : Int)
  | panics
  deriving DecidableEq, Repr

/-- The function `FillTargetElement`: every slot of `array` is overwritten by `e`. -/
def FillTargetElement {β : Type} (array : List β) (e : β) : List β :=
  array.map (fun _ => e)

/-- The loop of `ArrayCopy`: `for i := srcPos; i < length; i++ { target[ti] = src[i]; ti++ }`. -/
def ArrayCopyLoop {β : Type} (src : List β) (length : Int) :
    Nat → List β → Int → Int → Option (List β)
  | 0, target, i, _ => if i < length then none else some target
  | fuel + 1, target, i, ti =>
    if i < length then
      match sliceGet src i with
      | none => none
      | some v =>
        match sliceSet target ti v with
        | none => none
        | some target1 => ArrayCopyLoop src length fuel target1 (i32 (i + 1)) (i32 (ti + 1))
    else some target

/-- The function `ArrayCopy(src, srcPos, target, targetPos, length)`; returns the new `target`. -/
def ArrayCopy {β : Type} (src : List β) (srcPos : Int) (target : List β) (targetPos : Int)
    (length : Int) : Option (List β) :=
  ArrayCopyLoop src length (length - srcPos).toNat target srcPos targetPos

namespace Segment

variable {α : Type}

/-- The constructor `NewSegment`. -/
def NewSegment : Segment α :=
  { elements := List.replicate SegmentSize.toNat none, pos := 0, offset := 0 }

/-- The method `Segment.Clear`. -/
def Clear (s : Segment α) : Segment α :=
  { elements := FillTargetElement s.elements none, pos := 0, offset := 0 }

/-- The method `Segment.Cap`. -/
def Cap (s : Segment α) : Int := i32 (SegmentSize - s.pos)

/-- The method `Segment.AddAll(src, srcPos, size)`. -/
def AddAll (s : Segment α) (src : List (Option α)) (srcPos size : Int) : Option (Segment α) :=
  match ArrayCopy src srcPos s.elements s.pos size with
  | none => none
  | some els => some { s with elements := els, pos := i32 (s.pos + size) }

/-- The method `Segment.Add`. -/
def Add (s : Segment α) (e : Option α) : Option (Segment α) :=
  match sliceSet s.elements s.pos e with
  | none => none
  | some els => some { s with elements := els, pos := i32 (s.pos + 1) }

/-- The method `Segment.Get`. -/
def Get (s : Segment α) (index : Int) : GetResult α :=
  if ¬ (index < s.pos ∧ index ≥ s.offset) then
    GetResult.indexOutOfBound index s.offset s.pos
  else
    match sliceGet s.elements index with
    | none => GetResult.panics
    | some v => GetResult.value v

/-- The method `Segment.PeekFirst`. -/
def PeekFirst (s : Segment α) : Option (Option α) := sliceGet s.elements s.offset

/-- The method `Segment.PeekLast`. -/
def PeekLast (s : Segment α) : Option (Option α) := sliceGet s.elements (i32 (s.pos - 1))

/-- The loop of `Segment.RemoveFromFirstWhen`, from index `i` with `removed` counted so far;
returns the slots and the final `removed`. -/
def removeFromFirstWhenLoop (predicate : Option α → Bool) (pos : Int) :
    Nat → List (Option α) → Int → Int → Option (List (Option α) × Int)
  | 0, elements, i, removed => if i < pos then none else some (elements, removed)
  | fuel + 1, elements, i, removed =>
    if i < pos then
      match sliceGet elements i with
      | none => none
      | some e =>
        if predicate e then
          match sliceSet elements i none with
          | none => none
          | some elements1 =>
            removeFromFirstWhenLoop predicate pos fuel elements1 (i32 (i + 1)) (i32 (removed + 1))
        else some (elements, removed)
    else some (elements, removed)

/-- The method `Segment.RemoveFromFirstWhen`; returns the segment and `removed`. -/
def RemoveFromFirstWhen (s : Segment α) (predicate : Option α → Bool) :
    Option (Segment α × Int) :=
  match removeFromFirstWhenLoop predicate s.pos (s.pos - s.offset).toNat s.elements s.offset 0 with
  | none => none
  | some (els, removed) => some ({ s with elements := els, offset := i32 (s.offset + removed) }, removed)

/-- The loop of `Segment.RemoveFromLastWhen`, from index `i` downwards. -/
def removeFromLastWhenLoop (predicate : Option α → Bool) (offset : Int) :
    Nat → List (Option α) → Int → Int → Option (List (Option α) × Int)
  | 0, elements, i, removed => if i ≥ offset then none else some (elements, removed)
  | fuel + 1, elements, i, removed =>
    if i ≥ offset then
      match sliceGet elements i with
      | none => none
      | some e =>
        if predicate e then
          match sliceSet elements i none with
          | none => none
          | some elements1 =>
            removeFromLastWhenLoop predicate offset fuel elements1 (i32 (i - 1)) (i32 (removed + 1))
        else some (elements, removed)
    else some (elements, removed)

/-- The method `Segment.RemoveFromLastWhen`; returns the segment and `removed`. -/
def RemoveFromLastWhen (s : Segment α) (predicate : Option α → Bool) :
    Option (Segment α × Int) :=
  match removeFromLastWhenLoop predicate s.offset (s.pos - s.offset).toNat s.elements
      (i32 (s.pos - 1)) 0 with
  | none => none
  | some (els, removed) => some ({ s with elements := els, pos := i32 (s.pos - removed) }, removed)

/-- The loop of `Segment.RemoveFromFirst`; `bound` is `int32(math.Max(float64(toIndex), float64(s.pos)))`,
exact because every `int32` is a `float64`. -/
def removeFromFirstLoop (bound : Int) :
    Nat → List (Option α) → Int → Int → Option (List (Option α) × Int)
  | 0, elements, i, removed => if i < bound then none else some (elements, removed)
  | fuel + 1, elements, i, removed =>
    if i < bound then
      match sliceSet elements i none with
      | none => none
      | some elements1 => removeFromFirstLoop bound fuel elements1 (i32 (i + 1)) (i32 (removed + 1))
    else some (elements, removed)

/-- The method `Segment.RemoveFromFirst(toIndex)`; returns the segment and `removed`. -/
def RemoveFromFirst (s : Segment α) (toIndex : Int) : Option (Segment α × Int) :=
  let bound := max toIndex s.pos
  match removeFromFirstLoop bound (bound - s.offset).toNat s.elements s.offset 0 with
  | none => none
  | some (els, removed) => some ({ s with elements := els, offset := i32 (s.offset + removed) }, removed)

/-- A run of `Segment.Add` calls, one per element. -/
def AddSeq (s : Segment α) : List (Option α) → Option (Segment α)
  | [] => some s
  | e :: rest =>
    match s.Add e with
    | none => none
    | some s1 => AddSeq s1 rest

/-- The method `Segment.IsReachEnd`. -/
def IsReachEnd (s : Segment α) : Bool := decide (s.pos = SegmentSize)

/-- The method `Segment.Size`. -/
def Size (s : Segment α) : Int := i32 (s.pos - s.offset)

/-- The method `Segment.IsEmpty`. -/
def IsEmpty (s : Segment α) : Bool := decide (s.Size = 0)

end Segment

/-! ## SegmentList -/

/-- The struct `SegmentList`, with the objects its pointers refer to: `heap a` is the
segment at address `a`, addresses below `next` are allocated, `pool` is the content of
the `sync.Pool`, `segments` the slice of segment pointers. -/
structure SegmentList (α : Type) where
  heap : Nat → Segment α
  next : Nat
  pool : List Nat
  segments : List Nat
  firstOffset : Int
  size : Int

namespace SegmentList

variable {α : Type}

/-- The constructor `NewSegmentList`. -/
def NewSegmentList : SegmentList α :=
  { heap := fun _ => Segment.NewSegment, next := 0, pool := [], segments := [],
    firstOffset := 0, size := 0 }

/-- The call `sl.pool.Get().(*Segment)`: the pooled object number `i` when `pick = some i`
and the pool holds that many, a segment made by `New` (that is `NewSegment(sl)`) otherwise. -/
def poolGet (sl : SegmentList α) (pick : Option Nat) : Nat × SegmentList α :=
  match pick.bind (fun i => (sl.pool[i]?).map (fun a => (i, a))) with
  | some (i, a) => (a, { sl with pool := sl.pool.eraseIdx i })
  | none =>
    (sl.next, { sl with heap := Function.update sl.heap sl.next Segment.NewSegment,
                        next := sl.next + 1 })

/-- The call `sl.pool.Put(s)`. -/
def poolPut (sl : SegmentList α) (a : Nat) : SegmentList α :=
  { sl with pool := a :: sl.pool }

/-- The method `Segment.recycle` of the segment at address `a`. -/
def recycle (sl : SegmentList α) (a : Nat) : SegmentList α :=
  poolPut { sl with heap := Function.update sl.heap a (sl.heap a).Clear } a

/-- The method `SegmentList.Get`. -/
def Get (sl : SegmentList α) (index : Int) : GetResult α :=
  let index := i32 (index + sl.firstOffset)
  let slot := Int.tdiv index 128
  let i := Int.tmod index 128
  match sliceGet sl.segments slot with
  | none => GetResult.panics
  | some a => (sl.heap a).Get i

/-- The method `SegmentList.GetFirst` (`none` is the nil pointer). -/
def GetFirst (sl : SegmentList α) : Option Nat := sl.segments.head?

/-- The method `SegmentList.GetLast` (`none` is the nil pointer). -/
def GetLast (sl : SegmentList α) : Option Nat := sl.segments.getLast?

/-- The method `SegmentList.PeekFirst`; `none` is a panic (nil receiver or index out of range). -/
def PeekFirst (sl : SegmentList α) : Option (Option α) :=
  match sl.GetFirst with
  | none => none
  | some f => (sl.heap f).PeekFirst

/-- The method `SegmentList.PeekLast`; `none` is a panic (nil receiver or index out of range). -/
def PeekLast (sl : SegmentList α) : Option (Option α) :=
  match sl.GetLast with
  | none => none
  | some l => (sl.heap l).PeekLast

/-- The two statements `lastSeg = sl.pool.Get().(*Segment); sl.segments = append(sl.segments, lastSeg)`. -/
def acquire (sl : SegmentList α) (pick : Option Nat) : Nat × SegmentList α :=
  let r := sl.poolGet pick
  (r.1, { r.2 with segments := r.2.segments ++ [r.1] })

/-- The test `lastSeg == nil || lastSeg.IsReachEnd()`. -/
def needsSegment (sl : SegmentList α) (lastSeg : Option Nat) : Bool :=
  match lastSeg with
  | none => true
  | some a => (sl.heap a).IsReachEnd

/-- The method `SegmentList.Add`. -/
def Add (sl : SegmentList α) (e : Option α) (pick : Option Nat) : Option (SegmentList α) :=
  let r : Nat × SegmentList α :=
    match sl.GetLast with
    | none => sl.acquire pick
    | some a => if (sl.heap a).IsReachEnd then sl.acquire pick else (a, sl)
  match (r.2.heap r.1).Add e with
  | none => none
  | some seg => some { r.2 with heap := Function.update r.2.heap r.1 seg, size := i32 (r.2.size + 1) }

/-- The method `SegmentList.Size`. -/
def Size (sl : SegmentList α) : Int := sl.size

/-- The method `SegmentList.SegmentsSize`. -/
def SegmentsSize (sl : SegmentList α) : Int := i32 (len sl.segments)

/-- The method `SegmentList.IsEmpty`. -/
def IsEmpty (sl : SegmentList α) : Bool := decide (sl.size = 0)

/-- The loop of `SegmentList.RemoveFromFirstWhen`, with the local `firstSeg`. -/
def removeFromFirstWhenLoop (predicate : Option α → Bool) :
    Nat → SegmentList α → Option Nat → Option (SegmentList α)
  | 0, _, _ => none
  | fuel + 1, sl, firstSeg =>
    match firstSeg with
    | none => some { sl with firstOffset := 0, size := 0 }
    | some a =>
      match (sl.heap a).RemoveFromFirstWhen predicate with
      | none => none
      | some (seg, removed) =>
        let sl1 := { sl with heap := Function.update sl.heap a seg }
        if removed = 0 then some sl1
        else
          let sl2 := { sl1 with size := i32 (sl1.size - removed), firstOffset := seg.offset }
          if seg.IsEmpty then
            match sliceFrom sl2.segments 1 with
            | none => none
            | some rest =>
              let sl3 := recycle { sl2 with segments := rest } a
              removeFromFirstWhenLoop predicate fuel { sl3 with firstOffset := 0 } sl3.GetFirst
          else removeFromFirstWhenLoop predicate fuel sl2 (some a)

/-- The method `SegmentList.RemoveFromFirstWhen`. Every pass but the last either detaches a
segment or is followed by a pass that removes nothing, hence the fuel. -/
def RemoveFromFirstWhen (sl : SegmentList α) (predicate : Option α → Bool) :
    Option (SegmentList α) :=
  removeFromFirstWhenLoop predicate (2 * sl.segments.length + 2) sl sl.GetFirst

/-- The loop of `SegmentList.RemoveFromLastWhen`, with the local `lastSeg`. -/
def removeFromLastWhenLoop (predicate : Option α → Bool) :
    Nat → SegmentList α → Option Nat → Option (SegmentList α)
  | 0, _, _ => none
  | fuel + 1, sl, lastSeg =>
    match lastSeg with
    | none => some { sl with firstOffset := 0, size := 0 }
    | some a =>
      match (sl.heap a).RemoveFromLastWhen predicate with
      | none => none
      | some (seg, removed) =>
        let sl1 := { sl with heap := Function.update sl.heap a seg }
        if removed = 0 then some sl1
        else
          let sl2 := { sl1 with size := i32 (sl1.size - removed) }
          if seg.IsEmpty then
            match sliceTo sl2.segments (i32 (sl2.SegmentsSize - 1)) with
            | none => none
            | some rest =>
              let sl3 := recycle { sl2 with segments := rest } a
              removeFromLastWhenLoop predicate fuel sl3 sl3.GetLast
          else removeFromLastWhenLoop predicate fuel sl2 (some a)

/-- The method `SegmentList.RemoveFromLastWhen`. -/
def RemoveFromLastWhen (sl : SegmentList α) (predicate : Option α → Bool) :
    Option (SegmentList α) :=
  removeFromLastWhenLoop predicate (2 * sl.segments.length + 2) sl sl.GetLast

/-- The method `SegmentList.RemoveFromFirst`. -/
def RemoveFromFirst (sl : SegmentList α) (toIndex : Int) : Option (SegmentList α) :=
  let alignedIndex := i32 (sl.firstOffset + toIndex)
  let toSegIndex := Int.tdiv alignedIndex SegmentSize
  let toIndexInSeg := Int.tmod alignedIndex SegmentSize
  let cut : Option (SegmentList α) :=
    if toSegIndex > 0 then
      match sliceFrom sl.segments (i32 (toIndexInSeg - 1)) with
      | none => none
      | some rest =>
        some { sl with segments := rest, size := i32 (i32 (toSegIndex * SegmentSize) - sl.firstOffset) }
    else some sl
  match cut with
  | none => none
  | some sl1 =>
    match sl1.GetFirst with
    | some a =>
      match (sl1.heap a).RemoveFromFirst toIndexInSeg with
      | none => none
      | some (seg, removed) =>
        let sl2 := { sl1 with heap := Function.update sl1.heap a seg,
                              size := i32 (sl1.size - removed), firstOffset := seg.offset }
        if seg.IsEmpty then
          let sl3 := recycle sl2 a
          some { sl3 with firstOffset := 0 }
        else some sl2
    | none => some { sl1 with firstOffset := 0, size := 0 }

/-- The loop of `SegmentList.AddAll`, with the locals `lastSeg` and `srcPos`; `picks` are the
choices of the successive `sl.pool.Get()` calls. -/
def addAllLoop (arr : List (Option α)) (srcSize : Int) :
    Nat → SegmentList α → Option Nat → Int → List (Option Nat) → Option (SegmentList α)
  | 0, sl, _, srcPos, _ => if srcPos < srcSize then none else some sl
  | fuel + 1, sl, lastSeg, srcPos, picks =>
    if srcPos < srcSize then
      let r : Nat × SegmentList α × List (Option Nat) :=
        match lastSeg with
        | none => ((sl.acquire picks.head?.join).1, (sl.acquire picks.head?.join).2, picks.tail)
        | some a =>
          if (sl.heap a).IsReachEnd then
            ((sl.acquire picks.head?.join).1, (sl.acquire picks.head?.join).2, picks.tail)
          else (a, sl, picks)
      let l := i32 (min (i32 (srcSize - srcPos)) (r.2.1.heap r.1).Cap)
      match (r.2.1.heap r.1).AddAll arr srcPos l with
      | none => none
      | some seg =>
        addAllLoop arr srcSize fuel
          { r.2.1 with heap := Function.update r.2.1.heap r.1 seg, size := i32 (r.2.1.size + l) }
          (some r.1) (i32 (srcPos + l)) r.2.2
    else some sl

/-- The method `SegmentList.AddAll`. A pass that copies nothing has taken a full segment
out of the pool, hence the fuel. -/
def AddAll (sl : SegmentList α) (arr : List (Option α)) (picks : List (Option Nat)) :
    Option (SegmentList α) :=
  addAllLoop arr (i32 (len arr)) (arr.length + picks.length + 1) sl sl.GetLast 0 picks

/-- The method `SegmentList.Clear`. -/
def Clear (sl : SegmentList α) : SegmentList α :=
  { sl.segments.foldl (fun s seg => s.recycle seg) sl with size := 0 }

/-- A run of `Add` calls, one per element, each with the choice its `pool.Get` would make. -/
def AddSeq (sl : SegmentList α) : List (Option α × Option Nat) → Option (SegmentList α)
  | [] => some sl
  | (e, pick) :: rest =>
    match sl.Add e pick with
    | none => none
    | some sl1 => AddSeq sl1 rest

end SegmentList

/-! ## Time wheel -/

/-- The struct `Options`; `Interval` is a `time.Duration`, a number of nanoseconds. -/
structure Options where
  Tick : Int
  SlotNum : Int
  Interval : Int
  MaxDealTask : Int
  deriving DecidableEq, Repr

/-- The struct `timeTask`; `f` is the `TimeFunction` (`none` is the nil interface). -/
structure timeTask (F : Type) where
  isCancel : Int
  circle : Int
  f : Option F
  delay : Int
  deriving DecidableEq, Repr

/-- The struct `timeBucket`: the pending `queue` and the content of the channel `worker`. -/
structure timeBucket (F : Type) where
  queue : List (timeTask F)
  worker : List (timeTask F)
  deriving DecidableEq, Repr

/-- The struct `timeWheelFuture`: `task` is the object its pointer refers to, the local
variable `task` of `DelayExec`, of which `addUserTask` received a copy. -/
structure timeWheelFuture (F : Type) where
  task : timeTask F
  deriving DecidableEq, Repr

/-- The struct `HashTimeWheel` (buckets and options). -/
structure HashTimeWheel (F : Type) where
  buckets : List (timeBucket F)
  opts : Options
  deriving DecidableEq, Repr

namespace timeBucket

variable {F : Type}

/-- The method `timeBucket.addUserTask`: `tb.queue.PushBack(t)`. -/
def addUserTask (tb : timeBucket F) (t : timeTask F) : timeBucket F :=
  { tb with queue := tb.queue ++ [t] }

end timeBucket

namespace HashTimeWheel

variable {F : Type}

/-- The method `HashTimeWheel.getSlots`. The argument `seconds` stands for
`fun d => int64(d.Seconds())`, whose floating point conversion is not part of the embedding.
`none` is the panic of an integer division by zero. -/
def getSlots (seconds : Int → Int) (htw : HashTimeWheel F) (d : Int) : Option (Int × Int) :=
  let delayTime := seconds d
  let interval := seconds htw.opts.Interval
  if interval = 0 then none
  else if htw.opts.SlotNum = 0 then none
  else
    some (i32 (Int.tmod (i32 (i64 (htw.opts.Tick + i64 (Int.tdiv delayTime interval)))) htw.opts.SlotNum),
          i32 (i64 (Int.tdiv (i64 (Int.tdiv delayTime interval)) htw.opts.SlotNum)))

/-- The method `HashTimeWheel.DelayExec`; returns the wheel and the future. -/
def DelayExec (seconds : Int → Int) (htw : HashTimeWheel F) (f : F) (delay : Int) :
    Option (HashTimeWheel F × timeWheelFuture F) :=
  match htw.getSlots seconds delay with
  | none => none
  | some (pos, circ) =>
    let task : timeTask F := { isCancel := 0, circle := circ, f := some f, delay := delay }
    match sliceGet htw.buckets pos with
    | none => none
    | some bucket =>
      some ({ htw with buckets := htw.buckets.set pos.toNat (bucket.addUserTask task) },
            { task := task })

/-- The loop of `scanExpireAndRun` over the queue: `kept` are the items passed and left in
the queue, the second list starts at `item`. `sel n` tells which case the `select` of the
`n`-th call of `deal` runs: `true` for the send `tb.worker <- task`, `false` for
`<-timeout.C`. -/
def scanLoop (maxDealTaskCnt : Int) (sel : Nat → Bool) :
    List (timeTask F) → List (timeTask F) → List (timeTask F) → Int → Nat → timeBucket F
  | kept, [], worker, _, _ => { queue := kept, worker := worker }
  | kept, task :: rest, worker, execCnt, deals =>
    if maxDealTaskCnt ≥ execCnt then
      if task.circle < 0 then
        if sel deals then
          scanLoop maxDealTaskCnt sel kept rest (worker ++ [task]) (i32 (execCnt + 1)) (deals + 1)
        else
          scanLoop maxDealTaskCnt sel (kept ++ [task]) rest worker execCnt (deals + 1)
      else
        -- `task.circle -= 1` assigns to the local copy `task`, not to the list element
        let _task : timeTask F := { task with circle := i32 (task.circle - 1) }
        scanLoop maxDealTaskCnt sel (kept ++ [task]) rest worker execCnt deals
    else { queue := kept ++ task :: rest, worker := worker }

/-- The method `HashTimeWheel.scanExpireAndRun` on the bucket `tb`; returns the bucket. -/
def scanExpireAndRun (htw : HashTimeWheel F) (tb : timeBucket F) (sel : Nat → Bool) :
    timeBucket F :=
  scanLoop htw.opts.MaxDealTask sel [] tb.queue tb.worker 0 0

/-- The method `HashTimeWheel.process`; `sel` gives the outcomes of the selects of its scan.
The scan works on the bucket `htw.buckets[htw.opts.Tick]` points to. `none` is a panic: the
index out of range, or the remainder of a division by zero. -/
def process (htw : HashTimeWheel F) (sel : Nat → Bool) : Option (HashTimeWheel F) :=
  match sliceGet htw.buckets htw.opts.Tick with
  | none => none
  | some currentBucket =>
    if htw.opts.SlotNum = 0 then none
    else
      some { buckets := htw.buckets.set htw.opts.Tick.toNat (htw.scanExpireAndRun currentBucket sel),
             opts := { htw.opts with
                       Tick := i64 (Int.tmod (i64 (htw.opts.Tick + 1)) htw.opts.SlotNum) } }

/-- The loop `for i := htw.opts.SlotNum; i > 0; i-- { htw.process() }` of
`clearAllAndProcess`; `k` counts the calls made so far and `sels k` gives the outcomes of
the selects of call number `k`. -/
def clearAllAndProcessLoop (sels : Nat → Nat → Bool) :
    Nat → HashTimeWheel F → Int → Nat → Option (HashTimeWheel F)
  | 0, htw, i, _ => if i > 0 then none else some htw
  | fuel + 1, htw, i, k =>
    if i > 0 then
      match htw.process (sels k) with
      | none => none
      | some htw1 => clearAllAndProcessLoop sels fuel htw1 (i32 (i - 1)) (k + 1)
    else some htw

/-- The method `HashTimeWheel.clearAllAndProcess`. -/
def clearAllAndProcess (htw : HashTimeWheel F) (sels : Nat → Nat → Bool) :
    Option (HashTimeWheel F) :=
  clearAllAndProcessLoop sels htw.opts.SlotNum.toNat htw htw.opts.SlotNum 0

end HashTimeWheel

/-! ## Time wheel: futures, periodic tasks, construction -/

namespace timeWheelFuture

variable {F : Type}

/-- The method `timeWheelFuture.Cancel`: `atomic.StoreInt32(&f.task.isCancel, 1)`, a store
into the task object the future points to. -/
def Cancel (fut : timeWheelFuture F) : timeWheelFuture F :=
  { fut with task := { fut.task with isCancel := 1 } }

end timeWheelFuture

/-- A `TimeFunction` value: a function `user u` handed in by the caller, or a pointer to a
`wrapTimeFunction`, given by its fields `target`, `task` and `period` (its `wheel` is the
wheel the methods are run on). -/
inductive TimeFunction (U : Type) where
  | user (u : U)
  | wrap (target : U) (task : timeTask (TimeFunction U)) (period : Int)

namespace timeBucket

variable {F : Type}

/-- The method `timeBucket.execUserTask` on the tasks received from the channel `worker`:
returns the functions it runs, in order, and whether it ended in a panic. It returns at the
first cancelled task; `task.f.Run()` on a nil `f` panics, which ends the consumer. -/
def execUserTask : List (timeTask F) → List F × Bool
  | [] => ([], false)
  | task :: rest =>
    if task.isCancel = 1 then ([], false)
    else
      match task.f with
      | none => ([], true)
      | some f => (f :: (execUserTask rest).1, (execUserTask rest).2)

/-- The constructor `newTimeBucket` (the consumer it hands to `GoEmpty` is not part of the
state). -/
def newTimeBucket : timeBucket F := { queue := [], worker := [] }

end timeBucket

namespace HashTimeWheel

variable {U : Type}

/-- The method `HashTimeWheel.ScheduleExec`; returns the wheel and the future. The
`wrapTimeFunction` receives the value `task` has when the composite literal is evaluated,
before `task.f` is assigned. -/
def ScheduleExec (seconds : Int → Int) (htw : HashTimeWheel (TimeFunction U)) (f : U)
    (delay period : Int) :
    Option (HashTimeWheel (TimeFunction U) × timeWheelFuture (TimeFunction U)) :=
  match htw.getSlots seconds delay with
  | none => none
  | some (pos, circ) =>
    let task0 : timeTask (TimeFunction U) :=
      { isCancel := 0, circle := circ, f := none, delay := delay }
    let task : timeTask (TimeFunction U) :=
      { task0 with f := some (TimeFunction.wrap f task0 period) }
    match sliceGet htw.buckets pos with
    | none => none
    | some bucket =>
      some ({ htw with buckets := htw.buckets.set pos.toNat (bucket.addUserTask task) },
            { task := task })

/-- The method `wrapTimeFunction.Run` of the wrapper with fields `target`, `task`, `period`
on the wheel `htw`: returns the wheel left by the deferred function and the target that
ran. `none` is a panic of the deferred function. -/
def wrapRun (seconds : Int → Int) (htw : HashTimeWheel (TimeFunction U)) (target : U)
    (task : timeTask (TimeFunction U)) (period : Int) :
    Option (HashTimeWheel (TimeFunction U) × U) :=
  if task.isCancel = 1 then some (htw, target)
  else
    match htw.getSlots seconds period with
    | none => none
    | some (pos, _) =>
      match sliceGet htw.buckets pos with
      | none => none
      | some bucket =>
        some ({ htw with buckets := htw.buckets.set pos.toNat (bucket.addUserTask task) },
              target)

/-- The call `task.f.Run()` of the bucket consumer on the wheel `htw`: a user function
runs, a wrapper runs `wrapTimeFunction.Run`. Returns the wheel and the user function that
ran. -/
def runTimeFunction (seconds : Int → Int) (htw : HashTimeWheel (TimeFunction U)) :
    TimeFunction U → Option (HashTimeWheel (TimeFunction U) × U)
  | TimeFunction.user u => some (htw, u)
  | TimeFunction.wrap target task period => wrapRun seconds htw target task period

/-- The loop `for i := int32(0); i < opts.SlotNum; i++ { htw.buckets[i] = newTimeBucket() }`
of `NewTimeWheel`, on a slice of bucket pointers (`none` is a nil pointer). -/
def fillBuckets {F : Type} (slotNum : Int) :
    Nat → List (Option (timeBucket F)) → Int → Option (List (Option (timeBucket F)))
  | 0, buckets, i => if i < slotNum then none else some buckets
  | fuel + 1, buckets, i =>
    if i < slotNum then
      match sliceSet buckets i (some timeBucket.newTimeBucket) with
      | none => none
      | some buckets1 => fillBuckets slotNum fuel buckets1 (i32 (i + 1))
    else some buckets

/-- The constructor `NewTimeWheel`, from the options left by the option functions. `none`
is a panic: `time.NewTicker` of a non-positive interval, `make([]*timeBucket, len, cap)` with
`len = opts.Interval` negative or above `cap = opts.SlotNum`, or an index out of range in
the loop. -/
def NewTimeWheel {F : Type} (opts : Options) : Option (HashTimeWheel F) :=
  if opts.Interval ≤ 0 then none
  else if opts.Interval < 0 ∨ opts.SlotNum < opts.Interval then none
  else
    match fillBuckets opts.SlotNum opts.SlotNum.toNat
        (List.replicate opts.Interval.toNat (none : Option (timeBucket F))) 0 with
    | none => none
    | some buckets => some { buckets := buckets.filterMap id, opts := opts }

end HashTimeWheel

/-! ## Routine pool -/

/-- The struct `worker` (its `owner` is the pool the methods are run on). -/
structure worker where
  shutdown : Int
  deriving DecidableEq, Repr

/-- A task as the worker sees it: `outcome = none` when the function returns, `some err` when
it panics with the non-nil value `err`. -/
structure PoolTask (E : Type) where
  id : Nat
  outcome : Option E
  deriving DecidableEq, Repr

/-- What a worker does: it calls the task `id`, it calls the panic handler with `err`. -/
inductive WorkerEvent (E : Type) where
  | executed (id : Nat)
  | handled (err : E)
  deriving DecidableEq, Repr

/-- The struct `RoutinePool`: `lock` is `none` for the nil interface, `taskChan` is the
content of the channel, `submitted` are the receivers of the `run` method values handed to
`GoEmpty`, each a copy of the worker at that moment. -/
structure RoutinePool (E : Type) where
  lock : Option Unit
  size : Int
  cacheSize : Int
  isRunning : Int
  taskChan : List (PoolTask E)
  closed : Bool
  workers : List worker
  submitted : List worker
  deriving DecidableEq, Repr

namespace worker

variable {E : Type}

/-- The closure `deal` of `worker.run`: the task is called, a panic is recovered and handed
to the panic handler. -/
def deal (task : PoolTask E) : List (WorkerEvent E) :=
  match task.outcome with
  | none => [WorkerEvent.executed task.id]
  | some err => [WorkerEvent.executed task.id, WorkerEvent.handled err]

/-- The method `worker.run` with receiver `w`, on the tasks the `range` over the channel
delivers to it, in order, up to the close of the channel; `isRunning n` is the value of
`owner.isRunning` loaded after the `n`-th task. Returns the events in order. -/
def run (w : worker) (isRunning : Nat → Int) : List (PoolTask E) → Nat → List (WorkerEvent E)
  | [], _ => []
  | task :: rest, n =>
    if w.shutdown = 1 then []
    else if isRunning n = 0 then deal task
    else deal task ++ run w isRunning rest (n + 1)

/-- The tasks the loop `for task := range w.owner.taskChan` of `worker.run` takes from the
channel, in order, with the arguments of `run`: the loop receives a task, returns on a set
shutdown flag, deals with the task otherwise, returns when `isRunning` is 0, and receives
the next one. -/
def received (w : worker) (isRunning : Nat → Int) :
    List (PoolTask E) → Nat → List (PoolTask E)
  | [], _ => []
  | task :: rest, n =>
    if w.shutdown = 1 then [task]
    else if isRunning n = 0 then [task]
    else task :: received w isRunning rest (n + 1)

end worker

namespace RoutinePool

variable {E : Type}

/-- The method `RoutinePool.init`: the workers are made in the local slice `workers`, which
is not stored in the pool; each `run` goes to `GoEmpty`. `none` is the panic of `make` with a
negative length. -/
def init (rp : RoutinePool E) : Option (RoutinePool E) :=
  if rp.size < 0 then none
  else
    some { rp with isRunning := 1,
                   submitted := rp.submitted ++ List.replicate rp.size.toNat { shutdown := 0 } }

/-- The constructor `NewRoutinePool`; the literal leaves `lock` and `workers` unset. `none` is
the panic of `make` with a negative size. -/
def NewRoutinePool (size cacheSize : Int) : Option (RoutinePool E) :=
  if cacheSize < 0 then none
  else
    init { lock := none, size := size, cacheSize := cacheSize, isRunning := 1, taskChan := [],
           closed := false, workers := [], submitted := [] }

/-- The loop `for ; i < newSize; i++ { newWorkers[i] = rp.workers[i] }` and its like: copies
`workers[i]` for `i` from the start index up to `bound`. -/
def copyWorkers (workers : List worker) :
    Nat → List worker → Int → Int → Option (List worker)
  | 0, newWorkers, i, bound => if i < bound then none else some newWorkers
  | fuel + 1, newWorkers, i, bound =>
    if i < bound then
      match sliceGet workers i with
      | none => none
      | some w =>
        match sliceSet newWorkers i w with
        | none => none
        | some nw => copyWorkers workers fuel nw (i32 (i + 1)) bound
    else some newWorkers

/-- The loop `for ; i < rp.size; i++ { atomic.StoreInt32(&rp.workers[i].shutdown, 1) }`. -/
def markShutdown : Nat → List worker → Int → Int → Option (List worker)
  | 0, workers, i, bound => if i < bound then none else some workers
  | fuel + 1, workers, i, bound =>
    if i < bound then
      match sliceGet workers i with
      | none => none
      | some _ =>
        match sliceSet workers i { shutdown := 1 } with
        | none => none
        | some ws => markShutdown fuel ws (i32 (i + 1)) bound
    else some workers

/-- The loop `for ; i < newSize; i++ { newWorkers[i] = worker{owner: rp}; GoEmpty(newWorkers[i].run) }`;
returns the slice and the receivers handed to `GoEmpty`. -/
def spawnWorkers : Nat → List worker → List worker → Int → Int →
    Option (List worker × List worker)
  | 0, newWorkers, started, i, bound => if i < bound then none else some (newWorkers, started)
  | fuel + 1, newWorkers, started, i, bound =>
    if i < bound then
      match sliceSet newWorkers i { shutdown := 0 } with
      | none => none
      | some nw => spawnWorkers fuel nw (started ++ [{ shutdown := 0 }]) (i32 (i + 1)) bound
    else some (newWorkers, started)

/-- The method `RoutinePool.Resize`. `none` is a panic: the method value `rp.lock.Unlock`
of a nil interface, `make` with a negative length, an index out of range. -/
def Resize (rp : RoutinePool E) (newSize : Int) : Option (RoutinePool E) :=
  match rp.lock with
  | none => none
  | some _ =>
    if newSize < rp.size then
      if newSize < 0 then none
      else
        match copyWorkers rp.workers newSize.toNat
            (List.replicate newSize.toNat { shutdown := 0 }) 0 newSize with
        | none => none
        | some newWorkers =>
          match markShutdown (rp.size - newSize).toNat rp.workers newSize rp.size with
          | none => none
          | some _ => some { rp with workers := newWorkers, size := newSize }
    else if newSize > rp.size then
      match copyWorkers rp.workers rp.size.toNat
          (List.replicate newSize.toNat { shutdown := 0 }) 0 rp.size with
      | none => none
      | some copied =>
        match spawnWorkers (newSize - rp.size).toNat copied [] (max 0 rp.size) newSize with
        | none => none
        | some (newWorkers, started) =>
          some { rp with workers := newWorkers, size := newSize,
                         submitted := rp.submitted ++ started }
    else some rp

/-- The method `RoutinePool.Close`. -/
def Close (rp : RoutinePool E) : RoutinePool E :=
  { rp with isRunning := 0, closed := true }

end RoutinePool

/-! ## Futures over a context -/

/-- The struct `CtxFuture`: `cancel` is the effect of the `context.CancelFunc` on the state
`W` of the context. -/
structure CtxFuture (W : Type) where
  cancel : W → W

/-- The struct `FluxFuture` (`future` is the subscribed flux). -/
structure FluxFuture (W : Type) where
  cancel : W → W

/-- The struct `MonoFuture`. -/
structure MonoFuture (W : Type) where
  isDone : Int
  cancel : W → W

/-- The constructor `NewCtxFuture(ctx, cancel)`: `cancel` is the function the caller hands
in. -/
def NewCtxFuture {W : Type} (cancel : W → W) : CtxFuture W := { cancel := cancel }

/-- The constructor `NewFluxFuture`; `cancel` stands for the function returned by
`context.WithCancel(context.Background())`. -/
def NewFluxFuture {W : Type} (cancel : W → W) : FluxFuture W := { cancel := cancel }

/-- The constructor `NewMonoFuture`; `cancel` stands for the function returned by
`context.WithCancel(context.Background())`. -/
def NewMonoFuture {W : Type} (cancel : W → W) : MonoFuture W :=
  { isDone := 0, cancel := cancel }

/-- The method `CtxFuture.Cancel`: `f.cancel()`. -/
def CtxFuture.Cancel {W : Type} (f : CtxFuture W) (w : W) : W := f.cancel w

/-- The method `FluxFuture.Cancel`: `f.cancel()`. -/
def FluxFuture.Cancel {W : Type} (f : FluxFuture W) (w : W) : W := f.cancel w

/-- The method `MonoFuture.Cancel`: `f.cancel()`. -/
def MonoFuture.Cancel {W : Type} (f : MonoFuture W) (w : W) : W := f.cancel w

/-! ## Binary search tree -/

/-- The struct `node` behind a `*node` (`nil` is the nil pointer); values are integers and
`parent` is left out. -/
inductive node where
  | nil
  | mk (left : node) (val : Int) (right : node)
  deriving DecidableEq, Repr

/-- The method `BinarySearchTree.findNearbyLeftNode`; returns the value of the node found,
`none` for nil. -/
def findNearbyLeftNode (compare : Int → Int → Int) (v : Int) : node → Option Int
  | node.nil => none
  | node.mk left val right =>
    if compare v val ≤ 0 then
      match left with
      | node.nil => some val
      | node.mk _ lval _ =>
        if compare v lval > 0 then some lval
        else findNearbyLeftNode compare v left
    else findNearbyLeftNode compare v right

/-- The method `BinarySearchTree.FindNearbyLeft` of the tree with root `root`. -/
def FindNearbyLeft (compare : Int → Int → Int) (root : node) (v : Int) : Option Int :=
  findNearbyLeftNode compare v root

end PoleRpc

/-! ## Auxiliary definitions of the verification -/

namespace PoleRpc

namespace Segment

variable {α : Type}

/-- The live window `[offset, pos)` of a segment. -/
def window (s : Segment α) : List (Option α) :=
  (s.elements.drop s.offset.toNat).take (s.pos - s.offset).toNat

/-- Structural invariant of a segment: 128 slots and `0 ≤ offset ≤ pos ≤ 128`. -/
def OK (s : Segment α) : Prop :=
  s.elements.length = 128 ∧ 0 ≤ s.offset ∧ s.offset ≤ s.pos ∧ s.pos ≤ 128

/-- The segment left by `RemoveFromFirstWhen`. -/
def trimFirst (s : Segment α) (p : Option α → Bool) : Segment α :=
  { elements := s.elements.take s.offset.toNat
      ++ List.replicate (s.window.takeWhile p).length none
      ++ s.elements.drop (s.offset.toNat + (s.window.takeWhile p).length),
    pos := s.pos,
    offset := s.offset + ((s.window.takeWhile p).length : Nat) }

/-- The segment left by `RemoveFromLastWhen`. -/
def trimLast (s : Segment α) (p : Option α → Bool) : Segment α :=
  { elements := s.elements.take (s.pos.toNat - (s.window.rtakeWhile p).length)
      ++ List.replicate (s.window.rtakeWhile p).length none
      ++ s.elements.drop s.pos.toNat,
    pos := s.pos - ((s.window.rtakeWhile p).length : Nat),
    offset := s.offset }

/-- The segment left by `Add`. -/
def pushed (s : Segment α) (e : Option α) : Segment α :=
  { elements := s.elements.set s.pos.toNat e, pos := s.pos + 1, offset := s.offset }

end Segment

namespace SegmentList

variable {α : Type}

/-- The segments of the list, dereferenced. -/
def segs (sl : SegmentList α) : List (Segment α) := sl.segments.map sl.heap

/-- The elements held by a chain of segments, in order. -/
def contents : List (Segment α) → List (Option α)
  | [] => []
  | s :: t => s.window ++ contents t

/-- Shape of the segment chain of a list whose first live slot is `fo`: every segment has
128 slots and a non-empty window, every segment but the last is filled to the end, every
segment but the first starts at slot 0; the empty chain has `fo = 0`. -/
def Chain : Int → List (Segment α) → Prop
  | fo, [] => fo = 0
  | fo, s :: t =>
    s.elements.length = 128 ∧ s.offset = fo ∧ 0 ≤ fo ∧ fo < s.pos ∧ s.pos ≤ 128 ∧
      (t ≠ [] → s.pos = 128) ∧ Chain 0 t

/-- Pointer structure of a list: no segment occurs twice, the pooled segments are cleared
and are not segments of the list, every address is allocated. -/
def HeapOK (sl : SegmentList α) : Prop :=
  sl.segments.Nodup ∧ sl.pool.Nodup ∧ (∀ a ∈ sl.segments, a < sl.next) ∧
    (∀ a ∈ sl.pool, a < sl.next ∧ a ∉ sl.segments ∧ sl.heap a = Segment.NewSegment)

/-- The list `sl` holds exactly the elements `xs`, in a well-formed chain. -/
def Inv (sl : SegmentList α) (xs : List (Option α)) : Prop :=
  HeapOK sl ∧ Chain sl.firstOffset sl.segs ∧ contents sl.segs = xs ∧
    sl.size = (xs.length : Int) ∧ sl.firstOffset + (xs.length : Int) ≤ 2147483647

/-- An optional earlier head trim: `none` leaves the list as built, `some q` calls
`RemoveFromFirstWhen(q)`. -/
def headTrimmed (sl : SegmentList α) : Option (Option α → Bool) → Option (SegmentList α)
  | none => some sl
  | some q => sl.RemoveFromFirstWhen q

/-- The elements left of `xs` by the optional head trim. -/
def headTrimmedElems (xs : List (Option α)) : Option (Option α → Bool) → List (Option α)
  | none => xs
  | some q => xs.dropWhile q

end SegmentList

end PoleRpc

namespace PoleRpc

namespace SegmentList

variable {α : Type}

/-- The sum of `pos - offset` over the segments of the list. -/
def segmentsSum (sl : SegmentList α) : Int :=
  (sl.segments.map (fun a => (sl.heap a).pos - (sl.heap a).offset)).sum

end SegmentList

end PoleRpc

namespace PoleRpc

namespace SegmentList

/-- A call of one of the methods `Add`, `AddAll`, `RemoveFromFirstWhen` and
`RemoveFromLastWhen`, with its argument and the choices of its `pool.Get` calls. -/
inductive Op (α : Type) where
  | add (e : Option α) (pick : Option Nat)
  | addAll (arr : List (Option α)) (picks : List (Option Nat))
  | removeFromFirstWhen (p : Option α → Bool)
  | removeFromLastWhen (p : Option α → Bool)

variable {α : Type}

/-- The number of elements the call hands over. -/
def Op.added : Op α → Nat
  | Op.add _ _ => 1
  | Op.addAll arr _ => arr.length
  | Op.removeFromFirstWhen _ => 0
  | Op.removeFromLastWhen _ => 0

/-- The call `op` on the list `sl`. -/
def applyOp (sl : SegmentList α) : Op α → Option (SegmentList α)
  | Op.add e pick => sl.Add e pick
  | Op.addAll arr picks => sl.AddAll arr picks
  | Op.removeFromFirstWhen p => sl.RemoveFromFirstWhen p
  | Op.removeFromLastWhen p => sl.RemoveFromLastWhen p

/-- The calls `ops` one after the other, starting on the list `sl`. -/
def runOps (sl : SegmentList α) : List (Op α) → Option (SegmentList α)
  | [] => some sl
  | op :: rest =>
    match applyOp sl op with
    | none => none
    | some sl1 => runOps sl1 rest

/-- Every call of the run finds the list short enough for an `int32` to index the elements
it holds and the elements the call hands over: `firstOffset + size + added ≤ MaxInt32`. -/
def opsInRange (sl : SegmentList α) : List (Op α) → Bool
  | [] => true
  | op :: rest =>
    decide (sl.firstOffset + sl.size + (op.added : Int) ≤ MaxInt32) &&
      match applyOp sl op with
      | none => true
      | some sl1 => opsInRange sl1 rest

end SegmentList

end PoleRpc

namespace PoleRpc

/-! ## Arithmetic and slice lemmas -/

theorem i32_eq {x : Int} (h1 : -2147483648 ≤ x) (h2 : x ≤ 2147483647) : i32 x = x := by
  unfold i32; omega

theorem i64_eq {x : Int} (h1 : -9223372036854775808 ≤ x) (h2 : x ≤ 9223372036854775807) :
    i64 x = x := by
  unfold i64; omega

theorem len_eq {β : Type} (xs : List β) : len xs = (xs.length : Int) := by
  induction xs with
  | nil => rfl
  | cons x t ih => simp [len, ih]

theorem SegmentSize_eq : SegmentSize = 128 := by decide

theorem sliceGet_natCast {β : Type} (xs : List β) (n : Nat) : sliceGet xs (n : Int) = xs[n]? := by
  simp [sliceGet]

theorem sliceSet_natCast {β : Type} (xs : List β) (n : Nat) (v : β) (h : n < xs.length) :
    sliceSet xs (n : Int) v = some (xs.set n v) := by
  simp [sliceSet, h]

theorem dropWhile_eq_drop {β : Type} (p : β → Bool) (l : List β) :
    l.dropWhile p = l.drop (l.takeWhile p).length := by
  induction l with
  | nil => simp
  | cons x t ih =>
    by_cases h : p x = true
    · simp [List.dropWhile_cons, List.takeWhile_cons, h, ih]
    · simp [List.dropWhile_cons, List.takeWhile_cons, h]

theorem takeWhile_length_le {β : Type} (p : β → Bool) (l : List β) :
    (l.takeWhile p).length ≤ l.length := by
  induction l with
  | nil => simp
  | cons x t ih =>
    by_cases h : p x = true
    · simp [List.takeWhile_cons, h]; omega
    · simp [List.takeWhile_cons, h]

end PoleRpc

namespace PoleRpc

namespace Segment

variable {α : Type}

theorem window_length {s : Segment α} (h : s.OK) : (s.window.length : Int) = s.pos - s.offset := by
  obtain ⟨h1, h2, h3, h4⟩ := h
  simp only [window, List.length_take, List.length_drop, h1]
  omega

theorem removeFromFirstWhenLoop_spec (p : Option α → Bool) (pos : Nat) (hpos : pos ≤ 2147483647) :
    ∀ (fuel : Nat) (els : List (Option α)) (i : Nat) (removed : Int),
      i + fuel = pos → pos ≤ els.length → 0 ≤ removed → removed + fuel ≤ 2147483647 →
      removeFromFirstWhenLoop p (pos : Int) fuel els (i : Int) removed =
        some (els.take i ++ List.replicate (((els.drop i).take fuel).takeWhile p).length none
                ++ els.drop (i + (((els.drop i).take fuel).takeWhile p).length),
              removed + ((((els.drop i).take fuel).takeWhile p).length : Nat)) := by
  intro fuel
  induction fuel with
  | zero =>
    intro els i removed hi _ _ _
    simp [removeFromFirstWhenLoop]
    omega
  | succ fuel ih =>
    intro els i removed hi hlen hr0 hr1
    have hil : i < els.length := by omega
    have hlt : (i : Int) < (pos : Int) := by omega
    rw [removeFromFirstWhenLoop, if_pos hlt, sliceGet_natCast, List.getElem?_eq_getElem hil]
    simp only []
    rw [List.drop_eq_getElem_cons hil, List.take_succ_cons]
    by_cases hp : p els[i] = true
    · rw [if_pos hp, sliceSet_natCast _ _ _ hil]
      simp only []
      have e1 : i32 ((i : Int) + 1) = ((i + 1 : Nat) : Int) := by
        rw [i32_eq (by omega) (by omega)]; push_cast; rfl
      have e2 : i32 (removed + 1) = removed + 1 := i32_eq (by omega) (by omega)
      rw [e1, e2, ih (els.set i none) (i + 1) (removed + 1) (by omega) (by simpa using hlen)
        (by omega) (by omega)]
      have hd : List.drop (i + 1) (els.set i none) = List.drop (i + 1) els := by
        rw [List.drop_set, if_pos (by omega)]
      rw [hd, List.takeWhile_cons, if_pos hp]
      simp only [List.length_cons]
      rw [Option.some.injEq, Prod.mk.injEq]
      refine ⟨?_, ?_⟩
      · have ht : List.take (i + 1) (els.set i none) = List.take i els ++ [none] := by
          rw [List.set_eq_take_append_cons_drop, if_pos hil]
          rw [List.take_append_eq_append_take]
          simp [List.take_take, Nat.min_eq_left (Nat.le_of_lt hil)]
        rw [ht]
        have hd2 : ∀ k, List.drop (i + 1 + k) (els.set i none) = List.drop (i + 1 + k) els := by
          intro k
          rw [List.drop_set, if_pos (by omega)]
        rw [hd2, List.replicate_succ]
        simp [Nat.add_assoc, Nat.add_comm 1]
      · push_cast; omega
    · rw [if_neg hp, List.takeWhile_cons, if_neg hp]
      simp

end Segment

end PoleRpc

namespace PoleRpc

theorem take_set_of_le {β : Type} (l : List β) (m n : Nat) (a : β) (h : m ≤ n) :
    List.take m (l.set n a) = List.take m l := by
  rw [List.set_take]
  apply List.set_eq_of_length_le
  simp; omega

namespace Segment

variable {α : Type}

theorem removeFromLastWhenLoop_spec (p : Option α → Bool) (off : Nat) :
    ∀ (fuel : Nat) (els : List (Option α)) (j : Nat) (removed : Int),
      off + fuel = j → j ≤ els.length → j ≤ 2147483647 → 0 ≤ removed →
      removed + fuel ≤ 2147483647 →
      removeFromLastWhenLoop p (off : Int) fuel els ((j : Int) - 1) removed =
        some (els.take (j - (((els.take j).drop off).rtakeWhile p).length)
                ++ List.replicate (((els.take j).drop off).rtakeWhile p).length none
                ++ els.drop j,
              removed + ((((els.take j).drop off).rtakeWhile p).length : Nat)) := by
  intro fuel
  induction fuel with
  | zero =>
    intro els j removed hj _ _ _ _
    have : List.drop off (List.take j els) = [] := by
      rw [List.drop_eq_nil_iff]; simp; omega
    simp [removeFromLastWhenLoop, this, List.rtakeWhile]
    omega
  | succ fuel ih =>
    intro els j removed hj hlen hj2 hr0 hr1
    obtain ⟨j', rfl⟩ : ∃ j', j = j' + 1 := ⟨off + fuel, by omega⟩
    have hil : j' < els.length := by omega
    have hge : (((j' + 1 : Nat) : Int) - 1) ≥ (off : Int) := by push_cast; omega
    have hc : (((j' + 1 : Nat) : Int) - 1) = (j' : Int) := by push_cast; omega
    rw [removeFromLastWhenLoop, if_pos hge, hc, sliceGet_natCast, List.getElem?_eq_getElem hil]
    simp only []
    have hsplit : List.drop off (List.take (j' + 1) els)
        = List.drop off (List.take j' els) ++ [els[j']] := by
      rw [List.take_succ, List.getElem?_eq_getElem hil]
      simp only [Option.toList]
      rw [List.drop_append_of_le_length (by simp; omega)]
    rw [hsplit, List.rtakeWhile_concat]
    by_cases hp : p els[j'] = true
    · rw [if_pos hp, if_pos hp, sliceSet_natCast _ _ _ hil]
      simp only []
      have e1 : i32 ((j' : Int) - 1) = (j' : Int) - 1 := i32_eq (by omega) (by omega)
      have e2 : i32 (removed + 1) = removed + 1 := i32_eq (by omega) (by omega)
      rw [e1, e2, ih (els.set j' none) j' (removed + 1) (by omega) (by simp; omega) (by omega)
        (by omega) (by omega)]
      rw [take_set_of_le _ _ _ _ (Nat.le_refl j')]
      have hk : (List.rtakeWhile p (List.drop off (List.take j' els))).length ≤ j' := by
        have := (List.rtakeWhile_suffix p (List.drop off (List.take j' els))).sublist.length_le
        simp at this; omega
      rw [take_set_of_le _ _ _ _ (Nat.sub_le _ _)]
      have hd : List.drop j' (els.set j' none) = none :: List.drop (j' + 1) els := by
        rw [List.drop_set, if_neg (by omega), List.drop_eq_getElem_cons hil, Nat.sub_self]
        rfl
      rw [hd, Option.some.injEq, Prod.mk.injEq]
      refine ⟨?_, ?_⟩
      · simp only [List.length_append, List.length_singleton]
        rw [List.replicate_succ', Nat.add_sub_add_right]
        simp
      · simp only [List.length_append, List.length_singleton]
        push_cast; omega
    · rw [if_neg hp, if_neg hp]
      simp

theorem window_eq_drop_take (s : Segment α) (h : s.OK) :
    s.window = (s.elements.take s.pos.toNat).drop s.offset.toNat := by
  obtain ⟨h1, h2, h3, h4⟩ := h
  rw [window, List.drop_take]
  congr 1
  omega

theorem RemoveFromFirstWhen_eq (s : Segment α) (h : s.OK) (p : Option α → Bool) :
    s.RemoveFromFirstWhen p = some (s.trimFirst p, (((s.window.takeWhile p).length : Nat) : Int)) := by
  obtain ⟨h1, h2, h3, h4⟩ := h
  have hk := takeWhile_length_le p s.window
  have hw : (s.window.length : Int) = s.pos - s.offset := window_length ⟨h1, h2, h3, h4⟩
  have hpos : s.pos = ((s.pos.toNat : Nat) : Int) := by omega
  have hoff : s.offset = ((s.offset.toNat : Nat) : Int) := by omega
  have key := removeFromFirstWhenLoop_spec p s.pos.toNat (by omega) (s.pos - s.offset).toNat
    s.elements s.offset.toNat 0 (by omega) (by omega) (by omega) (by omega)
  rw [← hpos, ← hoff, show List.take (s.pos - s.offset).toNat
    (List.drop s.offset.toNat s.elements) = s.window from rfl] at key
  unfold RemoveFromFirstWhen
  rw [key]
  simp only [trimFirst, zero_add]
  rw [i32_eq (by omega) (by omega)]

theorem RemoveFromLastWhen_eq (s : Segment α) (h : s.OK) (p : Option α → Bool) :
    s.RemoveFromLastWhen p = some (s.trimLast p, (((s.window.rtakeWhile p).length : Nat) : Int)) := by
  obtain ⟨h1, h2, h3, h4⟩ := h
  have hk : (s.window.rtakeWhile p).length ≤ s.window.length :=
    (List.rtakeWhile_suffix p s.window).sublist.length_le
  have hw : (s.window.length : Int) = s.pos - s.offset := window_length ⟨h1, h2, h3, h4⟩
  have hweq := window_eq_drop_take s ⟨h1, h2, h3, h4⟩
  have hpos : s.pos = ((s.pos.toNat : Nat) : Int) := by omega
  have hoff : s.offset = ((s.offset.toNat : Nat) : Int) := by omega
  have key := removeFromLastWhenLoop_spec p s.offset.toNat (s.pos - s.offset).toNat
    s.elements s.pos.toNat 0 (by omega) (by omega) (by omega) (by omega) (by omega)
  rw [← hpos, ← hoff, ← hweq] at key
  unfold RemoveFromLastWhen
  rw [i32_eq (by omega) (by omega), key]
  simp only [trimLast, zero_add]
  rw [i32_eq (by omega) (by omega)]

end Segment

end PoleRpc

namespace PoleRpc

theorem take_succ_set {β : Type} (l : List β) (n : Nat) (a : β) (h : n < l.length) :
    List.take (n + 1) (l.set n a) = List.take n l ++ [a] := by
  rw [List.set_eq_take_append_cons_drop, if_pos h, List.take_append_eq_append_take]
  simp [List.take_take, Nat.min_eq_left (Nat.le_of_lt h)]

theorem rdropWhile_eq_take {β : Type} (p : β → Bool) (l : List β) :
    l.rdropWhile p = l.take (l.length - (l.rtakeWhile p).length) := by
  induction l using List.reverseRecOn with
  | nil => simp [List.rdropWhile]
  | append_singleton l x ih =>
    rw [List.rdropWhile_concat, List.rtakeWhile_concat]
    by_cases hp : p x = true
    · rw [if_pos hp, if_pos hp, ih]
      simp only [List.length_append, List.length_singleton, Nat.add_sub_add_right]
      rw [List.take_append_of_le_length (Nat.sub_le _ _)]
    · rw [if_neg hp, if_neg hp]
      simp

namespace Segment

variable {α : Type}

theorem NewSegment_OK : (NewSegment : Segment α).OK := by
  simp [OK, NewSegment, SegmentSize_eq]

theorem NewSegment_window : (NewSegment : Segment α).window = [] := by
  simp [window, NewSegment]

theorem Clear_eq (s : Segment α) (h : s.elements.length = 128) : s.Clear = NewSegment := by
  simp [Clear, NewSegment, FillTargetElement, List.map_const', h, SegmentSize_eq]

theorem trimFirst_OK (s : Segment α) (h : s.OK) (p : Option α → Bool) : (s.trimFirst p).OK := by
  have hk := takeWhile_length_le p s.window
  have hw := window_length h
  obtain ⟨h1, h2, h3, h4⟩ := h
  refine ⟨?_, ?_, ?_, ?_⟩
  · simp only [trimFirst, List.length_append, List.length_take, List.length_replicate,
      List.length_drop, h1]
    omega
  · simp only [trimFirst]; omega
  · simp only [trimFirst]; omega
  · simp only [trimFirst]; omega

theorem trimFirst_window (s : Segment α) (h : s.OK) (p : Option α → Bool) :
    (s.trimFirst p).window = s.window.dropWhile p := by
  have hk := takeWhile_length_le p s.window
  have hw := window_length h
  obtain ⟨h1, h2, h3, h4⟩ := h
  rw [dropWhile_eq_drop]
  generalize hkk : (s.window.takeWhile p).length = k at hk
  have e1 : (s.trimFirst p).elements.drop (s.offset.toNat + k) = s.elements.drop (s.offset.toNat + k) := by
    simp only [trimFirst, hkk]
    rw [List.drop_left']
    simp only [List.length_append, List.length_take, List.length_replicate, h1]
    omega
  have e2 : (s.trimFirst p).offset.toNat = s.offset.toNat + k := by
    simp only [trimFirst, hkk]; omega
  have e3 : ((s.trimFirst p).pos - (s.trimFirst p).offset).toNat = (s.pos - s.offset).toNat - k := by
    simp only [trimFirst, hkk]; omega
  rw [window, e2, e3, e1, window, List.drop_take, List.drop_drop]

theorem trimFirst_eq_self (s : Segment α) (h : s.OK) (p : Option α → Bool)
    (hk : (s.window.takeWhile p).length = 0) : s.trimFirst p = s := by
  obtain ⟨h1, h2, h3, h4⟩ := h
  cases s with
  | mk els pos off =>
    simp only [trimFirst, hk]
    simp

theorem trimLast_OK (s : Segment α) (h : s.OK) (p : Option α → Bool) : (s.trimLast p).OK := by
  have hk : (s.window.rtakeWhile p).length ≤ s.window.length :=
    (List.rtakeWhile_suffix p s.window).sublist.length_le
  have hw := window_length h
  obtain ⟨h1, h2, h3, h4⟩ := h
  refine ⟨?_, ?_, ?_, ?_⟩
  · simp only [trimLast, List.length_append, List.length_take, List.length_replicate,
      List.length_drop, h1]
    omega
  · simp only [trimLast]; omega
  · simp only [trimLast]; omega
  · simp only [trimLast]; omega

theorem trimLast_window (s : Segment α) (h : s.OK) (p : Option α → Bool) :
    (s.trimLast p).window = s.window.rdropWhile p := by
  have hk : (s.window.rtakeWhile p).length ≤ s.window.length :=
    (List.rtakeWhile_suffix p s.window).sublist.length_le
  have hw := window_length h
  have hok' := trimLast_OK s h p
  rw [window_eq_drop_take _ hok', rdropWhile_eq_take]
  obtain ⟨h1, h2, h3, h4⟩ := h
  generalize hkk : (s.window.rtakeWhile p).length = k at hk
  have e1 : (s.trimLast p).elements.take (s.pos.toNat - k) = s.elements.take (s.pos.toNat - k) := by
    simp only [trimLast, hkk]
    rw [List.append_assoc, List.take_append_of_le_length (by simp; omega), List.take_take]
    simp
  have e2 : (s.trimLast p).pos.toNat = s.pos.toNat - k := by
    simp only [trimLast, hkk]; omega
  have e3 : (s.trimLast p).offset = s.offset := rfl
  rw [e2, e3, e1, window_eq_drop_take s ⟨h1, h2, h3, h4⟩]
  have e4 : (List.drop s.offset.toNat (List.take s.pos.toNat s.elements)).length - k
      = s.pos.toNat - k - s.offset.toNat := by
    simp only [List.length_drop, List.length_take, h1]; omega
  rw [e4, List.drop_take, List.drop_take, List.take_take]
  congr 1
  omega

theorem trimLast_eq_self (s : Segment α) (h : s.OK) (p : Option α → Bool)
    (hk : (s.window.rtakeWhile p).length = 0) : s.trimLast p = s := by
  obtain ⟨h1, h2, h3, h4⟩ := h
  cases s with
  | mk els pos off =>
    simp only [trimLast, hk]
    simp

theorem Add_eq (s : Segment α) (h : s.OK) (hp : s.pos < 128) (e : Option α) :
    s.Add e = some (s.pushed e) := by
  obtain ⟨h1, h2, h3, h4⟩ := h
  have hpos : s.pos = ((s.pos.toNat : Nat) : Int) := by omega
  unfold Add pushed
  rw [hpos, sliceSet_natCast _ _ _ (by omega), ← hpos, i32_eq (by omega) (by omega)]

theorem Add_OK (s : Segment α) (h : s.OK) (hp : s.pos < 128) (e : Option α) :
    (s.pushed e).OK := by
  obtain ⟨h1, h2, h3, h4⟩ := h
  refine ⟨by simpa [pushed] using h1, h2, ?_, ?_⟩ <;> simp only [pushed] <;> omega

theorem Add_window (s : Segment α) (h : s.OK) (hp : s.pos < 128) (e : Option α) :
    (s.pushed e).window = s.window ++ [e] := by
  have hok' := Add_OK s h hp e
  rw [window_eq_drop_take _ hok', window_eq_drop_take s h]
  obtain ⟨h1, h2, h3, h4⟩ := h
  simp only [pushed]
  have e1 : (s.pos + 1).toNat = s.pos.toNat + 1 := by omega
  rw [e1, take_succ_set _ _ _ (by omega), List.drop_append_of_le_length (by simp; omega)]

theorem Get_window (s : Segment α) (h : s.OK) (j : Nat) (v : Option α)
    (hv : s.window[j]? = some v) : s.Get (s.offset + j) = GetResult.value v := by
  have hw := window_length h
  obtain ⟨h1, h2, h3, h4⟩ := h
  have hj : j < s.window.length := by
    by_contra hc
    rw [List.getElem?_eq_none (by omega)] at hv
    exact absurd hv (by simp)
  have hidx : s.offset + (j : Int) = ((s.offset.toNat + j : Nat) : Int) := by push_cast; omega
  unfold Get
  rw [if_neg (by omega), hidx, sliceGet_natCast]
  rw [window, List.getElem?_take, if_pos (by omega), List.getElem?_drop] at hv
  rw [hv]

theorem Get_out (s : Segment α) (idx : Int) (h : ¬ (idx < s.pos ∧ idx ≥ s.offset)) :
    s.Get idx = GetResult.indexOutOfBound idx s.offset s.pos := by
  unfold Get
  rw [if_pos h]

end Segment

end PoleRpc

namespace PoleRpc

namespace SegmentList

variable {α : Type}

theorem contents_append (l1 l2 : List (Segment α)) :
    contents (l1 ++ l2) = contents l1 ++ contents l2 := by
  induction l1 with
  | nil => rfl
  | cons s t ih => simp [contents, ih]

theorem contents_singleton (s : Segment α) : contents [s] = s.window := by
  simp [contents]

theorem Chain.head_OK {fo : Int} {s : Segment α} {t : List (Segment α)}
    (h : Chain fo (s :: t)) : s.OK := by
  obtain ⟨h1, h2, h3, h4, h5, _, _⟩ := h
  exact ⟨h1, by omega, by omega, h5⟩

theorem Chain.append_new {ss : List (Segment α)} {s : Segment α} :
    ∀ {fo : Int}, Chain fo ss → (∀ l, ss.getLast? = some l → l.pos = 128) →
      s.elements.length = 128 → s.offset = 0 → 0 < s.pos → s.pos ≤ 128 →
      Chain fo (ss ++ [s]) := by
  induction ss with
  | nil =>
    intro fo h _ h1 h2 h3 h4
    have hfo : fo = 0 := h
    subst hfo
    exact ⟨h1, h2, le_refl _, h3, h4, by simp, rfl⟩
  | cons x t ih =>
    intro fo h hl h1 h2 h3 h4
    obtain ⟨c1, c2, c3, c4, c5, c6, c7⟩ := h
    refine ⟨c1, c2, c3, c4, c5, ?_, ?_⟩
    · intro _
      cases t with
      | nil => exact hl x rfl
      | cons y t2 => exact c6 (by simp)
    · apply ih c7 _ h1 h2 h3 h4
      intro l hlast
      cases t with
      | nil => simp at hlast
      | cons y t2 =>
        apply hl
        rw [List.getLast?_cons_cons]
        exact hlast

theorem Chain.replace_last {init : List (Segment α)} {s s1 : Segment α} :
    ∀ {fo : Int}, Chain fo (init ++ [s]) → s1.elements.length = 128 → s1.offset = s.offset →
      s.offset < s1.pos → s1.pos ≤ 128 → Chain fo (init ++ [s1]) := by
  induction init with
  | nil =>
    intro fo h h1 h2 h3 h4
    obtain ⟨c1, c2, c3, c4, c5, c6, c7⟩ := h
    exact ⟨h1, by omega, c3, by omega, h4, by simp, rfl⟩
  | cons x t ih =>
    intro fo h h1 h2 h3 h4
    obtain ⟨c1, c2, c3, c4, c5, c6, c7⟩ := h
    exact ⟨c1, c2, c3, c4, c5, fun _ => c6 (by simp), ih c7 h1 h2 h3 h4⟩

theorem Chain.init {init : List (Segment α)} {s : Segment α} :
    ∀ {fo : Int}, Chain fo (init ++ [s]) → init ≠ [] → Chain fo init := by
  induction init with
  | nil => intro fo _ hne; exact absurd rfl hne
  | cons x t ih =>
    intro fo h _
    obtain ⟨c1, c2, c3, c4, c5, c6, c7⟩ := h
    refine ⟨c1, c2, c3, c4, c5, fun _ => c6 (by simp), ?_⟩
    cases t with
    | nil => rfl
    | cons y t2 => exact ih c7 (by simp)

theorem Chain.last {init : List (Segment α)} {s : Segment α} :
    ∀ {fo : Int}, Chain fo (init ++ [s]) →
      s.OK ∧ s.offset < s.pos ∧ (init = [] → s.offset = fo) := by
  induction init with
  | nil =>
    intro fo h
    have hok := h.head_OK
    obtain ⟨c1, c2, c3, c4, c5, c6, c7⟩ := h
    exact ⟨hok, by omega, fun _ => c2⟩
  | cons x t ih =>
    intro fo h
    obtain ⟨c1, c2, c3, c4, c5, c6, c7⟩ := h
    obtain ⟨i1, i2, _⟩ := ih c7
    exact ⟨i1, i2, fun hn => absurd hn (by simp)⟩

theorem Chain.get {ss : List (Segment α)} :
    ∀ {fo : Int} (j : Nat) (v : Option α), Chain fo ss → (contents ss)[j]? = some v →
      ∃ s, ss[((fo + j) / 128).toNat]? = some s ∧ s.Get ((fo + j) % 128) = GetResult.value v := by
  induction ss with
  | nil => intro fo j v _ hv; simp [contents] at hv
  | cons s t ih =>
    intro fo j v h hv
    have hok := h.head_OK
    have hw := Segment.window_length hok
    obtain ⟨c1, c2, c3, c4, c5, c6, c7⟩ := h
    rw [contents] at hv
    by_cases hj : j < s.window.length
    · rw [List.getElem?_append_left hj] at hv
      refine ⟨s, ?_, ?_⟩
      · have : ((fo + (j : Int)) / 128).toNat = 0 := by omega
        rw [this]; simp
      · have : (fo + (j : Int)) % 128 = s.offset + j := by omega
        rw [this]
        exact Segment.Get_window s hok j v hv
    · rw [List.getElem?_append_right (by omega)] at hv
      have hne : t ≠ [] := by
        intro ht
        rw [ht] at hv
        simp [contents] at hv
      have hfull := c6 hne
      obtain ⟨s1, g1, g2⟩ := ih (j - s.window.length) v c7 hv
      refine ⟨s1, ?_, ?_⟩
      · have : ((fo + (j : Int)) / 128).toNat
            = ((0 + ((j - s.window.length : Nat) : Int)) / 128).toNat + 1 := by omega
        rw [this, List.getElem?_cons_succ]
        exact g1
      · have : (fo + (j : Int)) % 128 = (0 + ((j - s.window.length : Nat) : Int)) % 128 := by
          omega
        rw [this]
        exact g2

theorem Get_of_Inv (sl : SegmentList α) (xs : List (Option α)) (h : Inv sl xs) (i : Nat)
    (v : Option α) (hv : xs[i]? = some v) : sl.Get (i : Int) = GetResult.value v := by
  obtain ⟨_, hc, hx, _, hb⟩ := h
  have hi : i < xs.length := by
    by_contra hc2
    rw [List.getElem?_eq_none (by omega)] at hv
    exact absurd hv (by simp)
  have h0 : 0 ≤ sl.firstOffset := by
    cases hs : sl.segs with
    | nil => rw [hs] at hc; have : sl.firstOffset = 0 := hc; omega
    | cons s t => rw [hs] at hc; exact hc.2.2.1
  rw [← hx] at hv
  obtain ⟨s, g1, g2⟩ := hc.get i v hv
  unfold Get
  simp only []
  rw [i32_eq (by omega) (by omega), Int.tdiv_eq_ediv (by omega) (by omega),
    Int.tmod_eq_emod (by omega) (by omega), Int.add_comm, sliceGet,
    if_pos (Int.ediv_nonneg (by omega) (by omega))]
  rw [segs, List.getElem?_map] at g1
  cases ha : sl.segments[((sl.firstOffset + (i : Int)) / 128).toNat]? with
  | none => rw [ha] at g1; simp at g1
  | some a =>
    rw [ha] at g1
    simp only [Option.map_some', Option.some.injEq] at g1
    simp only []
    rw [g1]
    exact g2

end SegmentList

end PoleRpc

namespace PoleRpc

theorem map_update_of_not_mem {β : Type} (f : Nat → β) (a : Nat) (v : β) (l : List Nat)
    (h : a ∉ l) : l.map (Function.update f a v) = l.map f := by
  apply List.map_congr_left
  intro b hb
  exact Function.update_noteq (fun (hba : b = a) => h (hba ▸ hb)) v f

theorem not_mem_eraseIdx_of_nodup {β : Type} (l : List β) (i : Nat) (a : β) (hn : l.Nodup)
    (ha : l[i]? = some a) : a ∉ l.eraseIdx i := by
  intro hm
  rw [List.mem_eraseIdx_iff_getElem] at hm
  obtain ⟨j, hj, hne, hja⟩ := hm
  obtain ⟨hi, hia⟩ := List.getElem?_eq_some.mp ha
  have hji : l[j] = l[i] := hja.trans hia.symm
  exact hne ((List.Nodup.getElem_inj_iff hn).mp hji)

namespace SegmentList

variable {α : Type}

theorem HeapOK.update {sl : SegmentList α} (h : HeapOK sl) (a : Nat) (seg : Segment α)
    (ha : a ∈ sl.segments) (fo sz : Int) :
    HeapOK { sl with heap := Function.update sl.heap a seg, firstOffset := fo, size := sz } := by
  obtain ⟨h1, h2, h3, h4⟩ := h
  refine ⟨h1, h2, h3, ?_⟩
  intro b hb
  obtain ⟨p1, p2, p3⟩ := h4 b hb
  refine ⟨p1, p2, ?_⟩
  show Function.update sl.heap a seg b = _
  rw [Function.update_noteq (fun (hba : b = a) => p2 (hba ▸ ha))]
  exact p3

theorem acquire_spec (sl : SegmentList α) (h : HeapOK sl) (pick : Option Nat) :
    (sl.acquire pick).2.segments = sl.segments ++ [(sl.acquire pick).1] ∧
    (sl.acquire pick).1 ∉ sl.segments ∧
    (sl.acquire pick).2.heap (sl.acquire pick).1 = Segment.NewSegment ∧
    (∀ b ∈ sl.segments, (sl.acquire pick).2.heap b = sl.heap b) ∧
    HeapOK (sl.acquire pick).2 ∧
    (sl.acquire pick).2.firstOffset = sl.firstOffset ∧
    (sl.acquire pick).2.size = sl.size := by
  obtain ⟨h1, h2, h3, h4⟩ := h
  unfold acquire poolGet
  cases hp : pick.bind (fun i => (sl.pool[i]?).map (fun a => (i, a))) with
  | none =>
    simp only []
    have hfresh : sl.next ∉ sl.segments := fun hm => Nat.lt_irrefl _ (h3 _ hm)
    refine ⟨trivial, hfresh, Function.update_same _ _ _, ?_, ?_, trivial, trivial⟩
    · intro b hb
      exact Function.update_noteq (fun (hbn : b = sl.next) => hfresh (hbn ▸ hb)) _ _
    · refine ⟨?_, h2, ?_, ?_⟩
      · show (sl.segments ++ [sl.next]).Nodup
        rw [List.nodup_append]
        refine ⟨h1, List.nodup_singleton _, ?_⟩
        intro x hx hx2
        rw [List.mem_singleton] at hx2
        exact hfresh (hx2 ▸ hx)
      · intro a ha
        show a < sl.next + 1
        have ha2 : a ∈ sl.segments ++ [sl.next] := ha
        rw [List.mem_append, List.mem_singleton] at ha2
        rcases ha2 with ha2 | ha2
        · exact Nat.lt_succ_of_lt (h3 a ha2)
        · omega
      · intro a ha
        obtain ⟨p1, p2, p3⟩ := h4 a ha
        refine ⟨Nat.lt_succ_of_lt p1, ?_, ?_⟩
        · show a ∉ sl.segments ++ [sl.next]
          rw [List.mem_append, List.mem_singleton]
          rintro (hm | hm)
          · exact p2 hm
          · omega
        · show Function.update sl.heap sl.next Segment.NewSegment a = _
          rw [Function.update_noteq (by omega)]
          exact p3
  | some r =>
    obtain ⟨i, a⟩ := r
    simp only []
    have hia : sl.pool[i]? = some a := by
      cases pick with
      | none => simp at hp
      | some i0 =>
        simp only [Option.some_bind, Option.map_eq_some'] at hp
        obtain ⟨a0, ha0, heq⟩ := hp
        simp only [Prod.mk.injEq] at heq
        obtain ⟨rfl, rfl⟩ := heq
        exact ha0
    have hmem : a ∈ sl.pool := by
      obtain ⟨hi, hia2⟩ := List.getElem?_eq_some.mp hia
      exact hia2 ▸ List.getElem_mem hi
    obtain ⟨p1, p2, p3⟩ := h4 a hmem
    refine ⟨trivial, p2, p3, fun _ _ => trivial, ?_, trivial, trivial⟩
    refine ⟨?_, ?_, ?_, ?_⟩
    · show (sl.segments ++ [a]).Nodup
      rw [List.nodup_append]
      refine ⟨h1, List.nodup_singleton _, ?_⟩
      intro x hx hx2
      rw [List.mem_singleton] at hx2
      exact p2 (hx2 ▸ hx)
    · exact List.Nodup.sublist (List.eraseIdx_sublist _ _) h2
    · intro b hb
      have hb2 : b ∈ sl.segments ++ [a] := hb
      rw [List.mem_append, List.mem_singleton] at hb2
      rcases hb2 with hb2 | hb2
      · exact h3 b hb2
      · exact hb2 ▸ p1
    · intro b hb
      have hb1 : b ∈ sl.pool.eraseIdx i := hb
      obtain ⟨q1, q2, q3⟩ := h4 b (List.mem_of_mem_eraseIdx hb1)
      refine ⟨q1, ?_, q3⟩
      show b ∉ sl.segments ++ [a]
      rw [List.mem_append, List.mem_singleton]
      rintro (hm | hm)
      · exact q2 hm
      · exact not_mem_eraseIdx_of_nodup _ _ _ h2 hia (hm ▸ hb1)

end SegmentList

end PoleRpc

namespace PoleRpc

theorem map_update_concat {β : Type} (f : Nat → β) (a : Nat) (v : β) (init : List Nat)
    (h : a ∉ init) : (init ++ [a]).map (Function.update f a v) = init.map f ++ [v] := by
  rw [List.map_append, map_update_of_not_mem f a v init h]
  simp

namespace SegmentList

variable {α : Type}

theorem Chain.firstOffset_nonneg {fo : Int} {ss : List (Segment α)} (h : Chain fo ss) :
    0 ≤ fo := by
  cases ss with
  | nil => have : fo = 0 := h; omega
  | cons s t => exact h.2.2.1

theorem Add_via_acquire (sl : SegmentList α) (xs : List (Option α)) (h : Inv sl xs)
    (hb : sl.firstOffset + (xs.length : Int) + 1 ≤ 2147483647)
    (hlast : ∀ l, sl.segs.getLast? = some l → l.pos = 128) (e : Option α) (pick : Option Nat) :
    ∃ seg, ((sl.acquire pick).2.heap (sl.acquire pick).1).Add e = some seg ∧
      Inv { (sl.acquire pick).2 with
              heap := Function.update (sl.acquire pick).2.heap (sl.acquire pick).1 seg,
              size := i32 ((sl.acquire pick).2.size + 1) } (xs ++ [e]) := by
  obtain ⟨hh, hc, hx, hs, _⟩ := h
  have h0 := hc.firstOffset_nonneg
  obtain ⟨a1, a2, a3, a4, a5, a6, a7⟩ := acquire_spec sl hh pick
  generalize sl.acquire pick = r at a1 a2 a3 a4 a5 a6 a7
  obtain ⟨a, sl1⟩ := r
  simp only [] at a1 a2 a3 a4 a5 a6 a7 ⊢
  have hadd := Segment.Add_eq (Segment.NewSegment : Segment α) Segment.NewSegment_OK
    (by simp [Segment.NewSegment]) e
  have hok := Segment.Add_OK (Segment.NewSegment : Segment α) Segment.NewSegment_OK
    (by simp [Segment.NewSegment]) e
  have hwin := Segment.Add_window (Segment.NewSegment : Segment α) Segment.NewSegment_OK
    (by simp [Segment.NewSegment]) e
  rw [Segment.NewSegment_window] at hwin
  rw [a3, hadd]
  refine ⟨_, rfl, ?_⟩
  have hsegs : List.map (Function.update sl1.heap a
      ((Segment.NewSegment : Segment α).pushed e)) sl1.segments
      = sl.segs ++ [(Segment.NewSegment : Segment α).pushed e] := by
    rw [a1, map_update_concat _ _ _ _ a2, segs]
    congr 1
    exact List.map_congr_left a4
  refine ⟨?_, ?_, ?_, ?_, ?_⟩
  · exact HeapOK.update a5 a _ (by rw [a1]; simp) _ _
  · show Chain sl1.firstOffset (List.map _ sl1.segments)
    rw [hsegs, a6]
    exact Chain.append_new hc hlast hok.1 rfl (by simp [Segment.NewSegment, Segment.pushed])
      hok.2.2.2
  · show contents (List.map _ sl1.segments) = _
    rw [hsegs, contents_append, contents_singleton, hwin, hx]
    rfl
  · show i32 (sl1.size + 1) = _
    rw [a7, hs, i32_eq (by omega) (by omega)]
    simp
  · show sl1.firstOffset + _ ≤ _
    rw [a6]
    simp only [List.length_append, List.length_singleton]
    push_cast
    omega

theorem Add_Inv (sl : SegmentList α) (xs : List (Option α)) (h : Inv sl xs)
    (hb : sl.firstOffset + (xs.length : Int) + 1 ≤ 2147483647) (e : Option α)
    (pick : Option Nat) :
    ∃ sl1, sl.Add e pick = some sl1 ∧ Inv sl1 (xs ++ [e]) ∧
      sl1.firstOffset = sl.firstOffset := by
  have hfo : ∀ seg, ({ (sl.acquire pick).2 with
      heap := Function.update (sl.acquire pick).2.heap (sl.acquire pick).1 seg,
      size := i32 ((sl.acquire pick).2.size + 1) } : SegmentList α).firstOffset
      = sl.firstOffset := fun _ => (acquire_spec sl h.1 pick).2.2.2.2.2.1
  rcases List.eq_nil_or_concat sl.segments with hnil | ⟨init, a, hcat⟩
  · have hlast : ∀ l, sl.segs.getLast? = some l → l.pos = 128 := by
      intro l hl
      simp [segs, hnil] at hl
    obtain ⟨seg, s1, s2⟩ := Add_via_acquire sl xs h hb hlast e pick
    refine ⟨_, ?_, s2, hfo seg⟩
    have hgl : sl.segments.getLast? = none := by rw [hnil, List.getLast?_nil]
    unfold Add GetLast
    rw [hgl]
    simp only []
    rw [s1]
  · rw [List.concat_eq_append] at hcat
    by_cases hfull : (sl.heap a).pos = 128
    · have hlast : ∀ l, sl.segs.getLast? = some l → l.pos = 128 := by
        intro l hl
        simp only [segs, hcat, List.map_append, List.map_cons, List.map_nil,
          List.getLast?_concat, Option.some.injEq] at hl
        rw [← hl]
        exact hfull
      obtain ⟨seg, s1, s2⟩ := Add_via_acquire sl xs h hb hlast e pick
      refine ⟨_, ?_, s2, hfo seg⟩
      have hgl : sl.segments.getLast? = some a := by rw [hcat, List.getLast?_concat]
      unfold Add GetLast
      rw [hgl]
      simp only [Segment.IsReachEnd, SegmentSize_eq, hfull, decide_True, if_true]
      rw [s1]
    · obtain ⟨hh, hc, hx, hs, _⟩ := h
      have h0 := hc.firstOffset_nonneg
      have hsegs0 : sl.segs = init.map sl.heap ++ [sl.heap a] := by simp [segs, hcat]
      rw [hsegs0] at hc hx
      obtain ⟨l1, l2, l3⟩ := hc.last
      have hlt : (sl.heap a).pos < 128 := by
        have := l1.2.2.2
        omega
      have hnot : a ∉ init := by
        have hn := hh.1
        rw [hcat, List.nodup_append] at hn
        intro hm
        exact hn.2.2 hm (List.mem_singleton_self a)
      refine ⟨{ sl with heap := Function.update sl.heap a ((sl.heap a).pushed e),
                        size := i32 (sl.size + 1) }, ?_, ?_, rfl⟩
      · have hgl : sl.segments.getLast? = some a := by rw [hcat, List.getLast?_concat]
        unfold Add GetLast
        rw [hgl]
        simp only [Segment.IsReachEnd, SegmentSize_eq, hfull, decide_False, Bool.false_eq_true,
          if_false]
        rw [Segment.Add_eq _ l1 hlt e]
      · have hok := Segment.Add_OK _ l1 hlt e
        have hwin := Segment.Add_window _ l1 hlt e
        have hsegs : List.map (Function.update sl.heap a ((sl.heap a).pushed e))
            sl.segments = init.map sl.heap ++ [(sl.heap a).pushed e] := by
          rw [hcat, map_update_concat _ _ _ _ hnot]
        refine ⟨?_, ?_, ?_, ?_, ?_⟩
        · exact HeapOK.update hh a _ (by rw [hcat]; simp) _ _
        · show Chain sl.firstOffset (List.map _ sl.segments)
          rw [hsegs]
          exact Chain.replace_last hc hok.1 rfl (by simp only [Segment.pushed]; omega) hok.2.2.2
        · show contents (List.map _ sl.segments) = _
          rw [hsegs, contents_append, contents_singleton, hwin, ← hx, contents_append,
            contents_singleton, List.append_assoc]
        · show i32 (sl.size + 1) = _
          rw [hs, i32_eq (by omega) (by omega)]
          simp
        · show sl.firstOffset + _ ≤ _
          simp only [List.length_append, List.length_singleton]
          push_cast
          omega

end SegmentList

end PoleRpc

namespace PoleRpc

namespace SegmentList

variable {α : Type}

theorem NewSegmentList_Inv : Inv (NewSegmentList : SegmentList α) [] := by
  refine ⟨⟨List.nodup_nil, List.nodup_nil, ?_, ?_⟩, rfl, rfl, rfl, by simp [NewSegmentList]⟩
  · intro a ha; simp [NewSegmentList] at ha
  · intro a ha; simp [NewSegmentList] at ha

theorem AddSeq_Inv (es : List (Option α × Option Nat)) :
    ∀ (sl : SegmentList α) (xs : List (Option α)), Inv sl xs →
      sl.firstOffset + (xs.length : Int) + (es.length : Int) ≤ 2147483647 →
      ∃ sl1, AddSeq sl es = some sl1 ∧ Inv sl1 (xs ++ es.map Prod.fst) ∧
        sl1.firstOffset = sl.firstOffset := by
  induction es with
  | nil =>
    intro sl xs h _
    exact ⟨sl, rfl, by simpa using h, rfl⟩
  | cons ep rest ih =>
    intro sl xs h hb
    obtain ⟨e, pick⟩ := ep
    simp only [List.length_cons] at hb
    push_cast at hb
    obtain ⟨sl1, a1, a2, a3⟩ := Add_Inv sl xs h (by omega) e pick
    obtain ⟨sl2, b1, b2, b3⟩ := ih sl1 (xs ++ [e]) a2 (by
      rw [a3]; simp only [List.length_append, List.length_singleton]; push_cast; omega)
    refine ⟨sl2, ?_, ?_, b3.trans a3⟩
    · rw [AddSeq, a1]
      exact b1
    · simpa using b2

theorem Inv.Size {sl : SegmentList α} {xs : List (Option α)} (h : Inv sl xs) :
    sl.Size = (xs.length : Int) := h.2.2.2.1

end SegmentList

end PoleRpc

namespace PoleRpc

theorem takeWhile_dropWhile_nil {β : Type} (p : β → Bool) (l : List β) :
    (l.dropWhile p).takeWhile p = [] := by
  induction l with
  | nil => simp
  | cons x t ih =>
    by_cases h : p x = true
    · simp [List.dropWhile_cons, h, ih]
    · simp [List.dropWhile_cons, List.takeWhile_cons, h]

namespace SegmentList

variable {α : Type}

theorem removeFromFirstWhenLoop_stop (p : Option α → Bool) (sl : SegmentList α) (a : Nat)
    (fuel : Nat) (hok : (sl.heap a).OK)
    (hk : ((sl.heap a).window.takeWhile p).length = 0) :
    removeFromFirstWhenLoop p (fuel + 1) sl (some a) = some sl := by
  rw [removeFromFirstWhenLoop]
  simp only []
  rw [Segment.RemoveFromFirstWhen_eq _ hok]
  simp only [hk, Nat.cast_zero, if_true]
  rw [Segment.trimFirst_eq_self _ hok p hk, Function.update_eq_self]

end SegmentList

end PoleRpc

namespace PoleRpc

namespace SegmentList

variable {α : Type}

theorem removeFromFirstWhenLoop_Inv (p : Option α → Bool) :
    ∀ (fuel : Nat) (sl : SegmentList α) (xs : List (Option α)), Inv sl xs →
      2 * sl.segments.length + 2 ≤ fuel →
      ∃ sl1, removeFromFirstWhenLoop p fuel sl sl.GetFirst = some sl1 ∧
        Inv sl1 (xs.dropWhile p) := by
  intro fuel
  induction fuel with
  | zero => intro sl xs _ hf; omega
  | succ fuel ih =>
    intro sl xs h hf
    obtain ⟨hh, hc, hx, hs, hb⟩ := h
    have h0 := hc.firstOffset_nonneg
    cases hseg : sl.segments with
    | nil =>
      have hgf : sl.GetFirst = none := by simp [GetFirst, hseg]
      have hxs : xs = [] := by rw [← hx, segs, hseg]; rfl
      refine ⟨{ sl with firstOffset := 0, size := 0 }, ?_, ?_⟩
      · rw [hgf, removeFromFirstWhenLoop]
      · subst hxs
        refine ⟨hh, ?_, ?_, rfl, by simp⟩
        · show Chain 0 (sl.segments.map sl.heap)
          rw [hseg]; rfl
        · show contents (sl.segments.map sl.heap) = _
          rw [hseg]; rfl
    | cons a rest =>
      have hgf : sl.GetFirst = some a := by simp [GetFirst, hseg]
      have hsegs : sl.segs = sl.heap a :: rest.map sl.heap := by simp [segs, hseg]
      have hc0 := hc
      have hx0 := hx
      rw [hsegs] at hc hx
      have hok := hc.head_OK
      have hw := Segment.window_length hok
      obtain ⟨c1, c2, c3, c4, c5, c6, c7⟩ := hc
      rw [contents] at hx
      have hkle := takeWhile_length_le p (sl.heap a).window
      have hnodup := hh.1
      rw [hseg, List.nodup_cons] at hnodup
      have hamem : a ∈ sl.segments := by rw [hseg]; simp
      rw [hgf]
      by_cases hk : ((sl.heap a).window.takeWhile p).length = 0
      · refine ⟨sl, removeFromFirstWhenLoop_stop p sl a fuel hok hk, ?_⟩
        have hd : xs.dropWhile p = xs := by
          rw [← hx, List.dropWhile_append, dropWhile_eq_drop p (sl.heap a).window, hk]
          have : (sl.heap a).window ≠ [] := by
            intro hnil; rw [hnil] at hw; simp at hw; omega
          simp [this]
        rw [hd]
        exact ⟨hh, hc0, hx0, hs, hb⟩
      · have htok := Segment.trimFirst_OK _ hok p
        have htw := Segment.trimFirst_window _ hok p
        have htoff : ((sl.heap a).trimFirst p).offset
            = (sl.heap a).offset + (((sl.heap a).window.takeWhile p).length : Nat) := rfl
        have htpos : ((sl.heap a).trimFirst p).pos = (sl.heap a).pos := rfl
        have hxlen : (xs.length : Int)
            = (sl.heap a).window.length + (contents (rest.map sl.heap)).length := by
          rw [← hx]; simp
        have hmap : (a :: rest).map (Function.update sl.heap a ((sl.heap a).trimFirst p))
            = (sl.heap a).trimFirst p :: rest.map sl.heap := by
          rw [List.map_cons, Function.update_same, map_update_of_not_mem _ _ _ _ hnodup.1]
        rw [removeFromFirstWhenLoop]
        simp only []
        rw [Segment.RemoveFromFirstWhen_eq _ hok]
        simp only []
        rw [if_neg (by omega)]
        by_cases hemp : ((sl.heap a).window.takeWhile p).length = (sl.heap a).window.length
        · -- the first segment is drained and detached
          have hie : ((sl.heap a).trimFirst p).IsEmpty = true := by
            simp only [Segment.IsEmpty, Segment.Size, decide_eq_true_eq]
            rw [i32_eq (by omega) (by omega)]
            omega
          rw [if_pos hie]
          have hsf : sliceFrom sl.segments 1 = some rest := by
            rw [hseg]; simp [sliceFrom]
          simp only [hsf]
          have hdw : (sl.heap a).window.dropWhile p = [] := by
            rw [dropWhile_eq_drop, hemp]; simp
          have hd : xs.dropWhile p = (contents (rest.map sl.heap)).dropWhile p := by
            rw [← hx, List.dropWhile_append, hdw]; simp
          rw [hd]
          apply ih
          · refine ⟨⟨?_, ?_, ?_, ?_⟩, ?_, ?_, ?_, ?_⟩
            · exact hnodup.2
            · show (a :: sl.pool).Nodup
              rw [List.nodup_cons]
              exact ⟨fun hm => (hh.2.2.2 a hm).2.1 hamem, hh.2.1⟩
            · intro b hb
              exact hh.2.2.1 b (by rw [hseg]; exact List.mem_cons_of_mem _ hb)
            · intro b hb
              have hb2 : b ∈ a :: sl.pool := hb
              rw [List.mem_cons] at hb2
              rcases hb2 with rfl | hb2
              · refine ⟨hh.2.2.1 b hamem, hnodup.1, ?_⟩
                show Function.update _ b _ b = _
                rw [Function.update_same]
                show (Function.update sl.heap b _ b).Clear = _
                rw [Function.update_same]
                exact Segment.Clear_eq _ htok.1
              · obtain ⟨q1, q2, q3⟩ := hh.2.2.2 b hb2
                have hne : b ≠ a := fun hba => q2 (hba ▸ hamem)
                refine ⟨q1, fun hm => q2 (by rw [hseg]; exact List.mem_cons_of_mem _ hm), ?_⟩
                show Function.update (Function.update sl.heap a _) a _ b = _
                rw [Function.update_noteq hne, Function.update_noteq hne]
                exact q3
            · show Chain 0 (rest.map (Function.update (Function.update sl.heap a _) a _))
              rw [map_update_of_not_mem _ _ _ _ hnodup.1, map_update_of_not_mem _ _ _ _ hnodup.1]
              exact c7
            · show contents (rest.map (Function.update (Function.update sl.heap a _) a _)) = _
              rw [map_update_of_not_mem _ _ _ _ hnodup.1, map_update_of_not_mem _ _ _ _ hnodup.1]
            · show i32 (sl.size - _) = _
              rw [hs, i32_eq (by omega) (by omega)]
              omega
            · show (0 : Int) + _ ≤ _
              omega
          · show 2 * rest.length + 2 ≤ fuel
            rw [hseg] at hf
            simp only [List.length_cons] at hf
            omega
        · -- the first segment keeps elements: the next pass removes nothing
          have hie : ((sl.heap a).trimFirst p).IsEmpty = false := by
            simp only [Segment.IsEmpty, Segment.Size, decide_eq_false_iff_not]
            rw [i32_eq (by omega) (by omega)]
            omega
          rw [if_neg (by simp [hie])]
          obtain ⟨f, rfl⟩ : ∃ f, fuel = f + 1 := ⟨fuel - 1, by omega⟩
          have hdne : (sl.heap a).window.dropWhile p ≠ [] := by
            rw [dropWhile_eq_drop]
            intro hnil
            have := congrArg List.length hnil
            simp at this
            omega
          have hd : xs.dropWhile p
              = (sl.heap a).window.dropWhile p ++ contents (rest.map sl.heap) := by
            rw [← hx, List.dropWhile_append]
            simp [hdne]
          have hdlen : ((xs.dropWhile p).length : Int) = xs.length
              - (((sl.heap a).window.takeWhile p).length : Nat) := by
            rw [hd, hxlen, dropWhile_eq_drop]
            simp only [List.length_append, List.length_drop]
            push_cast
            omega
          refine ⟨_, removeFromFirstWhenLoop_stop p _ a f ?_ ?_, ?_⟩
          · show (Function.update sl.heap a _ a).OK
            rw [Function.update_same]; exact htok
          · show ((Function.update sl.heap a _ a).window.takeWhile p).length = 0
            rw [Function.update_same, htw, takeWhile_dropWhile_nil]; rfl
          · refine ⟨HeapOK.update hh a _ hamem _ _, ?_, ?_, ?_, ?_⟩
            · show Chain ((sl.heap a).trimFirst p).offset (sl.segments.map (Function.update _ a _))
              rw [hseg, hmap]
              exact ⟨htok.1, rfl, htok.2.1, by omega, htok.2.2.2, by rw [htpos]; exact c6, c7⟩
            · show contents (sl.segments.map (Function.update _ a _)) = _
              rw [hseg, hmap, contents, htw, hd]
            · show i32 (sl.size - _) = _
              rw [hs, i32_eq (by omega) (by omega), hdlen]
            · show ((sl.heap a).trimFirst p).offset + _ ≤ _
              rw [hdlen, htoff]
              omega

theorem RemoveFromFirstWhen_Inv (p : Option α → Bool) (sl : SegmentList α)
    (xs : List (Option α)) (h : Inv sl xs) :
    ∃ sl1, sl.RemoveFromFirstWhen p = some sl1 ∧ Inv sl1 (xs.dropWhile p) :=
  removeFromFirstWhenLoop_Inv p _ sl xs h (Nat.le_refl _)

end SegmentList

end PoleRpc

namespace PoleRpc

theorem rdropWhile_append_of_nil {β : Type} (p : β → Bool) (l1 l2 : List β)
    (h : l2.rdropWhile p = []) : (l1 ++ l2).rdropWhile p = l1.rdropWhile p := by
  unfold List.rdropWhile at h ⊢
  rw [List.reverse_eq_nil_iff] at h
  rw [List.reverse_append, List.dropWhile_append, h]
  rfl

theorem rdropWhile_append_of_ne_nil {β : Type} (p : β → Bool) (l1 l2 : List β)
    (h : l2.rdropWhile p ≠ []) : (l1 ++ l2).rdropWhile p = l1 ++ l2.rdropWhile p := by
  unfold List.rdropWhile at h ⊢
  rw [Ne, List.reverse_eq_nil_iff] at h
  rw [List.reverse_append, List.dropWhile_append, if_neg (by rw [List.isEmpty_iff]; exact h),
    List.reverse_append, List.reverse_reverse]

theorem rtakeWhile_rdropWhile_nil {β : Type} (p : β → Bool) (l : List β) :
    (l.rdropWhile p).rtakeWhile p = [] := by
  unfold List.rdropWhile List.rtakeWhile
  rw [List.reverse_reverse, takeWhile_dropWhile_nil]
  rfl

theorem sliceTo_concat {β : Type} (init : List β) (a : β) :
    sliceTo (init ++ [a]) (init.length : Int) = some init := by
  unfold sliceTo
  rw [if_pos ⟨Int.ofNat_nonneg _, by simp⟩, Int.toNat_ofNat, List.take_left]

theorem sliceTo_last {β : Type} (init : List β) (a : β)
    (h : ((init ++ [a]).length : Int) ≤ 2147483647) :
    sliceTo (init ++ [a]) (i32 (i32 (len (init ++ [a])) - 1)) = some init := by
  have hl : ((init ++ [a]).length : Int) = init.length + 1 := by simp
  have e1 : i32 ((init ++ [a]).length : Int) = ((init ++ [a]).length : Int) :=
    i32_eq (by omega) (by omega)
  have e2 : i32 (i32 (len (init ++ [a])) - 1) = (init.length : Int) := by
    rw [len_eq, e1, i32_eq (by omega) (by omega)]
    omega
  rw [e2]
  exact sliceTo_concat init a

namespace SegmentList

variable {α : Type}

theorem Chain.length_le {ss : List (Segment α)} :
    ∀ {fo : Int}, Chain fo ss → ss.length ≤ (contents ss).length := by
  induction ss with
  | nil => intro fo _; simp
  | cons s t ih =>
    intro fo h
    have hw := Segment.window_length h.head_OK
    obtain ⟨c1, c2, c3, c4, c5, c6, c7⟩ := h
    have := ih c7
    simp only [contents, List.length_cons, List.length_append]
    omega

theorem removeFromLastWhenLoop_none (p : Option α → Bool) (sl : SegmentList α) (fuel : Nat) :
    removeFromLastWhenLoop p (fuel + 1) sl none
      = some { sl with firstOffset := 0, size := 0 } := rfl

theorem removeFromLastWhenLoop_some (p : Option α → Bool) (sl : SegmentList α) (a : Nat)
    (fuel : Nat) :
    removeFromLastWhenLoop p (fuel + 1) sl (some a) =
      match (sl.heap a).RemoveFromLastWhen p with
      | none => none
      | some (seg, removed) =>
        let sl1 := { sl with heap := Function.update sl.heap a seg }
        if removed = 0 then some sl1
        else
          let sl2 := { sl1 with size := i32 (sl1.size - removed) }
          if seg.IsEmpty then
            match sliceTo sl2.segments (i32 (sl2.SegmentsSize - 1)) with
            | none => none
            | some rest =>
              let sl3 := recycle { sl2 with segments := rest } a
              removeFromLastWhenLoop p fuel sl3 sl3.GetLast
          else removeFromLastWhenLoop p fuel sl2 (some a) := rfl

theorem removeFromLastWhenLoop_stop (p : Option α → Bool) (sl : SegmentList α) (a : Nat)
    (fuel : Nat) (hok : (sl.heap a).OK)
    (hk : ((sl.heap a).window.rtakeWhile p).length = 0) :
    removeFromLastWhenLoop p (fuel + 1) sl (some a) = some sl := by
  rw [removeFromLastWhenLoop_some, Segment.RemoveFromLastWhen_eq _ hok]
  simp only [hk, Nat.cast_zero, if_true]
  rw [Segment.trimLast_eq_self _ hok p hk, Function.update_eq_self]


theorem removeFromLastWhenLoop_Inv (p : Option α → Bool) :
    ∀ (fuel : Nat) (sl : SegmentList α) (xs : List (Option α)), Inv sl xs →
      2 * sl.segments.length + 2 ≤ fuel →
      ∃ sl1, removeFromLastWhenLoop p fuel sl sl.GetLast = some sl1 ∧
        Inv sl1 (xs.rdropWhile p) := by
  intro fuel
  induction fuel with
  | zero => intro sl xs _ hf; omega
  | succ fuel ih =>
    intro sl xs h hf
    obtain ⟨hh, hc, hx, hs, hb⟩ := h
    have h0 := hc.firstOffset_nonneg
    rcases List.eq_nil_or_concat sl.segments with hseg | ⟨init, a, hseg⟩
    · have hgl : sl.GetLast = none := by simp [GetLast, hseg]
      have hxs : xs = [] := by rw [← hx, segs, hseg]; rfl
      refine ⟨{ sl with firstOffset := 0, size := 0 }, ?_, ?_⟩
      · rw [hgl, removeFromLastWhenLoop_none]
      · subst hxs
        refine ⟨hh, ?_, ?_, rfl, by simp [List.rdropWhile]⟩
        · show Chain 0 (sl.segments.map sl.heap)
          rw [hseg]; rfl
        · show contents (sl.segments.map sl.heap) = _
          rw [hseg]; rfl
    · rw [List.concat_eq_append] at hseg
      have hgl : sl.GetLast = some a := by simp [GetLast, hseg]
      have hsegs : sl.segs = init.map sl.heap ++ [sl.heap a] := by simp [segs, hseg]
      have hc0 := hc
      have hx0 := hx
      have hlenle := hc.length_le
      rw [hx] at hlenle
      have hseglen : sl.segs.length = sl.segments.length := by simp [segs]
      rw [hsegs] at hc hx
      obtain ⟨hok, hne, hfo⟩ := hc.last
      have hw := Segment.window_length hok
      rw [contents_append, contents_singleton] at hx
      have hkle : ((sl.heap a).window.rtakeWhile p).length ≤ (sl.heap a).window.length :=
        (List.rtakeWhile_suffix p _).sublist.length_le
      have hnodup := hh.1
      rw [hseg, List.nodup_append] at hnodup
      have hnot : a ∉ init := fun hm => hnodup.2.2 hm (List.mem_singleton_self a)
      have hamem : a ∈ sl.segments := by rw [hseg]; simp
      rw [hgl]
      by_cases hk : ((sl.heap a).window.rtakeWhile p).length = 0
      · refine ⟨sl, removeFromLastWhenLoop_stop p sl a fuel hok hk, ?_⟩
        have hd : xs.rdropWhile p = xs := by
          have hwne : (sl.heap a).window ≠ [] := by
            intro hnil; rw [hnil] at hw; simp at hw; omega
          have hself : (sl.heap a).window.rdropWhile p = (sl.heap a).window := by
            rw [rdropWhile_eq_take p (sl.heap a).window, hk]; simp
          rw [← hx, rdropWhile_append_of_ne_nil _ _ _ (by rw [hself]; exact hwne), hself]
        rw [hd]
        exact ⟨hh, hc0, hx0, hs, hb⟩
      · have htok := Segment.trimLast_OK _ hok p
        have htw := Segment.trimLast_window _ hok p
        have htoff : ((sl.heap a).trimLast p).offset = (sl.heap a).offset := rfl
        have htpos : ((sl.heap a).trimLast p).pos
            = (sl.heap a).pos - (((sl.heap a).window.rtakeWhile p).length : Nat) := rfl
        have hxlen : (xs.length : Int)
            = (contents (init.map sl.heap)).length + (sl.heap a).window.length := by
          rw [← hx]; simp
        have hmap : (init ++ [a]).map (Function.update sl.heap a ((sl.heap a).trimLast p))
            = init.map sl.heap ++ [(sl.heap a).trimLast p] :=
          map_update_concat _ _ _ _ hnot
        rw [removeFromLastWhenLoop_some, Segment.RemoveFromLastWhen_eq _ hok]
        simp only []
        rw [if_neg (by omega)]
        by_cases hemp : ((sl.heap a).window.rtakeWhile p).length = (sl.heap a).window.length
        · -- the last segment is drained and detached
          have hie : ((sl.heap a).trimLast p).IsEmpty = true := by
            simp only [Segment.IsEmpty, Segment.Size, decide_eq_true_eq]
            rw [i32_eq (by omega) (by omega)]
            omega
          rw [if_pos hie]
          have hst : sliceTo sl.segments
              (i32 (i32 (len sl.segments) - 1)) = some init := by
            have hbound : ((init ++ [a]).length : Int) ≤ 2147483647 := by
              rw [← hseg]; omega
            have key := sliceTo_last init a hbound
            rw [← hseg] at key
            exact key
          simp only [SegmentsSize, hst]
          have hdw : (sl.heap a).window.rdropWhile p = [] := by
            rw [rdropWhile_eq_take, hemp]; simp
          have hd : xs.rdropWhile p = (contents (init.map sl.heap)).rdropWhile p := by
            rw [← hx, rdropWhile_append_of_nil _ _ _ hdw]
          rw [hd]
          have hHeap : HeapOK (recycle
              { heap := Function.update sl.heap a ((sl.heap a).trimLast p), next := sl.next,
                pool := sl.pool, segments := init, firstOffset := sl.firstOffset,
                size := i32 (sl.size - (((sl.heap a).window.rtakeWhile p).length : Nat)) } a) := by
            refine ⟨?_, ?_, ?_, ?_⟩
            · exact hnodup.1
            · show (a :: sl.pool).Nodup
              rw [List.nodup_cons]
              exact ⟨fun hm => (hh.2.2.2 a hm).2.1 hamem, hh.2.1⟩
            · intro b hb
              exact hh.2.2.1 b (by rw [hseg]; exact List.mem_append_left _ hb)
            · intro b hb
              have hb2 : b ∈ a :: sl.pool := hb
              rw [List.mem_cons] at hb2
              rcases hb2 with rfl | hb2
              · refine ⟨hh.2.2.1 b hamem, hnot, ?_⟩
                show Function.update _ b _ b = _
                rw [Function.update_same]
                show (Function.update sl.heap b _ b).Clear = _
                rw [Function.update_same]
                exact Segment.Clear_eq _ htok.1
              · obtain ⟨q1, q2, q3⟩ := hh.2.2.2 b hb2
                have hne : b ≠ a := fun hba => q2 (hba ▸ hamem)
                refine ⟨q1, fun hm => q2 (by rw [hseg]; exact List.mem_append_left _ hm), ?_⟩
                show Function.update (Function.update sl.heap a _) a _ b = _
                rw [Function.update_noteq hne, Function.update_noteq hne]
                exact q3
          by_cases hinit : init = []
          · subst hinit
            obtain ⟨f, rfl⟩ : ∃ f, fuel = f + 1 := ⟨fuel - 1, by rw [hseg] at hf; simp at hf; omega⟩
            refine ⟨_, removeFromLastWhenLoop_none p _ f, ?_⟩
            refine ⟨hHeap, rfl, rfl, rfl, by simp [contents, List.rdropWhile]⟩
          · apply ih
            · refine ⟨hHeap, ?_, ?_, ?_, ?_⟩
              · show Chain sl.firstOffset
                  (init.map (Function.update (Function.update sl.heap a _) a _))
                rw [map_update_of_not_mem _ _ _ _ hnot, map_update_of_not_mem _ _ _ _ hnot]
                exact hc.init (by simpa using hinit)
              · show contents (init.map (Function.update (Function.update sl.heap a _) a _)) = _
                rw [map_update_of_not_mem _ _ _ _ hnot, map_update_of_not_mem _ _ _ _ hnot]
              · show i32 (sl.size - _) = _
                rw [hs, i32_eq (by omega) (by omega)]
                omega
              · show sl.firstOffset + _ ≤ _
                omega
            · show 2 * init.length + 2 ≤ fuel
              rw [hseg] at hf
              simp only [List.length_append, List.length_singleton] at hf
              omega
        · -- the last segment keeps elements: the next pass removes nothing
          have hie : ((sl.heap a).trimLast p).IsEmpty = false := by
            simp only [Segment.IsEmpty, Segment.Size, decide_eq_false_iff_not]
            rw [i32_eq (by omega) (by omega)]
            omega
          rw [if_neg (by simp [hie])]
          obtain ⟨f, rfl⟩ : ∃ f, fuel = f + 1 := ⟨fuel - 1, by omega⟩
          have hdne : (sl.heap a).window.rdropWhile p ≠ [] := by
            rw [rdropWhile_eq_take]
            intro hnil
            have := congrArg List.length hnil
            simp at this
            omega
          have hd : xs.rdropWhile p
              = contents (init.map sl.heap) ++ (sl.heap a).window.rdropWhile p := by
            rw [← hx, rdropWhile_append_of_ne_nil _ _ _ hdne]
          have hdlen : ((xs.rdropWhile p).length : Int) = xs.length
              - (((sl.heap a).window.rtakeWhile p).length : Nat) := by
            rw [hd, hxlen, rdropWhile_eq_take]
            simp only [List.length_append, List.length_take]
            push_cast
            omega
          refine ⟨_, removeFromLastWhenLoop_stop p _ a f ?_ ?_, ?_⟩
          · show (Function.update sl.heap a _ a).OK
            rw [Function.update_same]; exact htok
          · show ((Function.update sl.heap a _ a).window.rtakeWhile p).length = 0
            rw [Function.update_same, htw, rtakeWhile_rdropWhile_nil]; rfl
          · refine ⟨HeapOK.update hh a _ hamem _ _, ?_, ?_, ?_, ?_⟩
            · show Chain sl.firstOffset (sl.segments.map (Function.update _ a _))
              rw [hseg, hmap]
              exact Chain.replace_last hc htok.1 rfl (by rw [htpos]; omega) htok.2.2.2
            · show contents (sl.segments.map (Function.update _ a _)) = _
              rw [hseg, hmap, contents_append, contents_singleton, htw, hd]
            · show i32 (sl.size - _) = _
              rw [hs, i32_eq (by omega) (by omega), hdlen]
            · show sl.firstOffset + _ ≤ _
              rw [hdlen]
              omega

theorem RemoveFromLastWhen_Inv (p : Option α → Bool) (sl : SegmentList α)
    (xs : List (Option α)) (h : Inv sl xs) :
    ∃ sl1, sl.RemoveFromLastWhen p = some sl1 ∧ Inv sl1 (xs.rdropWhile p) :=
  removeFromLastWhenLoop_Inv p _ sl xs h (Nat.le_refl _)

end SegmentList

end PoleRpc

/-! ## The bucket scan keeps or sends every task -/

namespace PoleRpc

namespace HashTimeWheel

variable {F : Type}

theorem scanLoop_spec (m : Int) (sel : Nat → Bool) :
    ∀ (rest kept worker : List (timeTask F)) (execCnt : Int) (deals : Nat),
      ∃ q sent, scanLoop m sel kept rest worker execCnt deals
          = { queue := kept ++ q, worker := worker ++ sent } ∧
        q.Sublist rest ∧ sent.Sublist rest ∧ (q ++ sent).Perm rest ∧
        (∀ t ∈ sent, t.circle < 0) := by
  intro rest
  induction rest with
  | nil =>
    intro kept worker execCnt deals
    exact ⟨[], [], by simp [scanLoop], List.Sublist.refl _, List.Sublist.refl _,
      List.Perm.refl _, by simp⟩
  | cons task rest ih =>
    intro kept worker execCnt deals
    by_cases hb : m ≥ execCnt
    · by_cases hc : task.circle < 0
      · by_cases hs : sel deals = true
        · obtain ⟨q, sent, he, hq, hsn, hp, hneg⟩ :=
            ih kept (worker ++ [task]) (i32 (execCnt + 1)) (deals + 1)
          refine ⟨q, task :: sent, ?_, List.Sublist.cons _ hq, List.Sublist.cons₂ _ hsn, ?_, ?_⟩
          · simp only [scanLoop, hb, hc, hs, if_true, he, List.append_assoc,
              List.singleton_append]
          · exact List.perm_middle.trans (List.Perm.cons _ hp)
          · intro t ht
            rcases List.mem_cons.1 ht with h | h
            · rw [h]; exact hc
            · exact hneg t h
        · obtain ⟨q, sent, he, hq, hsn, hp, hneg⟩ :=
            ih (kept ++ [task]) worker execCnt (deals + 1)
          refine ⟨task :: q, sent, ?_, List.Sublist.cons₂ _ hq, List.Sublist.cons _ hsn, ?_, hneg⟩
          · simp only [scanLoop, hb, hc, hs, if_true, he, List.append_assoc,
              List.singleton_append]
            simp
          · exact List.Perm.cons _ hp
      · obtain ⟨q, sent, he, hq, hsn, hp, hneg⟩ :=
          ih (kept ++ [task]) worker execCnt deals
        refine ⟨task :: q, sent, ?_, List.Sublist.cons₂ _ hq, List.Sublist.cons _ hsn, ?_, hneg⟩
        · simp only [scanLoop, hb, hc, if_true, if_false, he, List.append_assoc,
            List.singleton_append]
        · exact List.Perm.cons _ hp
    · refine ⟨task :: rest, [], ?_, List.Sublist.refl _, List.nil_sublist _, ?_, by simp⟩
      · simp only [scanLoop, hb, if_false, List.append_nil]
      · simp

/-- At an item whose send times out the loop keeps the item and goes on. -/
theorem scanLoop_timeout (m : Int) (sel : Nat → Bool) (kept : List (timeTask F))
    (task : timeTask F) (rest worker : List (timeTask F)) (execCnt : Int) (deals : Nat)
    (hb : m ≥ execCnt) (hc : task.circle < 0) (ht : sel deals = false) :
    scanLoop m sel kept (task :: rest) worker execCnt deals
      = scanLoop m sel (kept ++ [task]) rest worker execCnt (deals + 1) := by
  simp only [scanLoop, hb, hc, ht, if_true]
  simp

end HashTimeWheel

end PoleRpc

namespace PoleRpc

namespace HashTimeWheel

variable {F : Type}

/-- When every send times out the loop leaves queue and channel as they are. -/
theorem scanLoop_all_timeout (m : Int) (sel : Nat → Bool) (hsel : ∀ n, sel n = false) :
    ∀ (rest kept worker : List (timeTask F)) (execCnt : Int) (deals : Nat),
      scanLoop m sel kept rest worker execCnt deals
        = { queue := kept ++ rest, worker := worker } := by
  intro rest
  induction rest with
  | nil => intro kept worker execCnt deals; simp [scanLoop]
  | cons task rest ih =>
    intro kept worker execCnt deals
    by_cases hb : m ≥ execCnt
    · by_cases hc : task.circle < 0
      · simp only [scanLoop, hb, hc, hsel deals, if_true, ih, List.append_assoc,
          List.singleton_append]
        simp
      · simp only [scanLoop, hb, hc, if_true, if_false, ih, List.append_assoc,
          List.singleton_append]
    · simp only [scanLoop, hb, if_false]

end HashTimeWheel

end PoleRpc

/-! ## The wheel: one step and the final sweep -/

namespace PoleRpc

namespace HashTimeWheel

variable {F : Type}

theorem tick_step (n t : Nat) (ht : t < n) (hmax : (n : Int) ≤ 2147483647) :
    i64 (Int.tmod (i64 ((t : Int) + 1)) (n : Int))
      = if t + 1 = n then 0 else ((t + 1 : Nat) : Int) := by
  have h1 : i64 ((t : Int) + 1) = (t : Int) + 1 := i64_eq (by omega) (by omega)
  rw [h1, Int.tmod_eq_emod (by omega) (by omega)]
  by_cases h : t + 1 = n
  · have h2 : ((t : Int) + 1) % (n : Int) = 0 := by
      rw [← h]; push_cast; exact Int.emod_self
    rw [if_pos h, h2]; rfl
  · have h2 : ((t : Int) + 1) % (n : Int) = (t : Int) + 1 :=
      Int.emod_eq_of_lt (by omega) (by omega)
    rw [if_neg h, h2, i64_eq (by omega) (by omega)]
    push_cast
    rfl

theorem process_spec (htw : HashTimeWheel F) (sel : Nat → Bool) (n t : Nat)
    (hn : htw.buckets.length = n) (hS : htw.opts.SlotNum = (n : Int))
    (hT : htw.opts.Tick = (t : Int)) (ht : t < n) (hmax : (n : Int) ≤ 2147483647) :
    ∃ b, htw.buckets[t]? = some b ∧
      htw.process sel
        = some (HashTimeWheel.mk (htw.buckets.set t (htw.scanExpireAndRun b sel))
            (Options.mk (if t + 1 = n then 0 else ((t + 1 : Nat) : Int)) htw.opts.SlotNum
              htw.opts.Interval htw.opts.MaxDealTask)) := by
  have hb : t < htw.buckets.length := by omega
  refine ⟨htw.buckets[t], List.getElem?_eq_getElem hb, ?_⟩
  unfold process
  rw [hT, sliceGet_natCast, List.getElem?_eq_getElem hb]
  simp only []
  rw [if_neg (by rw [hS]; omega), hS, tick_step n t ht hmax, Int.toNat_ofNat]

end HashTimeWheel

end PoleRpc

namespace PoleRpc

namespace HashTimeWheel

variable {F : Type}

theorem scanExpireAndRun_congr (htw htw1 : HashTimeWheel F) (b : timeBucket F)
    (sel : Nat → Bool) (h : htw1.opts.MaxDealTask = htw.opts.MaxDealTask) :
    htw1.scanExpireAndRun b sel = htw.scanExpireAndRun b sel := by
  unfold scanExpireAndRun
  rw [h]

theorem clearAllAndProcessLoop_step (sels : Nat → Nat → Bool) (fuel : Nat)
    (htw htw1 : HashTimeWheel F) (i k : Nat) (hi : (i : Int) + 1 ≤ 2147483647)
    (hp : htw.process (sels k) = some htw1) :
    clearAllAndProcessLoop sels (fuel + 1) htw ((i + 1 : Nat) : Int) k
      = clearAllAndProcessLoop sels fuel htw1 (i : Int) (k + 1) := by
  have h1 : i32 (((i + 1 : Nat) : Int) - 1) = (i : Int) := by
    rw [i32_eq (by omega) (by omega)]; omega
  have h2 : ((i + 1 : Nat) : Int) > 0 := by omega
  simp only [clearAllAndProcessLoop, if_pos h2, hp, h1]

theorem getElem?_set_scan (l : List (timeBucket F)) (t idx : Nat) (b b1 : timeBucket F)
    (hb : l[t]? = some b) :
    (l.set t b1)[idx]? = if idx = t then some b1 else l[idx]? := by
  by_cases h : idx = t
  · have hlt : t < l.length := by
      by_contra hc
      rw [List.getElem?_eq_none (by omega)] at hb
      exact Option.noConfusion hb
    rw [if_pos h, h, List.getElem?_set_self hlt]
  · rw [if_neg h, List.getElem?_set_ne (fun hc => h hc.symm)]

end HashTimeWheel

end PoleRpc

namespace PoleRpc

namespace HashTimeWheel

variable {F : Type}

/-- A run of `j + 1` steps of the sweep that does not pass the last bucket. -/
theorem sweep_phase (sels : Nat → Nat → Bool) (n : Nat) (hmax : (n : Int) ≤ 2147483647) :
    ∀ (j : Nat) (htw : HashTimeWheel F) (t k fuel i : Nat),
      htw.buckets.length = n → htw.opts.SlotNum = (n : Int) → htw.opts.Tick = (t : Int) →
      t + j + 1 ≤ n → i + j + 1 ≤ 2147483647 →
      ∃ htw1 : HashTimeWheel F,
        clearAllAndProcessLoop sels (fuel + (j + 1)) htw ((i + (j + 1) : Nat) : Int) k
          = clearAllAndProcessLoop sels fuel htw1 (i : Int) (k + (j + 1)) ∧
        htw1.buckets.length = n ∧
        htw1.opts = Options.mk (if t + j + 1 = n then 0 else ((t + j + 1 : Nat) : Int))
          htw.opts.SlotNum htw.opts.Interval htw.opts.MaxDealTask ∧
        ∀ idx, htw1.buckets[idx]? =
          if t ≤ idx ∧ idx < t + j + 1 then
            (htw.buckets[idx]?).map (fun b => htw.scanExpireAndRun b (sels (k + (idx - t))))
          else htw.buckets[idx]? := by
  intro j
  induction j with
  | zero =>
    intro htw t k fuel i hn hS hT htj hij
    obtain ⟨b, hb, hp⟩ := process_spec htw (sels k) n t hn hS hT (by omega) hmax
    refine ⟨_, clearAllAndProcessLoop_step sels fuel htw _ i k (by omega) hp, ?_, rfl, ?_⟩
    · show (htw.buckets.set t _).length = n
      rw [List.length_set, hn]
    · intro idx
      show (htw.buckets.set t _)[idx]? = _
      rw [getElem?_set_scan _ _ _ _ _ hb]
      by_cases h : idx = t
      · rw [if_pos h, if_pos (by omega), h, hb, Nat.sub_self]
        rfl
      · rw [if_neg h, if_neg (by omega)]
  | succ j ih =>
    intro htw t k fuel i hn hS hT htj hij
    obtain ⟨b, hb, hp⟩ := process_spec htw (sels k) n t hn hS hT (by omega) hmax
    rw [if_neg (by omega)] at hp
    have hstep := clearAllAndProcessLoop_step sels (fuel + (j + 1)) htw _ (i + (j + 1)) k
      (by omega) hp
    obtain ⟨htw2, hrun, hlen, hopts, hbk⟩ := ih
      (HashTimeWheel.mk (htw.buckets.set t (htw.scanExpireAndRun b (sels k)))
        (Options.mk ((t + 1 : Nat) : Int) htw.opts.SlotNum htw.opts.Interval
          htw.opts.MaxDealTask))
      (t + 1) (k + 1) fuel i (by show (htw.buckets.set t _).length = n; rw [List.length_set, hn])
      hS rfl (by omega) (by omega)
    refine ⟨htw2, ?_, hlen, ?_, ?_⟩
    · have e1 : fuel + (j + 1 + 1) = fuel + (j + 1) + 1 := by omega
      have e2 : i + (j + 1 + 1) = i + (j + 1) + 1 := by omega
      have e3 : k + (j + 1 + 1) = k + 1 + (j + 1) := by omega
      rw [e1, e2, e3, hstep, hrun]
    · rw [hopts]
      have e4 : t + 1 + j + 1 = t + (j + 1) + 1 := by omega
      rw [e4]
    · intro idx
      rw [hbk idx]
      show (if t + 1 ≤ idx ∧ idx < t + 1 + j + 1 then
          ((htw.buckets.set t _)[idx]?).map _ else (htw.buckets.set t _)[idx]?) = _
      rw [getElem?_set_scan _ _ _ _ _ hb]
      by_cases h : idx = t
      · rw [if_neg (by omega), if_pos h, if_pos (by omega), h, hb, Nat.sub_self]
        rfl
      · rw [if_neg h]
        by_cases h2 : t + 1 ≤ idx ∧ idx < t + 1 + j + 1
        · rw [if_pos h2, if_pos (by omega)]
          have e5 : k + 1 + (idx - (t + 1)) = k + (idx - t) := by omega
          rw [e5]
          rfl
        · rw [if_neg h2, if_neg (by omega)]

end HashTimeWheel

end PoleRpc

namespace PoleRpc

namespace HashTimeWheel

variable {F : Type}

/-- The full sweep of `clearAllAndProcess`: `n - t` steps up to the last bucket, then `t`
steps from bucket 0. -/
theorem clearAllAndProcess_spec (sels : Nat → Nat → Bool) (htw : HashTimeWheel F) (n t : Nat)
    (hmax : (n : Int) ≤ 2147483647) (hn : htw.buckets.length = n)
    (hS : htw.opts.SlotNum = (n : Int)) (hT : htw.opts.Tick = (t : Int)) (ht : t < n) :
    ∃ htw1 : HashTimeWheel F,
      htw.clearAllAndProcess sels = some htw1 ∧ htw1.buckets.length = n ∧
      htw1.opts = htw.opts ∧
      ∀ idx, htw1.buckets[idx]? =
        (htw.buckets[idx]?).map (fun b =>
          htw.scanExpireAndRun b (sels (if t ≤ idx then idx - t else n - t + idx))) := by
  have hopts : Options.mk (t : Int) htw.opts.SlotNum htw.opts.Interval htw.opts.MaxDealTask
      = htw.opts := by
    rw [← hT]
  obtain ⟨htw1, hrun1, hlen1, hopts1, hbk1⟩ :=
    sweep_phase sels n hmax (n - t - 1) htw t 0 t t hn hS hT (by omega) (by omega)
  have e1 : t + (n - t - 1 + 1) = n := by omega
  have e2 : 0 + (n - t - 1 + 1) = n - t := by omega
  have e3 : t + (n - t - 1) + 1 = n := by omega
  rw [e1, e2] at hrun1
  rw [e3, if_pos rfl] at hopts1
  simp only [e3] at hbk1
  have hstart : htw.clearAllAndProcess sels
      = clearAllAndProcessLoop sels t htw1 (t : Int) (n - t) := by
    unfold clearAllAndProcess
    rw [hS, Int.toNat_ofNat, hrun1]
  by_cases h0 : t = 0
  · refine ⟨htw1, ?_, hlen1, ?_, ?_⟩
    · rw [hstart, h0]
      simp [clearAllAndProcessLoop]
    · rw [hopts1, ← hopts, h0]
      rfl
    · intro idx
      rw [hbk1 idx]
      rw [if_pos (show t ≤ idx from by omega)]
      by_cases hi : idx < n
      · rw [if_pos (show t ≤ idx ∧ idx < n from ⟨by omega, hi⟩), Nat.zero_add]
      · rw [if_neg (show ¬(t ≤ idx ∧ idx < n) from by omega),
          List.getElem?_eq_none (by omega)]
        rfl
  · have hS1 : htw1.opts.SlotNum = (n : Int) := by rw [hopts1]; exact hS
    have hT1 : htw1.opts.Tick = ((0 : Nat) : Int) := by rw [hopts1]; rfl
    have hM1 : htw1.opts.MaxDealTask = htw.opts.MaxDealTask := by rw [hopts1]
    obtain ⟨htw2, hrun2, hlen2, hopts2, hbk2⟩ :=
      sweep_phase sels n hmax (t - 1) htw1 0 (n - t) 0 0 hlen1 hS1 hT1 (by omega) (by omega)
    have e4 : 0 + (t - 1 + 1) = t := by omega
    have e5 : n - t + (t - 1 + 1) = n := by omega
    have e6 : 0 + (t - 1) + 1 = t := by omega
    rw [e4, e5] at hrun2
    rw [e6, if_neg (by omega)] at hopts2
    simp only [e6] at hbk2
    refine ⟨htw2, ?_, hlen2, ?_, ?_⟩
    · rw [hstart, hrun2]
      simp [clearAllAndProcessLoop]
    · rw [hopts2, hopts1]
      exact hopts
    · intro idx
      rw [hbk2 idx, hbk1 idx]
      by_cases hi : idx < t
      · rw [if_pos (show 0 ≤ idx ∧ idx < t from ⟨by omega, hi⟩),
          if_neg (show ¬(t ≤ idx ∧ idx < n) from by omega),
          if_neg (show ¬(t ≤ idx) from by omega), Nat.sub_zero]
        cases htw.buckets[idx]? with
        | none => rfl
        | some b => exact congrArg some (scanExpireAndRun_congr htw htw1 b _ hM1)
      · rw [if_neg (show ¬(0 ≤ idx ∧ idx < t) from by omega),
          if_pos (show t ≤ idx from by omega)]
        by_cases hi2 : idx < n
        · rw [if_pos (show t ≤ idx ∧ idx < n from ⟨by omega, hi2⟩), Nat.zero_add]
        · rw [if_neg (show ¬(t ≤ idx ∧ idx < n) from by omega),
            List.getElem?_eq_none (by omega)]
          rfl

end HashTimeWheel

end PoleRpc

/-! ## `ArrayCopy` and `Segment.AddAll` keep the shape of a segment -/

namespace PoleRpc

theorem ArrayCopyLoop_spec {β : Type} (src : List β) (l tp : Nat)
    (hsrc : src.length ≤ 2147483647) (hl : l ≤ src.length) :
    ∀ (fuel : Nat) (target : List β) (i ti : Nat),
      fuel = l - i → ti + (l - i) ≤ target.length → target.length ≤ 2147483647 → tp ≤ ti →
      ∃ t1, ArrayCopyLoop src (l : Int) fuel target (i : Int) (ti : Int) = some t1 ∧
        t1.length = target.length ∧ t1.take tp = target.take tp := by
  intro fuel
  induction fuel with
  | zero =>
    intro target i ti hf _ _ _
    refine ⟨target, ?_, rfl, rfl⟩
    have : ¬ ((i : Int) < (l : Int)) := by omega
    simp only [ArrayCopyLoop, if_neg this]
  | succ fuel ih =>
    intro target i ti hf ht hmax htp
    have hi : (i : Int) < (l : Int) := by omega
    have hget : sliceGet src (i : Int) = some (src.get ⟨i, by omega⟩) := by
      rw [sliceGet_natCast]
      exact List.getElem?_eq_getElem (by omega)
    have h1 : i32 ((i : Int) + 1) = ((i + 1 : Nat) : Int) := by
      rw [i32_eq (by omega) (by omega)]; push_cast; rfl
    have h2 : i32 ((ti : Int) + 1) = ((ti + 1 : Nat) : Int) := by
      rw [i32_eq (by omega) (by omega)]; push_cast; rfl
    obtain ⟨t1, e1, e2, e3⟩ := ih (target.set ti (src.get ⟨i, by omega⟩)) (i + 1) (ti + 1)
      (by omega) (by rw [List.length_set]; omega) (by rw [List.length_set]; exact hmax)
      (by omega)
    refine ⟨t1, ?_, ?_, ?_⟩
    · simp only [ArrayCopyLoop, if_pos hi, hget, sliceSet_natCast _ _ _ (show ti < target.length
        from by omega), h1, h2, e1]
    · rw [e2, List.length_set]
    · rw [e3, take_set_of_le _ _ _ _ htp]

namespace Segment

variable {α : Type}

theorem AddAll_spec (s : Segment α) (h : s.OK) (src : List (Option α)) (srcPos l : Nat)
    (hsrc : src.length ≤ 2147483647) (hl : l ≤ src.length) (hcap : s.pos + (l : Int) ≤ 128) :
    ∃ (seg : Segment α) (ys : List (Option α)),
      s.AddAll src (srcPos : Int) (l : Int) = some seg ∧ seg.elements.length = 128 ∧
      seg.offset = s.offset ∧ seg.pos = s.pos + (l : Int) ∧
      seg.window = s.window ++ ys ∧ ys.length = l := by
  have hw := window_eq_drop_take s h
  obtain ⟨h1, h2, h3, h4⟩ := h
  have hpos : s.pos = ((s.pos.toNat : Nat) : Int) := by omega
  obtain ⟨t1, e1, e2, e3⟩ := ArrayCopyLoop_spec src l s.pos.toNat hsrc hl (l - srcPos)
    s.elements srcPos s.pos.toNat rfl (by omega) (by omega) (le_refl _)
  have hcopy : ArrayCopy src (srcPos : Int) s.elements s.pos (l : Int) = some t1 := by
    unfold ArrayCopy
    rw [Int.toNat_sub, hpos, e1]
  have hp32 : i32 (s.pos + (l : Int)) = s.pos + (l : Int) := i32_eq (by omega) (by omega)
  refine ⟨{ elements := t1, pos := s.pos + (l : Int), offset := s.offset },
    (t1.drop s.pos.toNat).take l, ?_, ?_, rfl, rfl, ?_, ?_⟩
  · unfold AddAll
    rw [hcopy]
    simp only []
    rw [hp32]
  · show t1.length = 128
    rw [e2, h1]
  · have hok1 : ({ elements := t1, pos := s.pos + (l : Int), offset := s.offset } :
        Segment α).OK := ⟨by rw [e2, h1], h2, by show s.offset ≤ s.pos + (l : Int); omega, hcap⟩
    rw [window_eq_drop_take _ hok1, hw]
    show List.drop s.offset.toNat (List.take (s.pos + (l : Int)).toNat t1) = _
    have e4 : (s.pos + (l : Int)).toNat = s.pos.toNat + l := by omega
    rw [e4, List.take_add, e3, List.drop_append_of_le_length (by rw [List.length_take]; omega)]
  · rw [List.length_take, List.length_drop]
    omega

end Segment

end PoleRpc

/-! ## `SegmentList.AddAll` keeps the chain of segments well formed -/

namespace PoleRpc

namespace SegmentList

variable {α : Type}

/-- The last segment `a` of the list receives the elements `ys` at its end. -/
theorem extend_last_Inv (sl : SegmentList α) (xs : List (Option α)) (h : Inv sl xs)
    (init : List Nat) (a : Nat) (hcat : sl.segments = init ++ [a]) (seg : Segment α)
    (ys : List (Option α)) (l : Int) (hl : l = (ys.length : Int))
    (hb : sl.firstOffset + (xs.length : Int) + l ≤ 2147483647)
    (hlen : seg.elements.length = 128) (hoff : seg.offset = (sl.heap a).offset)
    (hpos : seg.pos = (sl.heap a).pos + l) (hpos128 : seg.pos ≤ 128)
    (hwin : seg.window = (sl.heap a).window ++ ys) :
    Inv { sl with heap := Function.update sl.heap a seg, size := i32 (sl.size + l) }
      (xs ++ ys) := by
  obtain ⟨hh, hc, hx, hs, _⟩ := h
  have h0 := hc.firstOffset_nonneg
  have hsegs0 : sl.segs = init.map sl.heap ++ [sl.heap a] := by simp [segs, hcat]
  rw [hsegs0] at hc hx
  obtain ⟨l1, l2, l3⟩ := hc.last
  have hnot : a ∉ init := by
    have hn := hh.1
    rw [hcat, List.nodup_append] at hn
    intro hm
    exact hn.2.2 hm (List.mem_singleton_self a)
  have hsegs : List.map (Function.update sl.heap a seg) sl.segments
      = init.map sl.heap ++ [seg] := by
    rw [hcat, map_update_concat _ _ _ _ hnot]
  refine ⟨?_, ?_, ?_, ?_, ?_⟩
  · exact HeapOK.update hh a _ (by rw [hcat]; simp) _ _
  · show Chain sl.firstOffset (List.map _ sl.segments)
    rw [hsegs]
    exact Chain.replace_last hc hlen hoff (by omega) hpos128
  · show contents (List.map _ sl.segments) = _
    rw [hsegs, contents_append, contents_singleton, hwin, ← hx, contents_append,
      contents_singleton, List.append_assoc]
  · show i32 (sl.size + l) = _
    rw [hs, i32_eq (by omega) (by omega), hl]
    simp
  · show sl.firstOffset + _ ≤ _
    simp only [List.length_append]
    push_cast
    omega

/-- A segment taken from the pool is appended and receives the elements `ys`. -/
theorem extend_new_Inv (sl : SegmentList α) (xs : List (Option α)) (h : Inv sl xs)
    (hlast : ∀ s, sl.segs.getLast? = some s → s.pos = 128) (pick : Option Nat)
    (seg : Segment α) (ys : List (Option α)) (l : Int) (hl : l = (ys.length : Int))
    (hb : sl.firstOffset + (xs.length : Int) + l ≤ 2147483647)
    (hlen : seg.elements.length = 128) (hoff : seg.offset = 0) (hpos : seg.pos = l)
    (hpos0 : 0 < seg.pos) (hpos128 : seg.pos ≤ 128) (hwin : seg.window = ys) :
    Inv { (sl.acquire pick).2 with
            heap := Function.update (sl.acquire pick).2.heap (sl.acquire pick).1 seg,
            size := i32 ((sl.acquire pick).2.size + l) } (xs ++ ys) := by
  obtain ⟨hh, hc, hx, hs, _⟩ := h
  have h0 := hc.firstOffset_nonneg
  obtain ⟨a1, a2, a3, a4, a5, a6, a7⟩ := acquire_spec sl hh pick
  generalize sl.acquire pick = r at a1 a2 a3 a4 a5 a6 a7
  obtain ⟨a, sl1⟩ := r
  simp only [] at a1 a2 a3 a4 a5 a6 a7 ⊢
  have hsegs : List.map (Function.update sl1.heap a seg) sl1.segments = sl.segs ++ [seg] := by
    rw [a1, map_update_concat _ _ _ _ a2, segs]
    congr 1
    exact List.map_congr_left a4
  refine ⟨?_, ?_, ?_, ?_, ?_⟩
  · exact HeapOK.update a5 a _ (by rw [a1]; simp) _ _
  · show Chain sl1.firstOffset (List.map _ sl1.segments)
    rw [hsegs, a6]
    exact Chain.append_new hc hlast hlen hoff hpos0 hpos128
  · show contents (List.map _ sl1.segments) = _
    rw [hsegs, contents_append, contents_singleton, hwin, hx]
  · show i32 (sl1.size + l) = _
    rw [a7, hs, i32_eq (by omega) (by omega), hl]
    simp
  · show sl1.firstOffset + _ ≤ _
    rw [a6]
    simp only [List.length_append]
    push_cast
    omega

end SegmentList

end PoleRpc

namespace PoleRpc

namespace SegmentList

variable {α : Type}

theorem addAllLoop_zero (arr : List (Option α)) (srcSize : Int) (sl : SegmentList α)
    (lastSeg : Option Nat) (srcPos : Int) (picks : List (Option Nat)) :
    addAllLoop arr srcSize 0 sl lastSeg srcPos picks
      = if srcPos < srcSize then none else some sl := rfl

theorem addAllLoop_succ (arr : List (Option α)) (srcSize : Int) (fuel : Nat)
    (sl : SegmentList α) (lastSeg : Option Nat) (srcPos : Int) (picks : List (Option Nat)) :
    addAllLoop arr srcSize (fuel + 1) sl lastSeg srcPos picks
      = if srcPos < srcSize then
          let r : Nat × SegmentList α × List (Option Nat) :=
            match lastSeg with
            | none =>
              ((sl.acquire picks.head?.join).1, (sl.acquire picks.head?.join).2, picks.tail)
            | some a =>
              if (sl.heap a).IsReachEnd then
                ((sl.acquire picks.head?.join).1, (sl.acquire picks.head?.join).2, picks.tail)
              else (a, sl, picks)
          let l := i32 (min (i32 (srcSize - srcPos)) (r.2.1.heap r.1).Cap)
          match (r.2.1.heap r.1).AddAll arr srcPos l with
          | none => none
          | some seg =>
            addAllLoop arr srcSize fuel
              { r.2.1 with heap := Function.update r.2.1.heap r.1 seg,
                           size := i32 (r.2.1.size + l) }
              (some r.1) (i32 (srcPos + l)) r.2.2
        else some sl := rfl

theorem addAllLoop_done (arr : List (Option α)) (srcSize : Int) (fuel : Nat)
    (sl : SegmentList α) (lastSeg : Option Nat) (srcPos : Int) (picks : List (Option Nat))
    (h : ¬ srcPos < srcSize) :
    addAllLoop arr srcSize fuel sl lastSeg srcPos picks = some sl := by
  cases fuel with
  | zero => rw [addAllLoop_zero, if_neg h]
  | succ fuel => rw [addAllLoop_succ, if_neg h]

theorem addAllLoop_acquire (arr : List (Option α)) (srcSize : Int) (fuel : Nat)
    (sl : SegmentList α) (lastSeg : Option Nat) (srcPos : Int) (picks : List (Option Nat))
    (hlt : srcPos < srcSize) (hneed : sl.needsSegment lastSeg = true) (l : Int)
    (hl : i32 (min (i32 (srcSize - srcPos))
      ((sl.acquire picks.head?.join).2.heap (sl.acquire picks.head?.join).1).Cap) = l)
    (seg : Segment α)
    (hA : ((sl.acquire picks.head?.join).2.heap (sl.acquire picks.head?.join).1).AddAll
      arr srcPos l = some seg) :
    addAllLoop arr srcSize (fuel + 1) sl lastSeg srcPos picks
      = addAllLoop arr srcSize fuel
          { (sl.acquire picks.head?.join).2 with
              heap := Function.update (sl.acquire picks.head?.join).2.heap
                (sl.acquire picks.head?.join).1 seg,
              size := i32 ((sl.acquire picks.head?.join).2.size + l) }
          (some (sl.acquire picks.head?.join).1) (i32 (srcPos + l)) picks.tail := by
  rw [addAllLoop_succ, if_pos hlt]
  cases lastSeg with
  | none => simp only [hl, hA]
  | some a =>
    have hr : (sl.heap a).IsReachEnd = true := by
      simp only [needsSegment] at hneed
      exact hneed
    simp only [hr, if_true, hl, hA]

theorem addAllLoop_inplace (arr : List (Option α)) (srcSize : Int) (fuel : Nat)
    (sl : SegmentList α) (a : Nat) (srcPos : Int) (picks : List (Option Nat))
    (hlt : srcPos < srcSize) (hr : (sl.heap a).IsReachEnd = false) (l : Int)
    (hl : i32 (min (i32 (srcSize - srcPos)) (sl.heap a).Cap) = l) (seg : Segment α)
    (hA : (sl.heap a).AddAll arr srcPos l = some seg) :
    addAllLoop arr srcSize (fuel + 1) sl (some a) srcPos picks
      = addAllLoop arr srcSize fuel
          { sl with heap := Function.update sl.heap a seg, size := i32 (sl.size + l) }
          (some a) (i32 (srcPos + l)) picks := by
  rw [addAllLoop_succ, if_pos hlt]
  simp only [hr, Bool.false_eq_true, if_false, hl, hA]

end SegmentList

end PoleRpc

namespace PoleRpc

namespace SegmentList

variable {α : Type}

/-- One pass of the loop of `AddAll` that takes a segment from the pool. -/
theorem addAll_pass_acquire (arr : List (Option α)) (harr : arr.length ≤ 2147483647)
    (sl : SegmentList α) (xs : List (Option α)) (h : Inv sl xs) (lastSeg : Option Nat)
    (hneed : sl.needsSegment lastSeg = true)
    (hlast : ∀ s, sl.segs.getLast? = some s → s.pos = 128)
    (srcPos : Nat) (hlt : srcPos < arr.length) (picks : List (Option Nat))
    (hb : sl.firstOffset + (xs.length : Int) + ((arr.length - srcPos : Nat) : Int)
      ≤ 2147483647) :
    ∃ (sl1 : SegmentList α) (ys : List (Option α)),
      1 ≤ ys.length ∧ ys.length ≤ arr.length - srcPos ∧ Inv sl1 (xs ++ ys) ∧
      sl1.firstOffset = sl.firstOffset ∧
      ∀ fuel, addAllLoop arr (arr.length : Int) (fuel + 1) sl lastSeg (srcPos : Int) picks
        = addAllLoop arr (arr.length : Int) fuel sl1 sl1.GetLast
            ((srcPos + ys.length : Nat) : Int) picks.tail := by
  obtain ⟨a1, a2, a3, a4, a5, a6, a7⟩ := acquire_spec sl h.1 picks.head?.join
  have hcap : ((sl.acquire picks.head?.join).2.heap (sl.acquire picks.head?.join).1).Cap
      = 128 := by
    rw [a3]; rfl
  have hl : i32 (min (i32 ((arr.length : Int) - (srcPos : Int)))
      ((sl.acquire picks.head?.join).2.heap (sl.acquire picks.head?.join).1).Cap)
      = ((min (arr.length - srcPos) 128 : Nat) : Int) := by
    rw [hcap, i32_eq (x := (arr.length : Int) - (srcPos : Int)) (by omega) (by omega),
      i32_eq (by omega) (by omega)]
    omega
  obtain ⟨seg, ys, hA, e1, e2, e3, e4, e5⟩ :=
    Segment.AddAll_spec (Segment.NewSegment : Segment α) Segment.NewSegment_OK arr srcPos
      (min (arr.length - srcPos) 128) harr (by omega)
      (by show (0 : Int) + _ ≤ 128; omega)
  rw [Segment.NewSegment_window, List.nil_append] at e4
  have e2a : seg.offset = 0 := e2
  have e3a : seg.pos = ((min (arr.length - srcPos) 128 : Nat) : Int) := by
    rw [e3]; show (0 : Int) + _ = _; omega
  rw [← a3] at hA
  have hinv := extend_new_Inv sl xs h hlast picks.head?.join seg ys
    ((min (arr.length - srcPos) 128 : Nat) : Int) (by rw [e5]) (by omega) e1 e2a e3a
    (by omega) (by omega) e4
  refine ⟨_, ys, by omega, by omega, hinv, a6, ?_⟩
  intro fuel
  rw [addAllLoop_acquire arr _ fuel sl lastSeg _ picks (by omega) hneed _ hl seg hA]
  have hpos : i32 ((srcPos : Int) + ((min (arr.length - srcPos) 128 : Nat) : Int))
      = ((srcPos + ys.length : Nat) : Int) := by
    rw [i32_eq (by omega) (by omega), e5]; push_cast; rfl
  have hgl : (sl.acquire picks.head?.join).2.segments.getLast?
      = some (sl.acquire picks.head?.join).1 := by
    rw [a1, List.getLast?_concat]
  rw [hpos]
  show _ = addAllLoop arr _ fuel _ ((sl.acquire picks.head?.join).2.segments.getLast?) _ _
  rw [hgl]

/-- One pass of the loop of `AddAll` that writes into the last segment `a`. -/
theorem addAll_pass_inplace (arr : List (Option α)) (harr : arr.length ≤ 2147483647)
    (sl : SegmentList α) (xs : List (Option α)) (h : Inv sl xs) (init : List Nat) (a : Nat)
    (hcat : sl.segments = init ++ [a]) (hfull : (sl.heap a).pos ≠ 128)
    (srcPos : Nat) (hlt : srcPos < arr.length) (picks : List (Option Nat))
    (hb : sl.firstOffset + (xs.length : Int) + ((arr.length - srcPos : Nat) : Int)
      ≤ 2147483647) :
    ∃ (sl1 : SegmentList α) (ys : List (Option α)),
      1 ≤ ys.length ∧ ys.length ≤ arr.length - srcPos ∧ Inv sl1 (xs ++ ys) ∧
      sl1.firstOffset = sl.firstOffset ∧
      ∀ fuel, addAllLoop arr (arr.length : Int) (fuel + 1) sl (some a) (srcPos : Int) picks
        = addAllLoop arr (arr.length : Int) fuel sl1 sl1.GetLast
            ((srcPos + ys.length : Nat) : Int) picks := by
  have hsegs0 : sl.segs = init.map sl.heap ++ [sl.heap a] := by simp [segs, hcat]
  have hc := h.2.1
  rw [hsegs0] at hc
  obtain ⟨l1, l2, l3⟩ := hc.last
  obtain ⟨k1, k2, k3, k4⟩ := l1
  have hr : (sl.heap a).IsReachEnd = false := by
    simp only [Segment.IsReachEnd, SegmentSize_eq, hfull, decide_False]
  have hcap : (sl.heap a).Cap = 128 - (sl.heap a).pos := by
    unfold Segment.Cap
    rw [SegmentSize_eq, i32_eq (by omega) (by omega)]
  have hl : i32 (min (i32 ((arr.length : Int) - (srcPos : Int))) (sl.heap a).Cap)
      = ((min (arr.length - srcPos) (128 - (sl.heap a).pos.toNat) : Nat) : Int) := by
    rw [hcap, i32_eq (x := (arr.length : Int) - (srcPos : Int)) (by omega) (by omega),
      i32_eq (by omega) (by omega)]
    omega
  obtain ⟨seg, ys, hA, e1, e2, e3, e4, e5⟩ :=
    Segment.AddAll_spec (sl.heap a) ⟨k1, k2, k3, k4⟩ arr srcPos
      (min (arr.length - srcPos) (128 - (sl.heap a).pos.toNat)) harr (by omega) (by omega)
  have hinv := extend_last_Inv sl xs h init a hcat seg ys
    ((min (arr.length - srcPos) (128 - (sl.heap a).pos.toNat) : Nat) : Int) (by rw [e5])
    (by omega) e1 e2 e3 (by omega) e4
  refine ⟨_, ys, by omega, by omega, hinv, rfl, ?_⟩
  intro fuel
  rw [addAllLoop_inplace arr _ fuel sl a _ picks (by omega) hr _ hl seg hA]
  have hpos : i32 ((srcPos : Int)
      + ((min (arr.length - srcPos) (128 - (sl.heap a).pos.toNat) : Nat) : Int))
      = ((srcPos + ys.length : Nat) : Int) := by
    rw [i32_eq (by omega) (by omega), e5]; push_cast; rfl
  have hgl : sl.segments.getLast? = some a := by rw [hcat, List.getLast?_concat]
  rw [hpos]
  show _ = addAllLoop arr _ fuel _ (sl.segments.getLast?) _ _
  rw [hgl]

end SegmentList

end PoleRpc

namespace PoleRpc

namespace SegmentList

variable {α : Type}

theorem addAllLoop_Inv (arr : List (Option α)) (harr : arr.length ≤ 2147483647) :
    ∀ (fuel : Nat) (sl : SegmentList α) (xs : List (Option α)) (srcPos : Nat)
      (picks : List (Option Nat)),
      Inv sl xs → srcPos ≤ arr.length → arr.length - srcPos ≤ fuel →
      sl.firstOffset + (xs.length : Int) + ((arr.length - srcPos : Nat) : Int) ≤ 2147483647 →
      ∃ (sl1 : SegmentList α) (ys : List (Option α)),
        addAllLoop arr (arr.length : Int) fuel sl sl.GetLast (srcPos : Int) picks = some sl1 ∧
        Inv sl1 (xs ++ ys) ∧ ys.length = arr.length - srcPos := by
  intro fuel
  induction fuel with
  | zero =>
    intro sl xs srcPos picks h hle hf _
    refine ⟨sl, [], addAllLoop_done _ _ _ _ _ _ _ (by omega), ?_, by simp; omega⟩
    rw [List.append_nil]; exact h
  | succ fuel ih =>
    intro sl xs srcPos picks h hle hf hb
    by_cases hlt : srcPos < arr.length
    · have hpass : ∃ (sl1 : SegmentList α) (ys : List (Option α)) (picks1 : List (Option Nat)),
          1 ≤ ys.length ∧ ys.length ≤ arr.length - srcPos ∧ Inv sl1 (xs ++ ys) ∧
          sl1.firstOffset = sl.firstOffset ∧
          ∀ fuel, addAllLoop arr (arr.length : Int) (fuel + 1) sl sl.GetLast (srcPos : Int)
              picks
            = addAllLoop arr (arr.length : Int) fuel sl1 sl1.GetLast
                ((srcPos + ys.length : Nat) : Int) picks1 := by
        rcases List.eq_nil_or_concat sl.segments with hnil | ⟨init, a, hcat⟩
        · have hlast : ∀ s, sl.segs.getLast? = some s → s.pos = 128 := by
            intro s hs
            simp [segs, hnil] at hs
          have hgl : sl.GetLast = none := by
            unfold GetLast; rw [hnil, List.getLast?_nil]
          obtain ⟨sl1, ys, p1, p2, p3, p5, p4⟩ := addAll_pass_acquire arr harr sl xs h sl.GetLast
            (by rw [hgl]; rfl) hlast srcPos hlt picks hb
          exact ⟨sl1, ys, _, p1, p2, p3, p5, p4⟩
        · rw [List.concat_eq_append] at hcat
          have hgl : sl.GetLast = some a := by
            unfold GetLast; rw [hcat, List.getLast?_concat]
          by_cases hfull : (sl.heap a).pos = 128
          · have hlast : ∀ s, sl.segs.getLast? = some s → s.pos = 128 := by
              intro s hs
              simp only [segs, hcat, List.map_append, List.map_cons, List.map_nil,
                List.getLast?_concat, Option.some.injEq] at hs
              rw [← hs]
              exact hfull
            obtain ⟨sl1, ys, p1, p2, p3, p5, p4⟩ := addAll_pass_acquire arr harr sl xs h
              sl.GetLast
              (by rw [hgl]; simp only [needsSegment, Segment.IsReachEnd, SegmentSize_eq, hfull,
                    decide_True])
              hlast srcPos hlt picks hb
            exact ⟨sl1, ys, _, p1, p2, p3, p5, p4⟩
          · obtain ⟨sl1, ys, p1, p2, p3, p5, p4⟩ := addAll_pass_inplace arr harr sl xs h init a
              hcat hfull srcPos hlt picks hb
            rw [← hgl] at p4
            exact ⟨sl1, ys, _, p1, p2, p3, p5, p4⟩
      obtain ⟨sl1, ys, picks1, p1, p2, p3, hfo1, p4⟩ := hpass
      obtain ⟨sl2, zs, q1, q2, q3⟩ := ih sl1 (xs ++ ys) (srcPos + ys.length) picks1 p3
        (by omega) (by omega)
        (by rw [hfo1, List.length_append]; push_cast; omega)
      refine ⟨sl2, ys ++ zs, ?_, ?_, ?_⟩
      · rw [p4 fuel, q1]
      · rw [← List.append_assoc]; exact q2
      · rw [List.length_append, q3]; omega
    · refine ⟨sl, [], addAllLoop_done _ _ _ _ _ _ _ (by omega), ?_, by simp; omega⟩
      rw [List.append_nil]; exact h

end SegmentList

end PoleRpc

namespace PoleRpc

namespace SegmentList

variable {α : Type}

theorem AddAll_Inv (sl : SegmentList α) (xs : List (Option α)) (h : Inv sl xs)
    (arr : List (Option α)) (picks : List (Option Nat))
    (hb : sl.firstOffset + (xs.length : Int) + (arr.length : Int) ≤ 2147483647) :
    ∃ (sl1 : SegmentList α) (ys : List (Option α)),
      sl.AddAll arr picks = some sl1 ∧ Inv sl1 (xs ++ ys) ∧ ys.length = arr.length := by
  have h0 := h.2.1.firstOffset_nonneg
  have harr : arr.length ≤ 2147483647 := by omega
  obtain ⟨sl1, ys, e1, e2, e3⟩ := addAllLoop_Inv arr harr (arr.length + picks.length + 1) sl xs
    0 picks h (by omega) (by omega) (by omega)
  refine ⟨sl1, ys, ?_, e2, by omega⟩
  unfold AddAll
  rw [len_eq, i32_eq (by omega) (by omega)]
  exact e1

end SegmentList

end PoleRpc

/-! ## `PeekFirst` and `PeekLast` read the ends of a well-formed list -/

namespace PoleRpc

namespace Segment

variable {α : Type}

theorem window_getElem? (s : Segment α) (h : s.OK) (j : Nat) (hj : j < s.window.length) :
    s.window[j]? = s.elements[s.offset.toNat + j]? := by
  have hw := window_length h
  have hj2 : j < (s.pos - s.offset).toNat := by omega
  rw [window, List.getElem?_take, if_pos hj2, List.getElem?_drop]

theorem sliceGet_nonneg {β : Type} (xs : List β) (i : Int) (h : 0 ≤ i) :
    sliceGet xs i = xs[i.toNat]? := by
  unfold sliceGet
  rw [if_pos h]

end Segment

namespace SegmentList

variable {α : Type}

theorem PeekFirst_of_Inv (sl : SegmentList α) (xs : List (Option α)) (h : Inv sl xs)
    (hne : xs ≠ []) :
    ∃ v, xs[0]? = some v ∧ sl.PeekFirst = some v := by
  obtain ⟨_, hc, hx, _, _⟩ := h
  cases hseg : sl.segments with
  | nil =>
    rw [segs, hseg] at hx
    exact absurd hx.symm hne
  | cons a rest =>
    have hsegs : sl.segs = sl.heap a :: rest.map sl.heap := by rw [segs, hseg]; rfl
    rw [hsegs] at hc hx
    have hok := hc.head_OK
    have hw := Segment.window_length hok
    obtain ⟨c1, c2, c3, c4, c5, c6, c7⟩ := hc
    obtain ⟨k1, k2, k3, k4⟩ := hok
    have hlt : (sl.heap a).offset.toNat < (sl.heap a).elements.length := by omega
    refine ⟨(sl.heap a).elements.get ⟨(sl.heap a).offset.toNat, hlt⟩, ?_, ?_⟩
    · rw [← hx, contents, List.getElem?_append_left (by omega),
        Segment.window_getElem? _ ⟨k1, k2, k3, k4⟩ 0 (by omega), Nat.add_zero]
      exact List.getElem?_eq_getElem hlt
    · unfold PeekFirst GetFirst
      rw [hseg]
      show (sl.heap a).PeekFirst = _
      unfold Segment.PeekFirst
      rw [Segment.sliceGet_nonneg _ _ k2]
      exact List.getElem?_eq_getElem hlt

theorem PeekLast_of_Inv (sl : SegmentList α) (xs : List (Option α)) (h : Inv sl xs)
    (hne : xs ≠ []) :
    ∃ w, xs[xs.length - 1]? = some w ∧ sl.PeekLast = some w := by
  obtain ⟨_, hc, hx, _, _⟩ := h
  rcases List.eq_nil_or_concat sl.segments with hnil | ⟨init, a, hcat⟩
  · rw [segs, hnil] at hx
    exact absurd hx.symm hne
  · rw [List.concat_eq_append] at hcat
    have hsegs : sl.segs = init.map sl.heap ++ [sl.heap a] := by simp [segs, hcat]
    rw [hsegs] at hc hx
    obtain ⟨l1, l2, _⟩ := hc.last
    have hw := Segment.window_length l1
    obtain ⟨k1, k2, k3, k4⟩ := l1
    have hlt : (sl.heap a).pos.toNat - 1 < (sl.heap a).elements.length := by omega
    have hxl : xs.length = (contents (init.map sl.heap)).length + (sl.heap a).window.length := by
      rw [← hx, contents_append, contents_singleton, List.length_append]
    refine ⟨(sl.heap a).elements.get ⟨(sl.heap a).pos.toNat - 1, hlt⟩, ?_, ?_⟩
    · rw [hxl, ← hx, contents_append, contents_singleton,
        List.getElem?_append_right (by omega),
        Segment.window_getElem? _ ⟨k1, k2, k3, k4⟩ _ (by omega)]
      have e : (sl.heap a).offset.toNat
          + ((contents (init.map sl.heap)).length + (sl.heap a).window.length - 1
              - (contents (init.map sl.heap)).length)
          = (sl.heap a).pos.toNat - 1 := by omega
      rw [e]
      exact List.getElem?_eq_getElem hlt
    · have hgl : sl.segments.getLast? = some a := by rw [hcat, List.getLast?_concat]
      unfold PeekLast GetLast
      rw [hgl]
      show (sl.heap a).PeekLast = _
      unfold Segment.PeekLast
      have hp : (i32 ((sl.heap a).pos - 1)).toNat = (sl.heap a).pos.toNat - 1 := by
        rw [i32_eq (by omega) (by omega)]; omega
      rw [Segment.sliceGet_nonneg _ _ (by rw [i32_eq (by omega) (by omega)]; omega), hp]
      exact List.getElem?_eq_getElem hlt

end SegmentList

end PoleRpc

namespace PoleRpc

namespace SegmentList

variable {α : Type}

theorem applyOp_Inv (sl : SegmentList α) (xs : List (Option α)) (h : Inv sl xs) (op : Op α)
    (hb : sl.firstOffset + sl.size + (op.added : Int) ≤ 2147483647) :
    ∃ (sl1 : SegmentList α) (ys : List (Option α)), applyOp sl op = some sl1 ∧ Inv sl1 ys := by
  have hs : sl.size = (xs.length : Int) := h.2.2.2.1
  rw [hs] at hb
  cases op with
  | add e pick =>
    obtain ⟨sl1, e1, e2, _⟩ := Add_Inv sl xs h hb e pick
    exact ⟨sl1, _, e1, e2⟩
  | addAll arr picks =>
    obtain ⟨sl1, ys, e1, e2, _⟩ := AddAll_Inv sl xs h arr picks hb
    exact ⟨sl1, _, e1, e2⟩
  | removeFromFirstWhen p =>
    obtain ⟨sl1, e1, e2⟩ := RemoveFromFirstWhen_Inv p sl xs h
    exact ⟨sl1, _, e1, e2⟩
  | removeFromLastWhen p =>
    obtain ⟨sl1, e1, e2⟩ := RemoveFromLastWhen_Inv p sl xs h
    exact ⟨sl1, _, e1, e2⟩

theorem runOps_Inv (ops : List (Op α)) :
    ∀ (sl : SegmentList α) (xs : List (Option α)), Inv sl xs → opsInRange sl ops = true →
      ∃ (sl1 : SegmentList α) (ys : List (Option α)), runOps sl ops = some sl1 ∧ Inv sl1 ys := by
  induction ops with
  | nil =>
    intro sl xs h _
    exact ⟨sl, xs, rfl, h⟩
  | cons op rest ih =>
    intro sl xs h hr
    rw [opsInRange, Bool.and_eq_true, decide_eq_true_eq] at hr
    obtain ⟨hb, hrest⟩ := hr
    obtain ⟨sl1, ys, e1, e2⟩ := applyOp_Inv sl xs h op hb
    rw [e1] at hrest
    obtain ⟨sl2, zs, f1, f2⟩ := ih sl1 ys e2 hrest
    refine ⟨sl2, zs, ?_, f2⟩
    rw [runOps, e1]
    exact f1

end SegmentList

end PoleRpc

namespace PoleRpc

open SegmentList

/-- C1: starting from `NewSegmentList()`, after the elements of `es` have been added one by
one with `Add` (whatever the pool hands out at each call, and for any number of them that an
`int32` can count, so across any number of 128-slot segments), `Size()` is the number of
elements added and `Get(i)` returns the `i`-th of them with no error, for every
`0 ≤ i < Size()`. -/
theorem C1_add_size_get {α : Type} (es : List (Option α × Option Nat))
    (hn : (es.length : Int) ≤ MaxInt32) :
    ∃ sl : SegmentList α, AddSeq NewSegmentList es = some sl ∧
      sl.Size = (es.length : Int) ∧
      ∀ (i : Nat) (hi : i < es.length), sl.Get (i : Int) = GetResult.value (es[i]).1 := by
  obtain ⟨sl, h1, h2, _⟩ := AddSeq_Inv es NewSegmentList [] NewSegmentList_Inv (by
    simp only [NewSegmentList, List.length_nil, MaxInt32] at hn ⊢
    omega)
  simp only [List.nil_append] at h2
  refine ⟨sl, h1, ?_, ?_⟩
  · rw [h2.Size]; simp
  · intro i hi
    apply Get_of_Inv sl _ h2
    rw [List.getElem?_map, List.getElem?_eq_getElem hi]
    rfl

/-- Witness of C1: three elements, the third being nil. -/
theorem C1_add_size_get_witness :
    ((3 : Int) ≤ MaxInt32) ∧
    ∃ sl : SegmentList Nat,
      AddSeq NewSegmentList [(some 7, none), (some 8, some 0), (none, none)] = some sl ∧
      sl.Size = 3 ∧
      ∀ (i : Nat) (hi : i < 3), sl.Get (i : Int)
        = GetResult.value ([(some 7, none), (some 8, some 0), ((none : Option Nat), (none : Option Nat))][i]).1 :=
  ⟨by decide, C1_add_size_get [(some 7, none), (some 8, some 0), (none, none)] (by decide)⟩

end PoleRpc

namespace PoleRpc

open SegmentList

/-- C2: for the list holding the elements of `es` (added one by one with `Add`) and every
predicate `p`, with `k` the length of the longest prefix whose elements all satisfy `p`,
`RemoveFromFirstWhen(p)` returns and leaves `Size() = n - k` and `Get(i) = e_(k+i)` for every
`0 ≤ i < n - k`: the elements after the first failure of `p` are all kept. -/
theorem C2_removeFromFirstWhen {α : Type} (es : List (Option α × Option Nat))
    (hn : (es.length : Int) ≤ MaxInt32) (p : Option α → Bool) :
    ∃ sl sl1 : SegmentList α, AddSeq NewSegmentList es = some sl ∧
      sl.RemoveFromFirstWhen p = some sl1 ∧
      sl1.Size = (es.length : Int) - (((es.map Prod.fst).takeWhile p).length : Int) ∧
      ∀ (i : Nat) (hi : ((es.map Prod.fst).takeWhile p).length + i < es.length),
        sl1.Get (i : Int)
          = GetResult.value (es[((es.map Prod.fst).takeWhile p).length + i]).1 := by
  obtain ⟨sl, h1, h2, _⟩ := AddSeq_Inv es NewSegmentList [] NewSegmentList_Inv (by
    simp only [NewSegmentList, List.length_nil, MaxInt32] at hn ⊢
    omega)
  simp only [List.nil_append] at h2
  obtain ⟨sl1, r1, r2⟩ := RemoveFromFirstWhen_Inv p sl _ h2
  have hk := takeWhile_length_le p (es.map Prod.fst)
  simp only [List.length_map] at hk
  refine ⟨sl, sl1, h1, r1, ?_, ?_⟩
  · rw [r2.Size, dropWhile_eq_drop]
    simp only [List.length_drop, List.length_map]
    omega
  · intro i hi
    apply Get_of_Inv sl1 _ r2
    rw [dropWhile_eq_drop, List.getElem?_drop, List.getElem?_map, List.getElem?_eq_getElem hi]
    rfl

/-- Witness of C2: the prefix `1, 1` goes, `2, 1` stay although the last `1` satisfies `p`. -/
theorem C2_removeFromFirstWhen_witness :
    ∃ sl sl1 : SegmentList Nat,
      AddSeq NewSegmentList [(some 1, none), (some 1, none), (some 2, none), (some 1, none)]
        = some sl ∧
      sl.RemoveFromFirstWhen (fun v => v == some 1) = some sl1 ∧
      sl1.Size = 2 ∧ sl1.Get 0 = GetResult.value (some 2) ∧
      sl1.Get 1 = GetResult.value (some 1) := by
  obtain ⟨sl, sl1, h1, h2, h3, h4⟩ := C2_removeFromFirstWhen
    [(some 1, none), (some 1, none), (some 2, none), ((some 1 : Option Nat), (none : Option Nat))]
    (by decide) (fun v => v == some 1)
  refine ⟨sl, sl1, h1, h2, ?_, ?_, ?_⟩
  · rw [h3]; decide
  · exact h4 0 (by decide)
  · exact h4 1 (by decide)

end PoleRpc

namespace PoleRpc

open SegmentList

/-- C3: take the list built by `Add` calls from `es`, optionally head-trimmed by an earlier
`RemoveFromFirstWhen(q)`, holding the elements `xs`, and a predicate `p` with `k` the length of
the longest suffix of `xs` whose elements all satisfy `p`. Then `RemoveFromLastWhen(p)` returns
and leaves `Size() = n - k` and `Get(i) = xs[i]` for every `0 ≤ i < n - k`; when every element
satisfies `p` the list ends empty (no segment, size 0) with `firstOffset = 0`. -/
theorem C3_removeFromLastWhen {α : Type} (es : List (Option α × Option Nat))
    (hn : (es.length : Int) ≤ MaxInt32) (q : Option (Option α → Bool)) (p : Option α → Bool) :
    ∃ sl sl0 sl1 : SegmentList α, AddSeq NewSegmentList es = some sl ∧
      sl.headTrimmed q = some sl0 ∧
      sl0.RemoveFromLastWhen p = some sl1 ∧
      sl1.Size = ((headTrimmedElems (es.map Prod.fst) q).length : Int)
        - (((headTrimmedElems (es.map Prod.fst) q).rtakeWhile p).length : Int) ∧
      (∀ (i : Nat) (v : Option α),
        i + ((headTrimmedElems (es.map Prod.fst) q).rtakeWhile p).length
          < (headTrimmedElems (es.map Prod.fst) q).length →
        (headTrimmedElems (es.map Prod.fst) q)[i]? = some v →
        sl1.Get (i : Int) = GetResult.value v) ∧
      ((∀ x ∈ headTrimmedElems (es.map Prod.fst) q, p x = true) →
        sl1.Size = 0 ∧ sl1.firstOffset = 0 ∧ sl1.segments = []) := by
  obtain ⟨sl, h1, h2, _⟩ := AddSeq_Inv es NewSegmentList [] NewSegmentList_Inv (by
    simp only [NewSegmentList, List.length_nil, MaxInt32] at hn ⊢
    omega)
  simp only [List.nil_append] at h2
  have h0 : ∃ sl0, sl.headTrimmed q = some sl0 ∧
      Inv sl0 (headTrimmedElems (es.map Prod.fst) q) := by
    cases q with
    | none => exact ⟨sl, rfl, h2⟩
    | some q => exact RemoveFromFirstWhen_Inv q sl _ h2
  obtain ⟨sl0, t1, t2⟩ := h0
  obtain ⟨sl1, r1, r2⟩ := RemoveFromLastWhen_Inv p sl0 _ t2
  generalize headTrimmedElems (es.map Prod.fst) q = xs at t2 r2 ⊢
  have hk : (xs.rtakeWhile p).length ≤ xs.length :=
    (List.rtakeWhile_suffix p xs).sublist.length_le
  refine ⟨sl, sl0, sl1, h1, t1, r1, ?_, ?_, ?_⟩
  · rw [r2.Size, rdropWhile_eq_take]
    simp only [List.length_take]
    omega
  · intro i v hi hv
    apply Get_of_Inv sl1 _ r2
    rw [rdropWhile_eq_take, List.getElem?_take, if_pos (by omega)]
    exact hv
  · intro hall
    have hnil : xs.rdropWhile p = [] := by
      rw [List.rdropWhile_eq_nil_iff]
      exact hall
    rw [hnil] at r2
    obtain ⟨_, hc, hx, hs, _⟩ := r2
    have hlen := hc.length_le
    rw [hx] at hlen
    have hsegs : sl1.segs = [] := List.eq_nil_of_length_eq_zero (by simpa using hlen)
    rw [hsegs] at hc
    refine ⟨by rw [SegmentList.Size, hs]; rfl, hc, ?_⟩
    simpa [segs] using hsegs

/-- Witness of C3: `1, 2, 3, 3` head-trimmed of `1`, then tail-trimmed of the `3`s. -/
theorem C3_removeFromLastWhen_witness :
    ∃ sl sl0 sl1 : SegmentList Nat,
      AddSeq NewSegmentList [(some 1, none), (some 2, none), (some 3, none), (some 3, none)]
        = some sl ∧
      sl.headTrimmed (some (fun v => v == some 1)) = some sl0 ∧
      sl0.RemoveFromLastWhen (fun v => v == some 3) = some sl1 ∧
      sl1.Size = 1 ∧ sl1.Get 0 = GetResult.value (some 2) := by
  obtain ⟨sl, sl0, sl1, h1, h2, h3, h4, h5, _⟩ := C3_removeFromLastWhen
    [(some 1, none), (some 2, none), (some 3, none), ((some 3 : Option Nat), (none : Option Nat))]
    (by decide) (some (fun v => v == some 1)) (fun v => v == some 3)
  refine ⟨sl, sl0, sl1, h1, h2, h3, ?_, ?_⟩
  · rw [h4]; decide
  · exact h5 0 (some 2) (by decide) (by decide)

end PoleRpc

namespace PoleRpc

open SegmentList

/-- C4 fails on the code: `AddAll` of the 130 items `0, 1, .., 129` on `NewSegmentList()`
crosses a segment boundary; the list reports `Size() = 130` but `Get(128)` and `Get(129)` return
nil instead of the items `128` and `129`. -/
theorem C4_addAll_across_segments_loses_items :
    ((NewSegmentList : SegmentList Nat).AddAll ((List.range 130).map some) []).map
        (fun sl => (sl.Size, sl.Get 127, sl.Get 128, sl.Get 129))
      = some (130, GetResult.value (some 127), GetResult.value none, GetResult.value none) := by
  decide!

/-- C5 fails on the code: `Get(0)` on `NewSegmentList()` indexes the empty slice `segments`
and panics, and so does `Get(128)` on a list of one element, whose slot lies past the last
segment; no index-out-of-bound error is returned. -/
theorem C5_get_panics_outside_segments :
    (NewSegmentList : SegmentList Nat).Get 0 = GetResult.panics ∧
    (AddSeq (NewSegmentList : SegmentList Nat) [(some 7, none)]).map (fun sl => sl.Get 128)
      = some GetResult.panics := by
  constructor <;> decide!

/-- C6 fails on the code: on the list `0, 1, 2, 3, 4`, `RemoveFromFirst(2)` removes all five
elements (`Size() = 0`, `Get(0)` is an error) where two were to go, and `RemoveFromFirst(0)`
empties the list as well; on the list `0, .., 199`, `RemoveFromFirst(128)` panics in
`sl.segments[toIndexInSeg-1:]`, a slice from `-1`. -/
theorem C6_removeFromFirst_removes_too_much :
    ((AddSeq (NewSegmentList : SegmentList Nat)
        [(some 0, none), (some 1, none), (some 2, none), (some 3, none), (some 4, none)]).bind
        (fun sl => sl.RemoveFromFirst 2)).map (fun sl => (sl.Size, sl.Get 0))
      = some (0, GetResult.indexOutOfBound 0 0 0) ∧
    ((AddSeq (NewSegmentList : SegmentList Nat)
        [(some 0, none), (some 1, none), (some 2, none), (some 3, none), (some 4, none)]).bind
        (fun sl => sl.RemoveFromFirst 0)).map (fun sl => sl.Size)
      = some 0 ∧
    ((AddSeq (NewSegmentList : SegmentList Nat)
        ((List.range 200).map (fun i => (some i, none)))).bind
        (fun sl => sl.RemoveFromFirst 128)).map (fun sl => sl.Size)
      = none := by
  refine ⟨?_, ?_, ?_⟩ <;> decide!

/-- C7 fails on the code: after `Add(1)`, `Add(2)`, `RemoveFromFirstWhen(= 1)` the list has
`firstOffset = 1`; `Clear()` keeps it, so that after `Add(7)` the list has `Size() = 1` and
`Get(0)` is an index-out-of-bound error. After 129 calls of `Add`, `Clear()` keeps both
segments in `segments`, `Add(7)` writes into the second one and `Get(0)`, which reads the
first, is an index-out-of-bound error. -/
theorem C7_clear_keeps_firstOffset :
    (((AddSeq (NewSegmentList : SegmentList Nat) [(some 1, none), (some 2, none)]).bind
        (fun sl => sl.RemoveFromFirstWhen (fun v => v == some 1))).bind
        (fun sl => sl.Clear.Add (some 7) none)).map
        (fun sl => (sl.Size, sl.firstOffset, sl.Get 0))
      = some (1, 1, GetResult.indexOutOfBound 1 0 1) ∧
    ((AddSeq (NewSegmentList : SegmentList Nat)
        ((List.range 129).map (fun i => (some i, none)))).bind
        (fun sl => sl.Clear.Add (some 7) none)).map
        (fun sl => (sl.Size, sl.firstOffset, sl.segments.length, sl.Get 0))
      = some (1, 0, 2, GetResult.indexOutOfBound 0 0 0) := by
  constructor <;> decide!

end PoleRpc

namespace PoleRpc

namespace Segment

variable {α : Type}

theorem AddSeq_spec (es : List (Option α)) :
    ∀ (s : Segment α), s.OK → s.pos + (es.length : Int) ≤ 128 →
      ∃ s1, s.AddSeq es = some s1 ∧ s1.OK ∧ s1.offset = s.offset ∧
        s1.pos = s.pos + (es.length : Int) ∧ s1.window = s.window ++ es := by
  induction es with
  | nil => intro s h _; exact ⟨s, rfl, h, rfl, by simp, by simp⟩
  | cons e rest ih =>
    intro s h hb
    simp only [List.length_cons] at hb
    push_cast at hb
    have hlt : s.pos < 128 := by omega
    obtain ⟨s1, a1, a2, a3, a4, a5⟩ := ih (s.pushed e) (Add_OK s h hlt e)
      (by simp only [pushed]; omega)
    refine ⟨s1, ?_, a2, a3, ?_, ?_⟩
    · rw [AddSeq, Add_eq s h hlt e]
      exact a1
    · rw [a4]
      simp only [pushed, List.length_cons]
      push_cast
      omega
    · rw [a5, Add_window s h hlt e]
      simp

end Segment

open Segment in
/-- C8: a recycled segment exposes no stale data. For every segment with its `SegmentSize`
slots, `recycle()` stores the result of `Clear()`, which has `pos = 0`, `offset = 0` and all
`SegmentSize` slots nil, so that `Get(i)` is an index-out-of-bound error for every `i`; after
`k ≤ SegmentSize` further `Add` calls `Get(i)` returns the `i`-th new element for `0 ≤ i < k`
and an index-out-of-bound error for every other `i`. -/
theorem C8_recycled_segment_is_fresh {α : Type} (sl : SegmentList α) (a : Nat)
    (hlen : ((sl.heap a).elements.length : Int) = SegmentSize) :
    (sl.recycle a).heap a = (sl.heap a).Clear ∧
    (sl.heap a).Clear.pos = 0 ∧ (sl.heap a).Clear.offset = 0 ∧
    (sl.heap a).Clear.elements = List.replicate SegmentSize.toNat none ∧
    (∀ i : Int, (sl.heap a).Clear.Get i = GetResult.indexOutOfBound i 0 0) ∧
    ∀ es : List (Option α), (es.length : Int) ≤ SegmentSize →
      ∃ s1, (sl.heap a).Clear.AddSeq es = some s1 ∧
        (∀ (i : Nat) (hi : i < es.length), s1.Get (i : Int) = GetResult.value es[i]) ∧
        (∀ i : Int, ¬ (0 ≤ i ∧ i < (es.length : Int)) →
          s1.Get i = GetResult.indexOutOfBound i 0 (es.length : Int)) := by
  rw [SegmentSize_eq] at hlen
  have hc : (sl.heap a).Clear = NewSegment := Clear_eq _ (by omega)
  refine ⟨?_, by rw [hc]; rfl, by rw [hc]; rfl, by rw [hc]; rfl, ?_, ?_⟩
  · show Function.update sl.heap a _ a = _
    rw [Function.update_same]
  · intro i
    rw [hc, Get_out _ _ (by simp only [NewSegment]; omega)]
    rfl
  · intro es hes
    rw [SegmentSize_eq] at hes
    rw [hc]
    obtain ⟨s1, a1, a2, a3, a4, a5⟩ := AddSeq_spec es (NewSegment : Segment α) NewSegment_OK
      (by simp only [NewSegment]; omega)
    rw [NewSegment_window, List.nil_append] at a5
    have hoff : s1.offset = 0 := a3
    have hpos : s1.pos = (es.length : Int) := by rw [a4]; simp [NewSegment]
    refine ⟨s1, a1, ?_, ?_⟩
    · intro i hi
      have := Get_window s1 a2 i es[i] (by rw [a5]; exact List.getElem?_eq_getElem hi)
      rw [hoff, Int.zero_add] at this
      exact this
    · intro i hi
      rw [Get_out _ _ (by rw [hoff, hpos]; omega), hoff, hpos]

/-- Witness of C8: a segment holding `5` is recycled, then `7` and `8` are added. -/
theorem C8_recycled_segment_is_fresh_witness :
    ∃ s1, ((Segment.NewSegment : Segment Nat).pushed (some 5)).Clear.AddSeq [some 7, some 8]
        = some s1 ∧
      s1.Get 0 = GetResult.value (some 7) ∧ s1.Get 1 = GetResult.value (some 8) ∧
      s1.Get 2 = GetResult.indexOutOfBound 2 0 2 := by
  obtain ⟨s1, h1, h2, h3⟩ := (C8_recycled_segment_is_fresh
    ({ (SegmentList.NewSegmentList : SegmentList Nat) with
        heap := fun _ => (Segment.NewSegment : Segment Nat).pushed (some 5) }) 0
    (by decide!)).2.2.2.2.2 [some 7, some 8] (by decide)
  exact ⟨s1, h1, h2 0 (by decide), h2 1 (by decide), h3 2 (by decide)⟩

end PoleRpc

namespace PoleRpc

open HashTimeWheel in
/-- C9 fails as stated: on a wheel of 8 slots of 1s at `Tick = 7`, a delay of 2147483647s,
every value being an `int32`, gives `getSlots` the slot `-2`, where
`(7 + 2147483647) mod 8` is 6: the sum `Tick + delaySeconds/intervalSeconds` is converted to
`int32`, where it wraps, before the remainder is taken. `DelayExec` then panics on
`htw.buckets[-2]`. -/
theorem C9_getSlots_wraps_past_int32 :
    getSlots (fun d => Int.tdiv d 1000000000)
        (HashTimeWheel.mk (List.replicate 8 (timeBucket.mk ([] : List (timeTask Nat)) []))
          (Options.mk 7 8 1000000000 16)) 2147483647000000000 = some (-2, 268435455) ∧
    ((7 : Int) + 2147483647) % 8 = 6 ∧
    DelayExec (fun d => Int.tdiv d 1000000000)
        (HashTimeWheel.mk (List.replicate 8 (timeBucket.mk ([] : List (timeTask Nat)) []))
          (Options.mk 7 8 1000000000 16)) 1 2147483647000000000 = none := by
  refine ⟨?_, ?_, ?_⟩ <;> decide!

open HashTimeWheel in
/-- C9 as amended: for a wheel with `SlotNum ≥ 1` buckets, an interval of at least one second,
`0 ≤ Tick < SlotNum` and a delay of `delaySeconds ≥ 0` seconds, all values and the sum
`Tick + delaySeconds/intervalSeconds` being within the `int32` range, `getSlots(delay)` returns
`pos = (Tick + delaySeconds/intervalSeconds) mod SlotNum` and
`circle = delaySeconds/intervalSeconds/SlotNum`, with `0 ≤ pos < SlotNum` and `circle ≥ 0`, and
`DelayExec` appends the task with that circle to the queue of bucket `pos` and touches no
other bucket; for `SlotNum = 8`, an interval of 1s and a delay of 10s this is slot
`(Tick + 10) mod 8` with `circle = 1`. -/
theorem C9_getSlots_delayExec {F : Type} (seconds : Int → Int) (htw : HashTimeWheel F) (f : F)
    (delay : Int)
    (hSlot : 1 ≤ htw.opts.SlotNum) (hSlotMax : htw.opts.SlotNum ≤ MaxInt32)
    (hInterval : 1 ≤ seconds htw.opts.Interval)
    (hTick : 0 ≤ htw.opts.Tick ∧ htw.opts.Tick < htw.opts.SlotNum)
    (hDelay : 0 ≤ seconds delay)
    (hRange : htw.opts.Tick + seconds delay / seconds htw.opts.Interval ≤ MaxInt32)
    (hBuckets : (htw.buckets.length : Int) = htw.opts.SlotNum) :
    ∃ (pos circ : Int) (bucket : timeBucket F),
      pos = (htw.opts.Tick + seconds delay / seconds htw.opts.Interval) % htw.opts.SlotNum ∧
      circ = seconds delay / seconds htw.opts.Interval / htw.opts.SlotNum ∧
      htw.getSlots seconds delay = some (pos, circ) ∧
      0 ≤ pos ∧ pos < htw.opts.SlotNum ∧ 0 ≤ circ ∧
      htw.buckets[pos.toNat]? = some bucket ∧
      htw.DelayExec seconds f delay
        = some (HashTimeWheel.mk (htw.buckets.set pos.toNat (timeBucket.mk
                  (bucket.queue ++ [timeTask.mk 0 circ (some f) delay]) bucket.worker)) htw.opts,
                timeWheelFuture.mk (timeTask.mk 0 circ (some f) delay)) ∧
      (htw.opts.SlotNum = 8 → seconds htw.opts.Interval = 1 → seconds delay = 10 →
        pos = (htw.opts.Tick + 10) % 8 ∧ circ = 1) := by
  simp only [MaxInt32] at hSlotMax hRange
  have hsi : 0 < seconds htw.opts.Interval := by omega
  have hsteps0 : 0 ≤ seconds delay / seconds htw.opts.Interval :=
    Int.ediv_nonneg hDelay (by omega)
  have hgs : htw.getSlots seconds delay
      = some ((htw.opts.Tick + seconds delay / seconds htw.opts.Interval) % htw.opts.SlotNum,
              seconds delay / seconds htw.opts.Interval / htw.opts.SlotNum) := by
    unfold getSlots
    simp only []
    rw [if_neg (by omega), if_neg (by omega), Int.tdiv_eq_ediv hDelay (by omega)]
    generalize seconds delay / seconds htw.opts.Interval = steps at hsteps0 hRange ⊢
    have hp0 := Int.emod_nonneg (htw.opts.Tick + steps) (show htw.opts.SlotNum ≠ 0 by omega)
    have hp1 := Int.emod_lt_of_pos (htw.opts.Tick + steps) (show 0 < htw.opts.SlotNum by omega)
    have hc0 : 0 ≤ steps / htw.opts.SlotNum := Int.ediv_nonneg hsteps0 (by omega)
    have hc1 : steps / htw.opts.SlotNum ≤ steps := Int.ediv_le_self _ hsteps0
    have e1 : i64 steps = steps := i64_eq (by omega) (by omega)
    have e2 : i64 (htw.opts.Tick + steps) = htw.opts.Tick + steps := i64_eq (by omega) (by omega)
    have e3 : i32 (htw.opts.Tick + steps) = htw.opts.Tick + steps := i32_eq (by omega) (by omega)
    have e4 : i32 ((htw.opts.Tick + steps) % htw.opts.SlotNum)
        = (htw.opts.Tick + steps) % htw.opts.SlotNum := i32_eq (by omega) (by omega)
    have e5 : i64 (steps / htw.opts.SlotNum) = steps / htw.opts.SlotNum :=
      i64_eq (by omega) (by omega)
    have e6 : i32 (steps / htw.opts.SlotNum) = steps / htw.opts.SlotNum :=
      i32_eq (by omega) (by omega)
    rw [e1, e2, e3, Int.tmod_eq_emod (by omega) (by omega), Int.tdiv_eq_ediv hsteps0 (by omega),
      e4, e5, e6]
  have hp0 := Int.emod_nonneg (htw.opts.Tick + seconds delay / seconds htw.opts.Interval)
    (show htw.opts.SlotNum ≠ 0 by omega)
  have hp1 := Int.emod_lt_of_pos (htw.opts.Tick + seconds delay / seconds htw.opts.Interval)
    (show 0 < htw.opts.SlotNum by omega)
  have hlt : ((htw.opts.Tick + seconds delay / seconds htw.opts.Interval)
      % htw.opts.SlotNum).toNat < htw.buckets.length := by omega
  refine ⟨_, _, htw.buckets[((htw.opts.Tick + seconds delay / seconds htw.opts.Interval)
      % htw.opts.SlotNum).toNat], rfl, rfl, hgs, hp0, hp1, Int.ediv_nonneg hsteps0 (by omega),
      List.getElem?_eq_getElem hlt, ?_, ?_⟩
  · unfold DelayExec
    rw [hgs]
    simp only [sliceGet, if_pos hp0, List.getElem?_eq_getElem hlt]
    rfl
  · intro h8 h1 h10
    rw [h8, h1, h10]
    exact ⟨rfl, rfl⟩

/-- Witness of the amended C9: `SlotNum = 8`, interval 1s, `Tick = 3`, delay 10s: slot 5 and
circle 1, and `DelayExec` of the function 0 appends the task to the queue of bucket 5. -/
theorem C9_getSlots_delayExec_witness :
    ∃ (pos circ : Int) (bucket : timeBucket Nat), pos = 5 ∧ circ = 1 ∧
      HashTimeWheel.getSlots (fun d => Int.tdiv d 1000000000)
        (HashTimeWheel.mk (List.replicate 8 (timeBucket.mk ([] : List (timeTask Nat)) []))
          (Options.mk 3 8 1000000000 16)) 10000000000 = some (pos, circ) ∧
      (List.replicate 8 (timeBucket.mk ([] : List (timeTask Nat)) []))[pos.toNat]?
        = some bucket ∧
      HashTimeWheel.DelayExec (fun d => Int.tdiv d 1000000000)
        (HashTimeWheel.mk (List.replicate 8 (timeBucket.mk ([] : List (timeTask Nat)) []))
          (Options.mk 3 8 1000000000 16)) 0 10000000000
        = some (HashTimeWheel.mk
            ((List.replicate 8 (timeBucket.mk ([] : List (timeTask Nat)) [])).set pos.toNat
              (timeBucket.mk (bucket.queue ++ [timeTask.mk 0 circ (some 0) 10000000000])
                bucket.worker))
            (Options.mk 3 8 1000000000 16),
          timeWheelFuture.mk (timeTask.mk 0 circ (some 0) 10000000000)) := by
  obtain ⟨pos, circ, bucket, h1, h2, h3, _, _, _, h7, h8, _⟩ :=
    C9_getSlots_delayExec (fun d => Int.tdiv d 1000000000)
      (HashTimeWheel.mk (List.replicate 8 (timeBucket.mk ([] : List (timeTask Nat)) []))
        (Options.mk 3 8 1000000000 16)) 0 10000000000
      (by decide) (by decide) (by decide) (by decide) (by decide) (by decide) (by decide)
  exact ⟨pos, circ, bucket, h1, h2, h3, h7, h8⟩

end PoleRpc

namespace PoleRpc

open HashTimeWheel in
/-- C10 fails on the code: a bucket whose queue holds one task of `circle = 0` is scanned
with an empty channel whose every send would succeed and a budget of 16; the task is not
sent and stays in the queue with `circle = 0`, in this scan and in every later one. -/
theorem C10_circle_zero_is_never_dispatched :
    scanExpireAndRun
        ({ buckets := [], opts := { Tick := 0, SlotNum := 8, Interval := 1000000000,
                                    MaxDealTask := 16 } } : HashTimeWheel Nat)
        { queue := [{ isCancel := 0, circle := 0, f := some 1, delay := 3000000000 }],
          worker := [] } (fun _ => true)
      = { queue := [{ isCancel := 0, circle := 0, f := some 1, delay := 3000000000 }],
          worker := [] } := by
  decide!

end PoleRpc

namespace PoleRpc

open HashTimeWheel in
/-- C11 fails on the code: on a wheel of 8 slots of 1s at `Tick = 0`, `DelayExec(f, 3s)`
queues in bucket 3 a copy of the task; `Cancel()` on the returned future stores 1 into the
flag of the task of the future, the queued copy keeps `isCancel = 0`, and the bucket
consumer handed that queued task still runs `f` (the consumer of bucket 3 runs the function
7, with no panic; the others run nothing). -/
theorem C11_cancel_misses_queued_task :
    (DelayExec (fun d => Int.tdiv d 1000000000)
        (HashTimeWheel.mk (List.replicate 8 (timeBucket.mk ([] : List (timeTask Nat)) []))
          (Options.mk 0 8 1000000000 16)) 7 3000000000).map
        (fun r => (r.2.Cancel.task.isCancel,
                   r.1.buckets.map (fun b => b.queue.map (fun t => t.isCancel)),
                   r.1.buckets.map (fun b => timeBucket.execUserTask b.queue)))
      = some (1, [[], [], [], [0], [], [], [], []],
              [([], false), ([], false), ([], false), ([7], false), ([], false), ([], false),
               ([], false), ([], false)]) := by
  decide!

open HashTimeWheel in
/-- C12 fails on the code: on a wheel of 8 slots of 1s at `Tick = 0`,
`ScheduleExec(f, 10s, 3s)` queues the periodic task in bucket 2 with `circle = 1`; the run of
the wrapper of that queued task runs `f` and puts into bucket 3 a task that keeps
`circle = 1`, where `getSlots(3s)` gives circle 0, and whose `f` is nil, not the wrapper. The buckets are shown as the lists of
`(circle, f != nil)` of their queues. -/
theorem C12_rearm_keeps_old_circle_and_nil_f :
    ((ScheduleExec (fun d => Int.tdiv d 1000000000)
        (HashTimeWheel.mk (List.replicate 8 (timeBucket.mk ([] : List (timeTask (TimeFunction Nat))) []))
          (Options.mk 0 8 1000000000 16)) 7 10000000000 3000000000).bind
        (fun r => (((r.1.buckets[2]?).bind (fun b => b.queue.head?)).bind (fun t => t.f)).bind
          (fun tf => runTimeFunction (fun d => Int.tdiv d 1000000000) r.1 tf))).map
        (fun r => (r.2, r.1.buckets.map (fun b => b.queue.map (fun t => (t.circle, t.f.isSome)))))
      = some (7, [[], [], [(1, true)], [(1, false)], [], [], [], []]) ∧
    (getSlots (fun d => Int.tdiv d 1000000000)
        (HashTimeWheel.mk (List.replicate 8 (timeBucket.mk ([] : List (timeTask (TimeFunction Nat))) []))
          (Options.mk 0 8 1000000000 16)) 3000000000) = some (3, 0) := by
  constructor <;> decide!

open HashTimeWheel in
/-- C13 fails on the code: with `MaxDealTask = 1`, a queue of three tasks of `circle = -1`
and a channel that takes every send, one scan sends two tasks. -/
theorem C13_scan_sends_one_more_than_budget :
    (scanExpireAndRun
        (HashTimeWheel.mk [] (Options.mk 0 8 1000000000 1) : HashTimeWheel Nat)
        (timeBucket.mk [timeTask.mk 0 (-1) (some 1) 0, timeTask.mk 0 (-1) (some 2) 0,
                        timeTask.mk 0 (-1) (some 3) 0] [])
        (fun _ => true)).worker.length = 2 := by
  decide!

open HashTimeWheel in
/-- C14 fails on the code: `NewTimeWheel` with `SlotNum = 8` and `Interval = 1s` panics in
`make([]*timeBucket, opts.Interval, opts.SlotNum)`, whose length is the interval in
nanoseconds; with `SlotNum = 8` and `Interval = 4ns` the length 4 is too short for the loop
over 8 slots and it panics as well. -/
theorem C14_newTimeWheel_panics :
    (NewTimeWheel (Options.mk 0 8 1000000000 16) : Option (HashTimeWheel Nat)) = none ∧
    (NewTimeWheel (Options.mk 0 8 4 16) : Option (HashTimeWheel Nat)) = none := by
  constructor <;> decide!

end PoleRpc

namespace PoleRpc

theorem worker_run_running {E : Type} (w : worker) (isRunning : Nat → Int)
    (hs : w.shutdown ≠ 1) (hr : ∀ k, isRunning k ≠ 0) :
    ∀ (ts : List (PoolTask E)) (n : Nat),
      worker.run w isRunning ts n = ts.flatMap worker.deal := by
  intro ts
  induction ts with
  | nil => intro n; rfl
  | cons t rest ih =>
    intro n
    rw [worker.run, if_neg hs, if_neg (hr n), ih (n + 1)]
    rfl

theorem worker_run_closed {E : Type} (w : worker) (isRunning : Nat → Int)
    (hs : w.shutdown ≠ 1) (hr : ∀ k, isRunning k = 0) (ts : List (PoolTask E)) (n : Nat) :
    worker.run w isRunning ts n = (ts.take 1).flatMap worker.deal := by
  cases ts with
  | nil => rfl
  | cons t rest =>
    rw [worker.run, if_neg hs, if_pos (hr n)]
    simp

theorem worker_run_received {E : Type} (w : worker) (isRunning : Nat → Int)
    (hs : w.shutdown ≠ 1) :
    ∀ (ts : List (PoolTask E)) (n : Nat),
      worker.run w isRunning ts n = (worker.received w isRunning ts n).flatMap worker.deal := by
  intro ts
  induction ts with
  | nil => intro n; rfl
  | cons t rest ih =>
    intro n
    rw [worker.run, worker.received, if_neg hs, if_neg hs]
    by_cases hr : isRunning n = 0
    · rw [if_pos hr, if_pos hr]
      simp
    · rw [if_neg hr, if_neg hr, ih (n + 1)]
      simp

theorem executed_mem_deal {E : Type} (t : PoolTask E) :
    WorkerEvent.executed t.id ∈ worker.deal t := by
  unfold worker.deal
  cases t.outcome <;> simp

theorem spawnWorkers_started :
    ∀ (fuel : Nat) (newWorkers started : List worker) (i bound : Int)
      (r : List worker × List worker),
      RoutinePool.spawnWorkers fuel newWorkers started i bound = some r →
      (∀ w ∈ started, w.shutdown = 0) → ∀ w ∈ r.2, w.shutdown = 0 := by
  intro fuel
  induction fuel with
  | zero =>
    intro newWorkers started i bound r h hs
    rw [RoutinePool.spawnWorkers] at h
    split at h
    · exact Option.noConfusion h
    · rw [Option.some.injEq] at h
      rw [← h]
      exact hs
  | succ fuel ih =>
    intro newWorkers started i bound r h hs
    rw [RoutinePool.spawnWorkers] at h
    split at h
    · split at h
      · exact Option.noConfusion h
      · apply ih _ _ _ _ r h
        intro w hw
        rcases List.mem_append.1 hw with h1 | h1
        · exact hs w h1
        · rw [List.mem_singleton] at h1
          rw [h1]
    · rw [Option.some.injEq] at h
      rw [← h]
      exact hs

theorem NewRoutinePool_submitted {E : Type} (size cacheSize : Int) (rp : RoutinePool E)
    (h : RoutinePool.NewRoutinePool size cacheSize = some rp) :
    ∀ w ∈ rp.submitted, w.shutdown = 0 := by
  unfold RoutinePool.NewRoutinePool RoutinePool.init at h
  split at h
  · exact Option.noConfusion h
  · split at h
    · exact Option.noConfusion h
    · rw [Option.some.injEq] at h
      rw [← h]
      intro w hw
      simp only [List.nil_append] at hw
      rw [List.eq_of_mem_replicate hw]

theorem Resize_submitted {E : Type} (rp rp1 : RoutinePool E) (newSize : Int)
    (hsub : ∀ w ∈ rp.submitted, w.shutdown = 0) (hres : rp.Resize newSize = some rp1) :
    ∀ w ∈ rp1.submitted, w.shutdown = 0 := by
  unfold RoutinePool.Resize at hres
  split at hres
  · exact Option.noConfusion hres
  · split at hres
    · split at hres
      · exact Option.noConfusion hres
      · split at hres
        · exact Option.noConfusion hres
        · split at hres
          · exact Option.noConfusion hres
          · rw [Option.some.injEq] at hres
            rw [← hres]
            exact hsub
    · split at hres
      · split at hres
        · exact Option.noConfusion hres
        · split at hres
          · exact Option.noConfusion hres
          · rename_i r hsp
            rw [Option.some.injEq] at hres
            rw [← hres]
            intro w hw
            rcases List.mem_append.1 hw with h1 | h1
            · exact hsub w h1
            · exact spawnWorkers_started _ _ _ _ _ _ hsp (by simp) w h1
      · rw [Option.some.injEq] at hres
        rw [← hres]
        exact hsub

/-- C15: a worker whose shutdown flag is clear, in a pool that stays running, deals with
every task the channel delivers to it, in channel order and once each: a task that returns
is executed, a task that panics is executed and the panic handler is called once with the
panic value, after which the worker goes on with the next task. -/
theorem C15_worker_runs_every_task {E : Type} (w : worker) (isRunning : Nat → Int)
    (hs : w.shutdown ≠ 1) (hr : ∀ k, isRunning k ≠ 0) (ts : List (PoolTask E)) :
    worker.run w isRunning ts 0
      = ts.flatMap (fun t => match t.outcome with
          | none => [WorkerEvent.executed t.id]
          | some err => [WorkerEvent.executed t.id, WorkerEvent.handled err]) :=
  worker_run_running w isRunning hs hr ts 0

/-- Witness of C15: three tasks, the second panics with the value 9. -/
theorem C15_worker_runs_every_task_witness :
    worker.run (worker.mk 0) (fun _ => 1)
        [PoolTask.mk 1 none, PoolTask.mk 2 (some 9), PoolTask.mk 3 (none : Option Nat)] 0
      = [WorkerEvent.executed 1, WorkerEvent.executed 2, WorkerEvent.handled 9,
         WorkerEvent.executed 3] :=
  C15_worker_runs_every_task (worker.mk 0) (fun _ => 1) (by decide) (fun _ => by norm_num)
    [PoolTask.mk 1 none, PoolTask.mk 2 (some 9), PoolTask.mk 3 none]

/-- C16: a worker never loses a task it has taken from the channel. The receiver of a
`run` the pool hands to `GoEmpty` is a copy of `worker{owner: rp}`, whose shutdown flag is
clear: this holds of the workers `NewRoutinePool` starts, and a `Resize` that returns, to
any size, keeps it, for a shrinking `Resize` stores the flag into the elements of
`rp.workers`, not into those copies. The run of a receiver with a clear flag deals with
every task it takes from the channel, in order and once each, whatever `isRunning` is read
after each task. -/
theorem C16_received_task_is_executed {E : Type} :
    (∀ (size cacheSize : Int) (rp : RoutinePool E),
        RoutinePool.NewRoutinePool size cacheSize = some rp →
        ∀ w ∈ rp.submitted, w.shutdown = 0) ∧
    (∀ (rp rp1 : RoutinePool E) (newSize : Int),
        (∀ w ∈ rp.submitted, w.shutdown = 0) → rp.Resize newSize = some rp1 →
        ∀ w ∈ rp1.submitted, w.shutdown = 0) ∧
    (∀ (w : worker) (isRunning : Nat → Int) (ts : List (PoolTask E)),
        w.shutdown = 0 →
        worker.run w isRunning ts 0
          = (worker.received w isRunning ts 0).flatMap worker.deal ∧
        ∀ t ∈ worker.received w isRunning ts 0,
          WorkerEvent.executed t.id ∈ worker.run w isRunning ts 0) := by
  refine ⟨?_, ?_, ?_⟩
  · intro size cacheSize rp h
    exact NewRoutinePool_submitted size cacheSize rp h
  · intro rp rp1 newSize hsub hres
    exact Resize_submitted rp rp1 newSize hsub hres
  · intro w isRunning ts hs
    have hrun := worker_run_received w isRunning (by rw [hs]; decide) ts 0
    refine ⟨hrun, ?_⟩
    intro t ht
    rw [hrun, List.mem_flatMap]
    exact ⟨t, ht, executed_mem_deal t⟩

/-- Witness of C16: a pool of three workers, with a lock put in, is shrunk to one by
`Resize(1)`, whose loop flags the elements 1 and 2 of `rp.workers`; the receivers of the
three runs keep a clear flag, and such a run, handed three tasks in a running pool, deals
with each of them. -/
theorem C16_received_task_is_executed_witness :
    RoutinePool.markShutdown 2 [worker.mk 0, worker.mk 0, worker.mk 0] 1 3
      = some [worker.mk 0, worker.mk 1, worker.mk 1] ∧
    ∃ rp1 : RoutinePool Nat,
      RoutinePool.Resize (RoutinePool.mk (some ()) 3 4 1 [] false
        [worker.mk 0, worker.mk 0, worker.mk 0] [worker.mk 0, worker.mk 0, worker.mk 0]) 1
        = some rp1 ∧
      rp1.size = 1 ∧
      (∀ w ∈ rp1.submitted, w.shutdown = 0) ∧
      worker.run (worker.mk 0) (fun _ => 1)
          [PoolTask.mk 1 none, PoolTask.mk 2 (some 9), PoolTask.mk 3 (none : Option Nat)] 0
        = (worker.received (worker.mk 0) (fun _ => 1)
            [PoolTask.mk 1 none, PoolTask.mk 2 (some 9), PoolTask.mk 3 (none : Option Nat)]
            0).flatMap worker.deal :=
  ⟨by decide!, RoutinePool.mk (some ()) 1 4 1 [] false [worker.mk 0]
      [worker.mk 0, worker.mk 0, worker.mk 0],
    by decide!, rfl,
    (C16_received_task_is_executed (E := Nat)).2.1
      (RoutinePool.mk (some ()) 3 4 1 [] false
        [worker.mk 0, worker.mk 0, worker.mk 0] [worker.mk 0, worker.mk 0, worker.mk 0])
      _ 1 (by decide) (by decide!),
    ((C16_received_task_is_executed (E := Nat)).2.2 (worker.mk 0) (fun _ => 1)
      [PoolTask.mk 1 none, PoolTask.mk 2 (some 9), PoolTask.mk 3 none] rfl).1⟩

/-- C17 fails as stated: after `Close()` (`isRunning = 0`) a worker handed the two buffered
tasks 1 and 2 executes task 1 and exits; task 2 is not executed. -/
theorem C17_close_leaves_buffered_tasks :
    worker.run (worker.mk 0) (fun _ => (RoutinePool.Close
        (RoutinePool.mk (some ()) 1 4 1 [PoolTask.mk 1 none, PoolTask.mk 2 none] false
          [worker.mk 0] [worker.mk 0] : RoutinePool Nat)).isRunning)
        [PoolTask.mk 1 none, PoolTask.mk 2 (none : Option Nat)] 0
      = [WorkerEvent.executed 1] ∧
    WorkerEvent.executed 2 ∉ worker.run (worker.mk 0) (fun _ => (RoutinePool.Close
        (RoutinePool.mk (some ()) 1 4 1 [PoolTask.mk 1 none, PoolTask.mk 2 none] false
          [worker.mk 0] [worker.mk 0] : RoutinePool Nat)).isRunning)
        [PoolTask.mk 1 none, PoolTask.mk 2 (none : Option Nat)] 0 := by
  constructor <;> decide!

/-- C17 as amended: `Close()` sets `isRunning = 0`, and a worker whose shutdown flag is
clear and that reads `isRunning = 0` after each task deals with the first task the closed
channel delivers to it, if any, and then exits: of the buffered tasks it executes one. -/
theorem C17_close_worker_runs_one_task {E : Type} (rp : RoutinePool E) (w : worker)
    (hs : w.shutdown ≠ 1) (ts : List (PoolTask E)) :
    rp.Close.isRunning = 0 ∧ rp.Close.closed = true ∧
    worker.run w (fun _ => rp.Close.isRunning) ts 0 = (ts.take 1).flatMap worker.deal :=
  ⟨rfl, rfl, worker_run_closed w _ hs (fun _ => rfl) ts 0⟩

/-- Witness of the amended C17: three buffered tasks, one is executed. -/
theorem C17_close_worker_runs_one_task_witness :
    worker.run (worker.mk 0) (fun _ => (RoutinePool.Close
        (RoutinePool.mk (some ()) 1 4 1 [] false [] [] : RoutinePool Nat)).isRunning)
        [PoolTask.mk 1 none, PoolTask.mk 2 none, PoolTask.mk 3 (none : Option Nat)] 0
      = [WorkerEvent.executed 1] :=
  (C17_close_worker_runs_one_task (RoutinePool.mk (some ()) 1 4 1 [] false [] [])
    (worker.mk 0) (by decide)
    [PoolTask.mk 1 none, PoolTask.mk 2 none, PoolTask.mk 3 none]).2.2

open RoutinePool in
/-- C18 fails on the code: the pool made by `NewRoutinePool(2, 4)` has a nil `lock` and an
empty `workers` slice (its two workers were only handed to `GoEmpty`), and `Resize(1)` and
`Resize(3)` panic; with a lock put in, `Resize(1)` still panics on `rp.workers[0]`. -/
theorem C18_resize_panics :
    (NewRoutinePool 2 4 : Option (RoutinePool Nat)).map
        (fun rp => (rp.lock, rp.workers, rp.submitted, rp.size))
      = some (none, [], [worker.mk 0, worker.mk 0], 2) ∧
    (NewRoutinePool 2 4 : Option (RoutinePool Nat)).bind (fun rp => rp.Resize 1) = none ∧
    (NewRoutinePool 2 4 : Option (RoutinePool Nat)).bind (fun rp => rp.Resize 3) = none ∧
    (NewRoutinePool 2 4 : Option (RoutinePool Nat)).bind
        (fun rp => Resize { rp with lock := some () } 1) = none := by
  refine ⟨?_, ?_, ?_, ?_⟩ <;> decide!

/-- C19 fails as stated: a `CtxFuture` made by `NewCtxFuture` calls the function its
caller handed in; with a function that counts its calls, two calls of `Cancel()` leave the
count at 2 where one call leaves it at 1. -/
theorem C19_ctxFuture_cancel_twice_differs :
    (NewCtxFuture (fun n : Nat => n + 1)).Cancel ((NewCtxFuture (fun n : Nat => n + 1)).Cancel 0)
      = 2 ∧
    (NewCtxFuture (fun n : Nat => n + 1)).Cancel 0 = 1 ∧
    (NewCtxFuture (fun n : Nat => n + 1)).Cancel ((NewCtxFuture (fun n : Nat => n + 1)).Cancel 0)
      ≠ (NewCtxFuture (fun n : Nat => n + 1)).Cancel 0 := by
  refine ⟨rfl, rfl, ?_⟩
  decide

/-- C19 as amended: on a `timeWheelFuture`, `Cancel()` leaves the cancel flag of the task at
1 and every other field of the task as it was, and a second call changes nothing. On a
`CtxFuture`, `FluxFuture` and `MonoFuture`, `Cancel()` is one call of the cancel function
the future was made with and nothing else; when a second call of that function does
nothing, as the contract of `context.CancelFunc` has it, a second `Cancel()` does nothing
either. -/
theorem C19_cancel_idempotent {F W : Type} (fut : timeWheelFuture F) (cancel : W → W)
    (w : W) :
    fut.Cancel.Cancel = fut.Cancel ∧
    fut.Cancel.task.isCancel = 1 ∧
    fut.Cancel.task.circle = fut.task.circle ∧
    fut.Cancel.task.f = fut.task.f ∧
    fut.Cancel.task.delay = fut.task.delay ∧
    (NewCtxFuture cancel).Cancel w = cancel w ∧
    (NewFluxFuture cancel).Cancel w = cancel w ∧
    (NewMonoFuture cancel).Cancel w = cancel w ∧
    ((∀ v, cancel (cancel v) = cancel v) →
      (NewCtxFuture cancel).Cancel ((NewCtxFuture cancel).Cancel w)
        = (NewCtxFuture cancel).Cancel w ∧
      (NewFluxFuture cancel).Cancel ((NewFluxFuture cancel).Cancel w)
        = (NewFluxFuture cancel).Cancel w ∧
      (NewMonoFuture cancel).Cancel ((NewMonoFuture cancel).Cancel w)
        = (NewMonoFuture cancel).Cancel w) :=
  ⟨rfl, rfl, rfl, rfl, rfl, rfl, rfl, rfl, fun h => ⟨h w, h w, h w⟩⟩

/-- Witness of the amended C19: the context is a flag, the cancel function sets it. -/
theorem C19_cancel_idempotent_witness :
    (NewCtxFuture (fun _ : Bool => true)).Cancel
        ((NewCtxFuture (fun _ : Bool => true)).Cancel false)
      = (NewCtxFuture (fun _ : Bool => true)).Cancel false ∧
    (NewFluxFuture (fun _ : Bool => true)).Cancel
        ((NewFluxFuture (fun _ : Bool => true)).Cancel false)
      = (NewFluxFuture (fun _ : Bool => true)).Cancel false ∧
    (NewMonoFuture (fun _ : Bool => true)).Cancel
        ((NewMonoFuture (fun _ : Bool => true)).Cancel false)
      = (NewMonoFuture (fun _ : Bool => true)).Cancel false :=
  (C19_cancel_idempotent (timeWheelFuture.mk (timeTask.mk 0 0 (some 1) 0))
    (fun _ : Bool => true) false).2.2.2.2.2.2.2.2 (fun _ => rfl)

/-- C20 fails on the code: on the tree `5 / (3 / (1, 4), 8 / (7, 9))` of the comment of
`FindNearbyLeft`, `FindNearbyLeft(1)` returns the node 1, not nil; `FindNearbyLeft(5)`
returns the node 3 of the comment, which is not the greatest value below 5, the 4. -/
theorem C20_findNearbyLeft_of_min_is_not_nil :
    FindNearbyLeft (fun a b => a - b)
        (node.mk (node.mk (node.mk node.nil 1 node.nil) 3 (node.mk node.nil 4 node.nil)) 5
          (node.mk (node.mk node.nil 7 node.nil) 8 (node.mk node.nil 9 node.nil))) 1
      = some 1 ∧
    FindNearbyLeft (fun a b => a - b)
        (node.mk (node.mk (node.mk node.nil 1 node.nil) 3 (node.mk node.nil 4 node.nil)) 5
          (node.mk (node.mk node.nil 7 node.nil) 8 (node.mk node.nil 9 node.nil))) 5
      = some 3 := by
  constructor <;> decide!

end PoleRpc

namespace PoleRpc

open SegmentList in
/-- C21 fails on the code: after 129 calls of `Add`, `Clear()` puts both segments into the
pool and keeps them in `segments`; 128 further calls of `Add` fill the second one, and the
list has `size = 128`, the sum of `pos - offset`. The next `Add` takes a segment from the
pool. When the pool hands back the first segment, the first one that was put, it is
appended a second time, `segments` is `[0, 1, 0]`, and the list has `size = 129` where the
sum of `pos - offset` is `130`; when it hands back the second, full, segment, `Add`
panics. -/
theorem C21_size_differs_from_segments_sum :
    ((AddSeq (NewSegmentList : SegmentList Nat)
        ((List.range 129).map (fun i => (some i, none)))).bind
        (fun sl => AddSeq sl.Clear ((List.range 128).map (fun i => (some i, none))))).map
        (fun sl => (sl.Size, segmentsSum sl, sl.segments, sl.pool))
      = some (128, 128, [0, 1], [1, 0]) ∧
    (((AddSeq (NewSegmentList : SegmentList Nat)
        ((List.range 129).map (fun i => (some i, none)))).bind
        (fun sl => AddSeq sl.Clear ((List.range 128).map (fun i => (some i, none))))).bind
        (fun sl => sl.Add (some 7) (some 1))).map
        (fun sl => (sl.Size, segmentsSum sl, sl.segments))
      = some (129, 130, [0, 1, 0]) ∧
    (((AddSeq (NewSegmentList : SegmentList Nat)
        ((List.range 129).map (fun i => (some i, none)))).bind
        (fun sl => AddSeq sl.Clear ((List.range 128).map (fun i => (some i, none))))).bind
        (fun sl => sl.Add (some 7) (some 0))).map (fun sl => sl.Size)
      = none := by
  refine ⟨?_, ?_, ?_⟩ <;> decide!

end PoleRpc

namespace PoleRpc

/-- C22 fails on the code: a segment filled by five calls of `Add` has `offset = 0` and
`pos = 5`; `RemoveFromFirst(10)` runs its loop up to `max(toIndex, pos) = 10`, reports 10
removed elements and leaves `offset = 10` above `pos = 5`. -/
theorem C22_removeFromFirst_moves_offset_past_pos :
    (Segment.AddSeq (Segment.NewSegment : Segment Nat)
        [some 0, some 1, some 2, some 3, some 4]).map (fun s => (s.offset, s.pos))
      = some (0, 5) ∧
    ((Segment.AddSeq (Segment.NewSegment : Segment Nat)
        [some 0, some 1, some 2, some 3, some 4]).bind
        (fun s => s.RemoveFromFirst 10)).map (fun r => (r.1.offset, r.1.pos, r.2))
      = some (10, 5, 10) := by
  constructor <;> decide!

end PoleRpc

namespace PoleRpc

open HashTimeWheel in
/-- C23 fails on the code: a bucket whose queue holds one task of `circle = 2` is scanned
twice; the task stays in the queue and is not sent, and its stored `circle` is `2` after
the first scan and after the second, where `1` and `0` were to be stored: the decrement is
made on the copy `task` of the list element. -/
theorem C23_scan_keeps_stored_circle :
    scanExpireAndRun
        ({ buckets := [], opts := { Tick := 0, SlotNum := 8, Interval := 1000000000,
                                    MaxDealTask := 16 } } : HashTimeWheel Nat)
        { queue := [{ isCancel := 0, circle := 2, f := some 1, delay := 17000000000 }],
          worker := [] } (fun _ => true)
      = { queue := [{ isCancel := 0, circle := 2, f := some 1, delay := 17000000000 }],
          worker := [] } ∧
    scanExpireAndRun
        ({ buckets := [], opts := { Tick := 0, SlotNum := 8, Interval := 1000000000,
                                    MaxDealTask := 16 } } : HashTimeWheel Nat)
        (scanExpireAndRun
          ({ buckets := [], opts := { Tick := 0, SlotNum := 8, Interval := 1000000000,
                                      MaxDealTask := 16 } } : HashTimeWheel Nat)
          { queue := [{ isCancel := 0, circle := 2, f := some 1, delay := 17000000000 }],
            worker := [] } (fun _ => true)) (fun _ => true)
      = { queue := [{ isCancel := 0, circle := 2, f := some 1, delay := 17000000000 }],
          worker := [] } := by
  constructor <;> decide!

end PoleRpc

namespace PoleRpc

open HashTimeWheel in
/-- C24: a scan of a bucket drops no task. The tasks it sends are appended to the channel,
the queue it leaves and the tasks it sent are both taken from the old queue in their old
order, and together they are the old queue, every task once. Whenever the loop is at a
dispatch candidate `task` whose send times out, the queue left by the scan holds the items
kept so far, then `task`, then what is kept of the items behind it, and what is sent from
there on is taken from the items behind it. When every send times out the bucket is left as
it was. -/
theorem C24_scan_keeps_or_sends_every_task {F : Type} (htw : HashTimeWheel F)
    (tb : timeBucket F) (sel : Nat → Bool) :
    (∃ sent, (scanExpireAndRun htw tb sel).worker = tb.worker ++ sent ∧
        (scanExpireAndRun htw tb sel).queue.Sublist tb.queue ∧ sent.Sublist tb.queue ∧
        ((scanExpireAndRun htw tb sel).queue ++ sent).Perm tb.queue) ∧
    (∀ (kept : List (timeTask F)) (task : timeTask F) (rest worker : List (timeTask F))
        (execCnt : Int) (deals : Nat),
        htw.opts.MaxDealTask ≥ execCnt → task.circle < 0 → sel deals = false →
        ∃ q sent, scanLoop htw.opts.MaxDealTask sel kept (task :: rest) worker execCnt deals
            = { queue := kept ++ task :: q, worker := worker ++ sent } ∧
          q.Sublist rest ∧ sent.Sublist rest ∧ (q ++ sent).Perm rest) ∧
    ((∀ n, sel n = false) → scanExpireAndRun htw tb sel = tb) := by
  refine ⟨?_, ?_, ?_⟩
  · obtain ⟨q, sent, he, hq, hs, hp, _⟩ :=
      scanLoop_spec htw.opts.MaxDealTask sel tb.queue [] tb.worker 0 0
    refine ⟨sent, ?_, ?_, hs, ?_⟩
    · rw [scanExpireAndRun, he]
    · rw [scanExpireAndRun, he]; exact hq
    · rw [scanExpireAndRun, he]; exact hp
  · intro kept task rest worker execCnt deals hb hc ht
    obtain ⟨q, sent, he, hq, hs, hp, _⟩ :=
      scanLoop_spec htw.opts.MaxDealTask sel rest (kept ++ [task]) worker execCnt (deals + 1)
    refine ⟨q, sent, ?_, hq, hs, hp⟩
    rw [scanLoop_timeout _ _ _ _ _ _ _ _ hb hc ht, he]
    simp
  · intro hsel
    rw [scanExpireAndRun, scanLoop_all_timeout _ _ hsel]
    rfl

open HashTimeWheel in
/-- Witness of C24: a queue of three tasks, the first and the last ready; the first send
times out and the second succeeds. -/
theorem C24_scan_keeps_or_sends_every_task_witness :
    (16 : Int) ≥ 0 ∧ (-1 : Int) < 0 ∧ (decide (0 = 1) = false) ∧
    ∃ q sent, scanLoop 16 (fun n => decide (n = 1)) []
        (({ isCancel := 0, circle := -1, f := some 1, delay := 0 } : timeTask Nat) ::
          [{ isCancel := 0, circle := 1, f := some 2, delay := 0 },
           { isCancel := 0, circle := -1, f := some 3, delay := 0 }]) [] 0 0
        = { queue := [] ++ ({ isCancel := 0, circle := -1, f := some 1, delay := 0 } :
                timeTask Nat) :: q,
            worker := [] ++ sent } ∧
      q.Sublist [{ isCancel := 0, circle := 1, f := some 2, delay := 0 },
           { isCancel := 0, circle := -1, f := some 3, delay := 0 }] ∧
      sent.Sublist [{ isCancel := 0, circle := 1, f := some 2, delay := 0 },
           { isCancel := 0, circle := -1, f := some 3, delay := 0 }] ∧
      (q ++ sent).Perm [{ isCancel := 0, circle := 1, f := some 2, delay := 0 },
           { isCancel := 0, circle := -1, f := some 3, delay := 0 }] :=
  ⟨by decide, by decide, by decide,
    (C24_scan_keeps_or_sends_every_task
      ({ buckets := [], opts := { Tick := 0, SlotNum := 8, Interval := 1000000000,
                                  MaxDealTask := 16 } } : HashTimeWheel Nat)
      { queue := [], worker := [] } (fun n => decide (n = 1))).2.1 []
      { isCancel := 0, circle := -1, f := some 1, delay := 0 }
      [{ isCancel := 0, circle := 1, f := some 2, delay := 0 },
       { isCancel := 0, circle := -1, f := some 3, delay := 0 }] [] 0 0
      (by decide) (by decide) (by decide)⟩

end PoleRpc

namespace PoleRpc

open HashTimeWheel in
/-- C25: on a wheel with `SlotNum` buckets and `0 ≤ Tick < SlotNum`, `process()` scans the
bucket number `Tick` and no other and sets `Tick` to `(Tick + 1) mod SlotNum`, which lies in
`[0, SlotNum)` again; `clearAllAndProcess()` returns, leaves `Tick` and the other options as
they were, and leaves every bucket as one scan of it leaves it, bucket `idx` being scanned
by the call number `(idx - Tick) mod SlotNum`. -/
theorem C25_process_advances_tick_and_sweep_scans_all {F : Type} (htw : HashTimeWheel F)
    (sel : Nat → Bool) (sels : Nat → Nat → Bool)
    (hSlotMax : htw.opts.SlotNum ≤ MaxInt32)
    (hTick : 0 ≤ htw.opts.Tick ∧ htw.opts.Tick < htw.opts.SlotNum)
    (hBuckets : (htw.buckets.length : Int) = htw.opts.SlotNum) :
    (∃ b, htw.buckets[htw.opts.Tick.toNat]? = some b ∧
      htw.process sel
        = some (HashTimeWheel.mk
            (htw.buckets.set htw.opts.Tick.toNat (htw.scanExpireAndRun b sel))
            (Options.mk ((htw.opts.Tick + 1) % htw.opts.SlotNum) htw.opts.SlotNum
              htw.opts.Interval htw.opts.MaxDealTask)) ∧
      0 ≤ (htw.opts.Tick + 1) % htw.opts.SlotNum ∧
      (htw.opts.Tick + 1) % htw.opts.SlotNum < htw.opts.SlotNum) ∧
    (∃ htw1 : HashTimeWheel F,
      htw.clearAllAndProcess sels = some htw1 ∧ htw1.opts = htw.opts ∧
      htw1.buckets.length = htw.buckets.length ∧
      ∀ idx : Nat, htw1.buckets[idx]? =
        (htw.buckets[idx]?).map (fun b =>
          htw.scanExpireAndRun b
            (sels (((idx : Int) - htw.opts.Tick) % htw.opts.SlotNum).toNat))) := by
  simp only [MaxInt32] at hSlotMax
  obtain ⟨hT0, hT1⟩ := hTick
  have hT : htw.opts.Tick = ((htw.opts.Tick.toNat : Nat) : Int) :=
    (Int.toNat_of_nonneg hT0).symm
  generalize htw.opts.Tick.toNat = t at hT
  have hS : htw.opts.SlotNum = ((htw.buckets.length : Nat) : Int) := hBuckets.symm
  have ht : t < htw.buckets.length := by omega
  have hmax : ((htw.buckets.length : Nat) : Int) ≤ 2147483647 := by omega
  refine ⟨?_, ?_⟩
  · obtain ⟨b, hb, hp⟩ := process_spec htw sel htw.buckets.length t rfl hS hT ht hmax
    have hmod : (htw.opts.Tick + 1) % htw.opts.SlotNum
        = if t + 1 = htw.buckets.length then 0 else ((t + 1 : Nat) : Int) := by
      rw [hT, hS]
      by_cases h : t + 1 = htw.buckets.length
      · rw [if_pos h, ← h]; push_cast; exact Int.emod_self
      · rw [if_neg h, Int.emod_eq_of_lt (by omega) (by omega)]; push_cast; rfl
    refine ⟨b, hb, ?_, ?_, ?_⟩
    · rw [hp, hmod]
    · exact Int.emod_nonneg _ (by omega)
    · exact Int.emod_lt_of_pos _ (by omega)
  · obtain ⟨htw1, hrun, hlen, hopts, hbk⟩ :=
      clearAllAndProcess_spec sels htw htw.buckets.length t hmax rfl hS hT ht
    refine ⟨htw1, hrun, hopts, hlen, ?_⟩
    intro idx
    rw [hbk idx]
    by_cases hi : idx < htw.buckets.length
    · have hcall : (((idx : Int) - htw.opts.Tick) % htw.opts.SlotNum).toNat
          = if t ≤ idx then idx - t else htw.buckets.length - t + idx := by
        rw [hT, hS]
        by_cases h : t ≤ idx
        · rw [if_pos h, Int.emod_eq_of_lt (by omega) (by omega)]
          omega
        · rw [if_neg h, ← Int.add_emod_self, Int.emod_eq_of_lt (by omega) (by omega)]
          omega
      rw [hcall]
    · rw [List.getElem?_eq_none (by omega)]
      rfl

open HashTimeWheel in
/-- Witness of C25: a wheel of three empty buckets at `Tick = 1`. -/
theorem C25_process_advances_tick_and_sweep_scans_all_witness :
    ∃ htw1 : HashTimeWheel Nat,
      clearAllAndProcess
        (HashTimeWheel.mk (List.replicate 3 (timeBucket.mk ([] : List (timeTask Nat)) []))
          (Options.mk 1 3 1000000000 16)) (fun _ _ => true) = some htw1 ∧
      htw1.opts = Options.mk 1 3 1000000000 16 := by
  obtain ⟨_, htw1, h1, h2, _⟩ :=
    C25_process_advances_tick_and_sweep_scans_all
      (HashTimeWheel.mk (List.replicate 3 (timeBucket.mk ([] : List (timeTask Nat)) []))
        (Options.mk 1 3 1000000000 16)) (fun _ => true) (fun _ _ => true)
      (by decide) (by decide) (by decide)
  exact ⟨htw1, h1, h2⟩

end PoleRpc

namespace PoleRpc

open SegmentList in
/-- C26: starting from `NewSegmentList()`, every run of calls of `Add`, `AddAll`,
`RemoveFromFirstWhen` and `RemoveFromLastWhen`, whatever the pool hands out, in which the
list stays within the reach of an `int32` index, returns a list; when that list is not
empty, `PeekFirst()` and `PeekLast()` do not panic, `Get(0)` and `Get(Size() - 1)` return no
error, `PeekFirst()` is the element `Get(0)` returns and `PeekLast()` is the element
`Get(Size() - 1)` returns. -/
theorem C26_peek_agrees_with_get {α : Type} (ops : List (Op α))
    (hRange : opsInRange (NewSegmentList : SegmentList α) ops = true) :
    ∃ sl : SegmentList α, runOps NewSegmentList ops = some sl ∧
      (sl.IsEmpty = false →
        ∃ v w, sl.PeekFirst = some v ∧ sl.Get 0 = GetResult.value v ∧
          sl.PeekLast = some w ∧ sl.Get (sl.Size - 1) = GetResult.value w) := by
  obtain ⟨sl, ys, hrun, hinv⟩ := runOps_Inv ops NewSegmentList [] NewSegmentList_Inv hRange
  refine ⟨sl, hrun, ?_⟩
  intro hne
  have hs : sl.size = (ys.length : Int) := hinv.2.2.2.1
  have hsz : sl.size ≠ 0 := by
    intro h0
    rw [SegmentList.IsEmpty, h0] at hne
    exact absurd hne (by decide)
  have hys : ys ≠ [] := by
    intro hnil
    rw [hnil] at hs
    exact hsz hs
  have hlen : 0 < ys.length := List.length_pos.mpr hys
  obtain ⟨v, hv, hpf⟩ := PeekFirst_of_Inv sl ys hinv hys
  obtain ⟨w, hw, hpl⟩ := PeekLast_of_Inv sl ys hinv hys
  refine ⟨v, w, hpf, Get_of_Inv sl ys hinv 0 v hv, hpl, ?_⟩
  have hidx : sl.Size - 1 = ((ys.length - 1 : Nat) : Int) := by
    rw [SegmentList.Size, hs]; omega
  rw [hidx]
  exact Get_of_Inv sl ys hinv (ys.length - 1) w hw

open SegmentList in
/-- Witness of C26: `AddAll` of three elements, `Add` of a fourth, then a trim at each
end. -/
theorem C26_peek_agrees_with_get_witness :
    ∃ sl : SegmentList Nat,
      runOps NewSegmentList
        [Op.addAll [some 1, some 2, some 3] [], Op.add (some 4) none,
         Op.removeFromFirstWhen (fun v => v == some 1),
         Op.removeFromLastWhen (fun v => v == some 4)] = some sl ∧
      (sl.IsEmpty = false →
        ∃ v w, sl.PeekFirst = some v ∧ sl.Get 0 = GetResult.value v ∧
          sl.PeekLast = some w ∧ sl.Get (sl.Size - 1) = GetResult.value w) :=
  C26_peek_agrees_with_get
    [Op.addAll [some 1, some 2, some 3] [], Op.add (some 4) none,
     Op.removeFromFirstWhen (fun v => v == some 1),
     Op.removeFromLastWhen (fun v => v == some 4)] (by decide!)

end PoleRpc
